import Mathlib

/-!
# rabbitmq-c: binary codec, RPC correlation and handshake

A shallow embedding of `librabbitmq/amqp_private.h` (the fixed-width codec, the
byte-range codec, the 64-bit byte-order conversion) and of
`librabbitmq/amqp_socket.c` (frame waiting, the frame queue, `amqp_simple_rpc`,
`amqp_simple_rpc_decoded`, `amqp_simple_wait_method`, `amqp_login`,
`base64_encode`).

Conventions.
* `size_t` is 64 bits wide; a `size_t` sum is taken modulo `2 ^ 64` (`size_add`).
* `uintN_t` values are naturals below `2 ^ N`.
* Memory is a map from addresses to bytes; a pointer is an address; `NULL` is `0`.
  Pointer arithmetic (`amqp_offset`) is plain addition of addresses.
* The host byte order is the boolean `be` (`true` when `WORDS_BIGENDIAN` is
  defined): it selects the object representation used by `memcpy`, the behaviour
  of `htons`/`htonl` and the variant of `DECLARE_XTOXLL`.
* `int` statuses are integers. The socket cursor (`sock_inbound_offset`,
  `sock_inbound_limit`) stays far below `SIZE_MAX`, and is not reduced modulo
  `2 ^ 64`.
* A function that has an out-parameter returns its final value next to the status.
* A call that may not return has a result of type `Run`: it returns, or a failed
  `assert` terminates the process, or `recv` blocks for ever.
* The functions and constants that `amqp_socket.c` takes from files outside the
  sources are the fields of `Externals` and, for the handshake, of
  `LoginExternals`; the pool allocator is modelled from the specification.
* An `int` is an integer; a conversion between `int` and an unsigned type is
  written out (`int_of_uint32`, `uint_of_int`).
-/

namespace Amqp

/-! ## Machine model -/

/-- The number of values of `size_t`. -/
def SIZE_MODULUS : Nat := 2 ^ 64

/-- Addition of two `size_t` values. -/
def size_add (a b : Nat) : Nat := (a + b) % SIZE_MODULUS

/-- Byte-addressed memory. -/
abbrev Mem := Nat → Nat

/-- The struct `amqp_bytes_t`: a length and a pointer to the first byte. -/
structure amqp_bytes_t where
  len : Nat
  bytes : Nat

/-- The `n` low bytes of `x`, least significant first. -/
def le_bytes : Nat → Nat → List Nat
  | 0, _ => []
  | n + 1, x => x % 256 :: le_bytes n (x / 256)

/-- The `n` low bytes of `x`, most significant first. -/
def be_bytes (n x : Nat) : List Nat := (le_bytes n x).reverse

/-- The number whose bytes, least significant first, are `bs`. -/
def le_value : List Nat → Nat
  | [] => 0
  | b :: bs => b % 256 + 256 * le_value bs

/-- The number whose bytes, most significant first, are `bs`. -/
def be_value (bs : List Nat) : Nat := le_value bs.reverse

/-- The object representation of an `n`-byte unsigned integer on the host. -/
def object_bytes (be : Bool) (n x : Nat) : List Nat :=
  if be then be_bytes n x else le_bytes n x

/-- The unsigned integer whose object representation on the host is `bs`. -/
def object_value (be : Bool) (bs : List Nat) : Nat :=
  if be then be_value bs else le_value bs

/-- The bytes at `src`, `src + 1`, ..., `src + n - 1`. -/
def mem_load (m : Mem) (src n : Nat) : List Nat :=
  (List.range n).map (fun i => m (src + i))

/-- Writing the bytes `bs` at `dst`, `dst + 1`, ... (the effect of `memcpy` on the
destination). -/
def mem_store (m : Mem) (dst : Nat) (bs : List Nat) : Mem :=
  fun a => if dst ≤ a ∧ a < dst + bs.length then bs.getD (a - dst) 0 else m a

/-- The libc call `memcpy(dst, src, n)` between two regions of memory. -/
def memcpy (m : Mem) (dst src n : Nat) : Mem :=
  mem_store m dst (mem_load m src n)

/-! ## `arpa/inet.h` -/

/-- Reversal of the two bytes of a 16-bit value. -/
def swap16 (x : Nat) : Nat := x % 256 * 256 + x / 256 % 256

/-- Reversal of the four bytes of a 32-bit value. -/
def swap32 (x : Nat) : Nat :=
  x % 256 * 16777216 + x / 256 % 256 * 65536 + x / 65536 % 256 * 256 + x / 16777216 % 256

/-- The libc `htons`: identity on a big-endian host, byte reversal otherwise. -/
def htons (be : Bool) (x : Nat) : Nat := if be then x else swap16 x

/-- The libc `ntohs`. -/
def ntohs (be : Bool) (x : Nat) : Nat := if be then x else swap16 x

/-- The libc `htonl`: identity on a big-endian host, byte reversal otherwise. -/
def htonl (be : Bool) (x : Nat) : Nat := if be then x else swap32 x

/-- The libc `ntohl`. -/
def ntohl (be : Bool) (x : Nat) : Nat := if be then x else swap32 x

/-! ## `amqp_private.h` -/

/-- The function `amqp_offset`: `(char *)data + offset`. -/
def amqp_offset (data offset : Nat) : Nat := data + offset

/-- The union of `DECLARE_XTOXLL`: a `uint64_t whole` overlaid with
`uint32_t halves[2]`. -/
structure xtoxll_union where
  halves0 : Nat
  halves1 : Nat

/-- Storing `u.whole = val`: on a little-endian host `halves[0]` is the low word. -/
def xtoxll_union.of_whole (be : Bool) (val : Nat) : xtoxll_union :=
  if be then ⟨val / 4294967296 % 4294967296, val % 4294967296⟩
  else ⟨val % 4294967296, val / 4294967296 % 4294967296⟩

/-- Reading `u.whole`. -/
def xtoxll_union.whole (be : Bool) (u : xtoxll_union) : Nat :=
  if be then u.halves0 * 4294967296 + u.halves1
  else u.halves1 * 4294967296 + u.halves0

/-- The macro `DECLARE_XTOXLL(func)`: the body of `func##ll`, given `func##l`.
The first branch is the `#ifndef WORDS_BIGENDIAN` variant. -/
def xtoxll (be : Bool) (funcl : Nat → Nat) (val : Nat) : Nat :=
  if !be then
    let u := xtoxll_union.of_whole be val
    let t := u.halves0
    let u := { u with halves0 := funcl u.halves1 }
    let u := { u with halves1 := funcl t }
    u.whole be
  else
    let u := xtoxll_union.of_whole be val
    let u := { u with halves0 := funcl u.halves0 }
    let u := { u with halves1 := funcl u.halves1 }
    u.whole be

/-- The instance `DECLARE_XTOXLL(hton)`. -/
def htonll (be : Bool) (val : Nat) : Nat := xtoxll be (htonl be) val

/-- The instance `DECLARE_XTOXLL(ntoh)`. -/
def ntohll (be : Bool) (val : Nat) : Nat := xtoxll be (ntohl be) val

/-- The cast `(uint8_t)` used as both conversions of the 8-bit codec. -/
def cast_uint8 (x : Nat) : Nat := x % 256

/-- What an encoder leaves behind: the return value, `*offset` and memory. -/
structure encode_result where
  ret : Int
  offset : Nat
  mem : Mem

/-- What an integer decoder leaves behind: the return value, `*offset` and
`*output`. -/
structure decode_result where
  ret : Int
  offset : Nat
  output : Nat

/-- The macro function `amqp_e##bits`: convert, then copy the `bits/8` bytes of the
converted value into place. -/
def amqp_e (be : Bool) (bits : Nat) (htonx : Nat → Nat) (m : Mem) (data offset val : Nat) :
    Mem :=
  let res := htonx val
  mem_store m (amqp_offset data offset) (object_bytes be (bits / 8) res)

/-- The macro function `amqp_d##bits`: copy `bits/8` bytes into a variable, then
convert. -/
def amqp_d (be : Bool) (bits : Nat) (ntohx : Nat → Nat) (m : Mem) (data offset : Nat) : Nat :=
  let val := object_value be (mem_load m (amqp_offset data offset) (bits / 8))
  ntohx val

/-- The macro function `amqp_encode_##bits`. -/
def amqp_encode (be : Bool) (bits : Nat) (htonx : Nat → Nat) (m : Mem)
    (encoded : amqp_bytes_t) (offset input : Nat) : encode_result :=
  let o := offset
  let offset := size_add o (bits / 8)
  if offset ≤ encoded.len then
    ⟨1, offset, amqp_e be bits htonx m encoded.bytes o input⟩
  else
    ⟨0, offset, m⟩

/-- The macro function `amqp_decode_##bits`; `output` is the value `*output` holds
before the call. -/
def amqp_decode (be : Bool) (bits : Nat) (ntohx : Nat → Nat) (m : Mem)
    (encoded : amqp_bytes_t) (offset output : Nat) : decode_result :=
  let o := offset
  let offset := size_add o (bits / 8)
  if offset ≤ encoded.len then
    ⟨1, offset, amqp_d be bits ntohx m encoded.bytes o⟩
  else
    ⟨0, offset, output⟩

/-- The instance `DECLARE_CODEC_BASE_TYPE(8, (uint8_t), (uint8_t))`, encoder. -/
def amqp_encode_8 (be : Bool) := amqp_encode be 8 cast_uint8

/-- The instance `DECLARE_CODEC_BASE_TYPE(8, (uint8_t), (uint8_t))`, decoder. -/
def amqp_decode_8 (be : Bool) := amqp_decode be 8 cast_uint8

/-- The instance `DECLARE_CODEC_BASE_TYPE(16, htons, ntohs)`, encoder. -/
def amqp_encode_16 (be : Bool) := amqp_encode be 16 (htons be)

/-- The instance `DECLARE_CODEC_BASE_TYPE(16, htons, ntohs)`, decoder. -/
def amqp_decode_16 (be : Bool) := amqp_decode be 16 (ntohs be)

/-- The instance `DECLARE_CODEC_BASE_TYPE(32, htonl, ntohl)`, encoder. -/
def amqp_encode_32 (be : Bool) := amqp_encode be 32 (htonl be)

/-- The instance `DECLARE_CODEC_BASE_TYPE(32, htonl, ntohl)`, decoder. -/
def amqp_decode_32 (be : Bool) := amqp_decode be 32 (ntohl be)

/-- The instance `DECLARE_CODEC_BASE_TYPE(64, htonll, ntohll)`, encoder. -/
def amqp_encode_64 (be : Bool) := amqp_encode be 64 (htonll be)

/-- The instance `DECLARE_CODEC_BASE_TYPE(64, htonll, ntohll)`, decoder. -/
def amqp_decode_64 (be : Bool) := amqp_decode be 64 (ntohll be)

/-- The four widths the codec is instantiated at. -/
inductive Width where
  | w8 | w16 | w32 | w64
  deriving DecidableEq, Repr

/-- The number of bits of a width. -/
def Width.bits : Width → Nat
  | .w8 => 8
  | .w16 => 16
  | .w32 => 32
  | .w64 => 64

/-- The encoder `amqp_encode_N` of a width. -/
def amqp_encode_N (be : Bool) : Width → Mem → amqp_bytes_t → Nat → Nat → encode_result
  | .w8 => amqp_encode_8 be
  | .w16 => amqp_encode_16 be
  | .w32 => amqp_encode_32 be
  | .w64 => amqp_encode_64 be

/-- The decoder `amqp_decode_N` of a width. -/
def amqp_decode_N (be : Bool) : Width → Mem → amqp_bytes_t → Nat → Nat → decode_result
  | .w8 => amqp_decode_8 be
  | .w16 => amqp_decode_16 be
  | .w32 => amqp_decode_32 be
  | .w64 => amqp_decode_64 be

/-- What `amqp_decode_bytes` leaves behind: the return value, `*offset` and
`*output`. -/
structure decode_bytes_result where
  ret : Int
  offset : Nat
  output : amqp_bytes_t

/-- The function `amqp_encode_bytes`. -/
def amqp_encode_bytes (m : Mem) (encoded : amqp_bytes_t) (offset : Nat)
    (input : amqp_bytes_t) : encode_result :=
  let o := offset
  let offset := size_add o input.len
  if offset ≤ encoded.len then
    ⟨1, offset, memcpy m (amqp_offset encoded.bytes o) input.bytes input.len⟩
  else
    ⟨0, offset, m⟩

/-- The function `amqp_decode_bytes`; `output` is the value `*output` holds before
the call. -/
def amqp_decode_bytes (encoded : amqp_bytes_t) (offset : Nat) (output : amqp_bytes_t)
    (len : Nat) : decode_bytes_result :=
  let o := offset
  let offset := size_add o len
  if offset ≤ encoded.len then
    ⟨1, offset, { bytes := amqp_offset encoded.bytes o, len := len }⟩
  else
    ⟨0, offset, output⟩

/-- The full reversal of the eight bytes of a 64-bit value, as the specification
words the 64-bit byte-order conversion: byte `i` of the argument becomes byte
`7 - i` of the result. -/
def byte_reversal_64 (v : Nat) : Nat :=
  v % 256 * 72057594037927936 + v / 256 % 256 * 281474976710656 +
  v / 65536 % 256 * 1099511627776 + v / 16777216 % 256 * 4294967296 +
  v / 4294967296 % 256 * 16777216 + v / 1099511627776 % 256 * 65536 +
  v / 281474976710656 % 256 * 256 + v / 72057594037927936 % 256

/-! ## Error codes of `amqp_private.h` -/

/-- The constant `ERROR_NO_MEMORY`. -/
def ERROR_NO_MEMORY : Int := 1

/-- The constant `ERROR_CONNECTION_CLOSED`. -/
def ERROR_CONNECTION_CLOSED : Int := 7

/-! ## Types of `amqp.h`

The header `amqp.h` is not among the sources; the types below carry the fields that
`amqp_socket.c` reads and writes. -/

/-- The struct `amqp_method_t`: a method id and a pointer to the decoded method. -/
structure amqp_method_t where
  id : Nat
  decoded : Nat
  deriving DecidableEq, Repr

/-- Modelled from the spec: the union `payload` of a frame is either a decoded
method or raw body bytes (a length and a pointer). -/
inductive amqp_payload_t where
  | method (m : amqp_method_t)
  | body_fragment (len : Nat) (bytes : Nat)
  deriving DecidableEq, Repr

/-- Reading the member `payload.method`. The code reads it only for frames of type
`AMQP_FRAME_METHOD`; for a payload stored through the other member the model
yields the null method. -/
def amqp_payload_t.as_method : amqp_payload_t → amqp_method_t
  | .method m => m
  | .body_fragment _ _ => ⟨0, 0⟩

/-- The struct `amqp_frame_t`; `frame_type = 0` means that there is no frame. -/
structure amqp_frame_t where
  frame_type : Nat
  channel : Nat
  payload : amqp_payload_t
  deriving DecidableEq, Repr

/-- The contents of a local `amqp_frame_t` before anything is stored in it, taken as
all zero; `amqp_simple_rpc_local` takes any contents for the local of
`amqp_simple_rpc`. -/
def amqp_frame_t.indeterminate : amqp_frame_t := ⟨0, 0, .body_fragment 0 0⟩

/-- The enum `amqp_response_type_enum`; `AMQP_RESPONSE_NONE` is its zero value. -/
inductive amqp_response_type_enum where
  | AMQP_RESPONSE_NONE
  | AMQP_RESPONSE_NORMAL
  | AMQP_RESPONSE_SERVER_EXCEPTION
  | AMQP_RESPONSE_LIBRARY_EXCEPTION
  deriving DecidableEq, Repr

/-- The struct `amqp_rpc_reply_t`. -/
structure amqp_rpc_reply_t where
  reply_type : amqp_response_type_enum
  reply : amqp_method_t
  library_error : Int
  deriving DecidableEq, Repr

/-- The value `memset(&result, 0, sizeof(result))` leaves in an `amqp_rpc_reply_t`. -/
def amqp_rpc_reply_t.zero : amqp_rpc_reply_t := ⟨.AMQP_RESPONSE_NONE, ⟨0, 0⟩, 0⟩

/-- Modelled from the spec: the pool of `amqp_mem.c` (not among the sources) is an
arena that hands out increasing addresses; `next` is the next free address and
`limit` the end of the memory the pool can obtain. -/
structure amqp_pool_t where
  next : Nat
  limit : Nat
  deriving DecidableEq, Repr

/-- Modelled from the spec: `amqp_pool_alloc` of `amqp_mem.c` (not among the sources)
returns a block of `amount` bytes that no earlier allocation overlaps, or `NULL` when
memory cannot be obtained. -/
def amqp_pool_alloc (pool : amqp_pool_t) (amount : Nat) : Nat × amqp_pool_t :=
  if pool.next + amount ≤ pool.limit then (pool.next, { pool with next := pool.next + amount })
  else (0, pool)

/-- The value of `sizeof(amqp_frame_t)` (LP64). -/
def sizeof_amqp_frame_t : Nat := 48

/-- The value of `sizeof(amqp_link_t)` (LP64). -/
def sizeof_amqp_link_t : Nat := 16

/-! ## Connection state of `amqp_private.h` -/

/-- The struct `amqp_link_t`: a node of the frame queue. -/
structure amqp_link_t where
  next : Nat
  data : Nat
  deriving DecidableEq, Repr

/-- One call of the transport callback `state->recv`: the value it returns, the
bytes it stores at the start of the socket buffer, and what `state->error` reports
afterwards. -/
structure recv_event where
  res : Int
  data : List Nat
  error : Int
  deriving DecidableEq, Repr

/-- The view handed to `amqp_handle_input`: its length and the bytes behind its
pointer. -/
structure received_data where
  len : Nat
  data : List Nat
  deriving DecidableEq, Repr

/-- The connection. The first group of fields are the members of
`struct amqp_connection_state_t_` that `amqp_socket.c` reads or writes; `core`
stands for the members only the functions outside the sources use (`frame_pool`,
`state`, the limits, `inbound_buffer`, `outbound_buffer`, the socket). `links` and
`frames` are the pool memory holding the queue's `amqp_link_t` and `amqp_frame_t`
objects, by address. `transport` lists what the coming calls of `recv` will do. -/
structure amqp_connection_state_t (σ : Type) where
  core : σ
  decoding_pool : amqp_pool_t
  sock_inbound_buffer_len : Nat
  sock_inbound_buffer : List Nat
  sock_inbound_offset : Nat
  sock_inbound_limit : Nat
  first_queued_frame : Nat
  last_queued_frame : Nat
  most_recent_api_result : amqp_rpc_reply_t
  links : Nat → amqp_link_t
  frames : Nat → amqp_frame_t
  transport : List recv_event

/-- What `amqp_socket.c` uses from the rest of the library: three constants of the
generated `amqp_framing.h`, and the functions `amqp_handle_input` and
`amqp_send_frame` of `amqp_connection.c`. Both are arbitrary functions of `core`:
they are taken to leave alone the socket buffer and its cursor, the queue pointers and
the links and frame copies in pool memory. The methods `amqp_handle_input` decodes
are opaque pointers here, so the pool memory it takes for them is part of `core`
and not of `decoding_pool`. `amqp_handle_input` returns its status, the frame it
stores in `*decoded_frame` and the new `core`. -/
structure Externals (σ : Type) where
  AMQP_FRAME_METHOD : Nat
  AMQP_CHANNEL_CLOSE_METHOD : Nat
  AMQP_CONNECTION_CLOSE_METHOD : Nat
  amqp_handle_input : σ → received_data → Int × amqp_frame_t × σ
  amqp_send_frame : σ → amqp_frame_t → Int × σ

/-- How a call ends: it returns, or the process is terminated (a failed `assert`,
`amqp_abort`), or it never returns (`recv` blocks for ever). -/
inductive Run (α : Type) where
  | done (a : α)
  | abort
  | diverge

/-- What a frame wait leaves behind: the status, `*decoded_frame`, the connection. -/
structure wait_result (σ : Type) where
  status : Int
  frame : amqp_frame_t
  state : amqp_connection_state_t σ

/-! ## `amqp_socket.c` -/

/-- The function `amqp_frames_enqueued`. -/
def amqp_frames_enqueued {σ : Type} (state : amqp_connection_state_t σ) : Bool :=
  state.first_queued_frame != 0

/-- The function `amqp_data_in_buffer`. -/
def amqp_data_in_buffer {σ : Type} (state : amqp_connection_state_t σ) : Bool :=
  state.sock_inbound_offset < state.sock_inbound_limit

/-- The loop `while (amqp_data_in_buffer(state))` of `wait_frame_inner`. The result
`some res` is a `return res` from inside the loop, `none` is the loop running to its
end; `assert(res != 0)` is checked. Every pass that loops back has consumed at
least one byte, so `sock_inbound_limit - sock_inbound_offset` passes suffice; `fuel`
is that bound (`wait_frame_inner_buffered_fuel`). -/
def wait_frame_inner_buffered {σ : Type} (X : Externals σ) :
    Nat → amqp_connection_state_t σ → amqp_frame_t →
      Run (Option Int × amqp_frame_t × amqp_connection_state_t σ)
  | fuel, state, decoded_frame =>
    if amqp_data_in_buffer state then
      match fuel with
      | 0 => .diverge
      | fuel + 1 =>
        let buffer : received_data :=
          { len := state.sock_inbound_limit - state.sock_inbound_offset
            data := (state.sock_inbound_buffer.drop state.sock_inbound_offset).take
              (state.sock_inbound_limit - state.sock_inbound_offset) }
        let r := X.amqp_handle_input state.core buffer
        let res := r.1
        let decoded_frame := r.2.1
        let state := { state with core := r.2.2 }
        if res < 0 then .done (some res, decoded_frame, state)
        else
          let state :=
            { state with sock_inbound_offset := state.sock_inbound_offset + res.toNat }
          if decoded_frame.frame_type ≠ 0 then .done (some 0, decoded_frame, state)
          else if res = 0 then .abort
          else wait_frame_inner_buffered X fuel state decoded_frame
    else .done (none, decoded_frame, state)

/-- The loop `while (1)` of `wait_frame_inner`, by recursion on what the transport
will deliver; the first argument is `state.transport`. -/
def wait_frame_inner_loop {σ : Type} (X : Externals σ) :
    List recv_event → amqp_connection_state_t σ → amqp_frame_t → Run (wait_result σ)
  | transport, state, decoded_frame =>
    match wait_frame_inner_buffered X (state.sock_inbound_limit - state.sock_inbound_offset)
        state decoded_frame with
    | .abort => .abort
    | .diverge => .diverge
    | .done (some res, decoded_frame, state) => .done ⟨res, decoded_frame, state⟩
    | .done (none, decoded_frame, state) =>
      match transport with
      | [] => .diverge
      | ev :: rest =>
        let state :=
          { state with
            transport := rest
            sock_inbound_buffer := ev.data ++ state.sock_inbound_buffer.drop ev.data.length }
        let res := ev.res
        if res ≤ 0 then
          if res = 0 then .done ⟨-ERROR_CONNECTION_CLOSED, decoded_frame, state⟩
          else .done ⟨-ev.error, decoded_frame, state⟩
        else
          let state := { state with sock_inbound_limit := res.toNat }
          let state := { state with sock_inbound_offset := 0 }
          wait_frame_inner_loop X rest state decoded_frame

/-- The function `wait_frame_inner`; `decoded_frame` is what `*decoded_frame` holds
before the call. -/
def wait_frame_inner {σ : Type} (X : Externals σ) (state : amqp_connection_state_t σ)
    (decoded_frame : amqp_frame_t) : Run (wait_result σ) :=
  wait_frame_inner_loop X state.transport state decoded_frame

/-- The function `amqp_simple_wait_frame`. -/
def amqp_simple_wait_frame {σ : Type} (X : Externals σ) (state : amqp_connection_state_t σ)
    (decoded_frame : amqp_frame_t) : Run (wait_result σ) :=
  if state.first_queued_frame ≠ 0 then
    let f := state.frames (state.links state.first_queued_frame).data
    let state :=
      { state with first_queued_frame := (state.links state.first_queued_frame).next }
    let state :=
      if state.first_queued_frame = 0 then { state with last_queued_frame := 0 } else state
    .done ⟨0, f, state⟩
  else
    wait_frame_inner X state decoded_frame

/-- The function `amqp_send_method`. -/
def amqp_send_method {σ : Type} (X : Externals σ) (state : amqp_connection_state_t σ)
    (channel id decoded : Nat) : Int × amqp_connection_state_t σ :=
  let frame : amqp_frame_t :=
    { frame_type := X.AMQP_FRAME_METHOD, channel := channel, payload := .method ⟨id, decoded⟩ }
  let r := X.amqp_send_frame state.core frame
  (r.1, { state with core := r.2 })

/-- The function `amqp_id_in_reply_list`; the list holds the entries of the array
from the pointer on, the terminating 0 among them. -/
def amqp_id_in_reply_list (expected : Nat) : List Nat → Int
  | [] => 0
  | x :: list => if x ≠ 0 then (if x = expected then 1 else amqp_id_in_reply_list expected list)
    else 0

/-- Storing an object at an address of a typed memory. -/
def store {α : Type} (m : Nat → α) (p : Nat) (v : α) : Nat → α :=
  fun q => if q = p then v else m q

/-- The part of `amqp_simple_rpc` from the label `retry` on. Every pass that jumps
back to `retry` has taken `sizeof(amqp_frame_t) + sizeof(amqp_link_t)` bytes from the
decoding pool, so the memory the pool can still obtain bounds the number of passes;
`fuel` is that bound (`amqp_simple_rpc_retry_fuel`). -/
def amqp_simple_rpc_retry {σ : Type} (X : Externals σ) (channel : Nat)
    (expected_reply_ids : List Nat) (result : amqp_rpc_reply_t) :
    Nat → amqp_connection_state_t σ → amqp_frame_t →
      Run (amqp_rpc_reply_t × amqp_connection_state_t σ)
  | 0, _, _ => .diverge
  | fuel + 1, state, frame =>
    match wait_frame_inner X state frame with
    | .abort => .abort
    | .diverge => .diverge
    | .done ⟨status, frame, state⟩ =>
      if status < 0 then
        .done ({ result with reply_type := .AMQP_RESPONSE_LIBRARY_EXCEPTION
                             library_error := -status }, state)
      else if ¬ (frame.frame_type = X.AMQP_FRAME_METHOD ∧
          ((frame.channel = channel ∧
              (amqp_id_in_reply_list frame.payload.as_method.id expected_reply_ids ≠ 0 ∨
                frame.payload.as_method.id = X.AMQP_CHANNEL_CLOSE_METHOD)) ∨
            (frame.channel = 0 ∧
              frame.payload.as_method.id = X.AMQP_CONNECTION_CLOSE_METHOD))) then
        let a := amqp_pool_alloc state.decoding_pool sizeof_amqp_frame_t
        let frame_copy := a.1
        let state := { state with decoding_pool := a.2 }
        let a := amqp_pool_alloc state.decoding_pool sizeof_amqp_link_t
        let link := a.1
        let state := { state with decoding_pool := a.2 }
        if frame_copy = 0 ∨ link = 0 then
          .done ({ result with reply_type := .AMQP_RESPONSE_LIBRARY_EXCEPTION
                               library_error := ERROR_NO_MEMORY }, state)
        else
          let state := { state with frames := store state.frames frame_copy frame }
          let state := { state with links := store state.links link ⟨0, frame_copy⟩ }
          let last : amqp_link_t := state.links state.last_queued_frame
          let state :=
            if state.last_queued_frame = 0 then { state with first_queued_frame := link }
            else
              { state with
                links := store state.links state.last_queued_frame { last with next := link } }
          let state := { state with last_queued_frame := link }
          amqp_simple_rpc_retry X channel expected_reply_ids result fuel state frame
      else
        .done ({ result with
                  reply_type :=
                    if amqp_id_in_reply_list frame.payload.as_method.id expected_reply_ids ≠ 0
                    then .AMQP_RESPONSE_NORMAL else .AMQP_RESPONSE_SERVER_EXCEPTION
                  reply := frame.payload.as_method }, state)

/-- The function `amqp_simple_rpc`. -/
def amqp_simple_rpc {σ : Type} (X : Externals σ) (state : amqp_connection_state_t σ)
    (channel request_id : Nat) (expected_reply_ids : List Nat)
    (decoded_request_method : Nat) : Run (amqp_rpc_reply_t × amqp_connection_state_t σ) :=
  let result := amqp_rpc_reply_t.zero
  let s := amqp_send_method X state channel request_id decoded_request_method
  let status := s.1
  let state := s.2
  if status < 0 then
    .done ({ result with reply_type := .AMQP_RESPONSE_LIBRARY_EXCEPTION
                         library_error := -status }, state)
  else
    amqp_simple_rpc_retry X channel expected_reply_ids result
      (state.decoding_pool.limit - state.decoding_pool.next + 1) state
      amqp_frame_t.indeterminate

/-! ## Vocabulary for the statements about `amqp_socket.c` -/

/-- The result of a call that returned, if it did. -/
def Run.result {α : Type} : Run α → Option α
  | .done a => some a
  | .abort => none
  | .diverge => none

/-- Applying a function to the result of a call that returned. -/
def Run.map {α β : Type} (f : α → β) : Run α → Run β
  | .done a => .done (f a)
  | .abort => .abort
  | .diverge => .diverge

/-- The entries of a reply list before its terminating 0. -/
def reply_ids (expected_reply_ids : List Nat) : List Nat :=
  expected_reply_ids.takeWhile (fun x => x != 0)

/-- A frame that ends the wait of an RPC on `channel`, in the words of the
specification: a method frame that is (a) on `channel` with an expected id, or (b) on
`channel` and a channel.close, or (c) on channel 0 and a connection.close. -/
def rpc_reply_frame {σ : Type} (X : Externals σ) (channel : Nat)
    (expected_reply_ids : List Nat) (frame : amqp_frame_t) : Prop :=
  frame.frame_type = X.AMQP_FRAME_METHOD ∧
  ((frame.channel = channel ∧ frame.payload.as_method.id ∈ reply_ids expected_reply_ids) ∨
   (frame.channel = channel ∧ frame.payload.as_method.id = X.AMQP_CHANNEL_CLOSE_METHOD) ∨
   (frame.channel = 0 ∧ frame.payload.as_method.id = X.AMQP_CONNECTION_CLOSE_METHOD))

instance {σ : Type} (X : Externals σ) (channel : Nat) (expected_reply_ids : List Nat)
    (frame : amqp_frame_t) : Decidable (rpc_reply_frame X channel expected_reply_ids frame) := by
  unfold rpc_reply_frame
  infer_instance

/-- The frames that the first `n` successive calls of `wait_frame_inner` return, up
to the first call that does not return a frame. -/
def wait_frames {σ : Type} (X : Externals σ) :
    Nat → amqp_connection_state_t σ → amqp_frame_t → List amqp_frame_t
  | 0, _, _ => []
  | n + 1, state, frame =>
    match wait_frame_inner X state frame with
    | .done r => if r.status < 0 then [] else r.frame :: wait_frames X n r.state r.frame
    | .abort => []
    | .diverge => []

/-- The links at the addresses `ptrs`, in this order, are the chain that starts at
`p` and ends with a null `next`. -/
def queue_chain (links : Nat → amqp_link_t) : Nat → List Nat → Prop
  | p, [] => p = 0
  | p, q :: qs => p = q ∧ q ≠ 0 ∧ queue_chain links (links q).next qs

/-- The frame queue of the connection consists of the links at `ptrs`, head first:
they are chained from `first_queued_frame`, `last_queued_frame` is the last of them
(null when there is none), and links and frame copies lie in allocated pool memory. -/
structure queue_holds {σ : Type} (state : amqp_connection_state_t σ) (ptrs : List Nat) :
    Prop where
  chain : queue_chain state.links state.first_queued_frame ptrs
  last : state.last_queued_frame = ptrs.getLastD 0
  nodup : ptrs.Nodup
  allocated : ∀ p ∈ ptrs, p < state.decoding_pool.next ∧
    (state.links p).data < state.decoding_pool.next
  pool_pos : 0 < state.decoding_pool.next

/-- The frames stored in the links at `ptrs`. -/
def queue_frames {σ : Type} (state : amqp_connection_state_t σ) (ptrs : List Nat) :
    List amqp_frame_t :=
  ptrs.map (fun p => state.frames (state.links p).data)

/-- The connection `state` with the pool, the queue and the pool memory of `q`: the
members that `wait_frame_inner` neither reads nor writes. -/
def with_queue_of {σ : Type} (state q : amqp_connection_state_t σ) :
    amqp_connection_state_t σ :=
  { state with
    decoding_pool := q.decoding_pool
    first_queued_frame := q.first_queued_frame
    last_queued_frame := q.last_queued_frame
    most_recent_api_result := q.most_recent_api_result
    links := q.links
    frames := q.frames }

/-- The connection after the queueing branch of `amqp_simple_rpc` has stored `frame`
(both allocations having succeeded). -/
def enqueued {σ : Type} (state : amqp_connection_state_t σ) (frame : amqp_frame_t) :
    amqp_connection_state_t σ :=
  let frame_copy := state.decoding_pool.next
  let link := state.decoding_pool.next + sizeof_amqp_frame_t
  { state with
    decoding_pool :=
      { state.decoding_pool with
        next := state.decoding_pool.next + sizeof_amqp_frame_t + sizeof_amqp_link_t }
    frames := store state.frames frame_copy frame
    links :=
      if state.last_queued_frame = 0 then store state.links link ⟨0, frame_copy⟩
      else store (store state.links link ⟨0, frame_copy⟩) state.last_queued_frame
        ⟨link, (store state.links link ⟨0, frame_copy⟩ state.last_queued_frame).data⟩
    first_queued_frame :=
      if state.last_queued_frame = 0 then link else state.first_queued_frame
    last_queued_frame := link }

/-- The reply `amqp_simple_rpc` builds from the frame that ends its wait. -/
def rpc_reply_of (expected_reply_ids : List Nat) (frame : amqp_frame_t) : amqp_rpc_reply_t :=
  { reply_type :=
      if frame.payload.as_method.id ∈ reply_ids expected_reply_ids then .AMQP_RESPONSE_NORMAL
      else .AMQP_RESPONSE_SERVER_EXCEPTION
    reply := frame.payload.as_method
    library_error := 0 }

/-! ## A concrete transport and state machine, for evaluating the functions -/

/-- A frame state machine for frames of six bytes (type, channel, four bytes of
method id, most significant first); `core` holds the bytes of an incomplete frame. -/
def example_handle_input (pending : List Nat) (buffer : received_data) :
    Int × amqp_frame_t × List Nat :=
  let take := min (6 - pending.length) buffer.len
  let pending := pending ++ buffer.data.take take
  if pending.length = 6 then
    (take, ⟨pending.getD 0 0, pending.getD 1 0, .method ⟨be_value (pending.drop 2), 0⟩⟩, [])
  else (take, ⟨0, 0, .body_fragment 0 0⟩, pending)

/-- The constants of AMQP 0-9-1, the example state machine, and a send that always
succeeds. -/
def example_externals : Externals (List Nat) :=
  { AMQP_FRAME_METHOD := 1
    AMQP_CHANNEL_CLOSE_METHOD := 1310760
    AMQP_CONNECTION_CLOSE_METHOD := 655410
    amqp_handle_input := example_handle_input
    amqp_send_frame := fun core _ => (0, core) }

/-- A fresh connection: empty socket buffer, empty queue, a pool of 4096 bytes. -/
def example_state (transport : List recv_event) : amqp_connection_state_t (List Nat) :=
  { core := []
    decoding_pool := ⟨4096, 8192⟩
    sock_inbound_buffer_len := 64
    sock_inbound_buffer := []
    sock_inbound_offset := 0
    sock_inbound_limit := 0
    first_queued_frame := 0
    last_queued_frame := 0
    most_recent_api_result := amqp_rpc_reply_t.zero
    links := fun _ => ⟨0, 0⟩
    frames := fun _ => amqp_frame_t.indeterminate
    transport := transport }

/-- The fresh connection after some reads: `transport` is still to come, the socket
buffer holds `buffer` and is consumed up to `offset` of `limit` bytes. -/
def example_state_at (transport : List recv_event) (buffer : List Nat) (offset limit : Nat) :
    amqp_connection_state_t (List Nat) :=
  { example_state transport with
    sock_inbound_buffer := buffer
    sock_inbound_offset := offset
    sock_inbound_limit := limit }

/-- A read that delivers method 55 on channel 2. -/
def example_recv_other : recv_event := ⟨6, [1, 2, 0, 0, 0, 55], 0⟩

/-- A read that delivers connection.close (655410) on channel 0. -/
def example_recv_close : recv_event := ⟨6, [1, 0, 0, 10, 0, 50], 0⟩

/-- A read that delivers method 11 on channel 1. -/
def example_recv_reply : recv_event := ⟨6, [1, 1, 0, 0, 0, 11], 0⟩

/-- The conversions of one instance of the codec put a value on the wire most
significant byte first, and take it back from there. -/
structure WireOrder (be : Bool) (n : Nat) (htonx ntohx : Nat → Nat) : Prop where
  to_wire : ∀ v, v < 256 ^ n → object_bytes be n (htonx v) = be_bytes n v
  of_wire : ∀ v, v < 256 ^ n → ntohx (object_value be (be_bytes n v)) = v

/-- The conversion to network order of a width. -/
def Width.htonx (be : Bool) : Width → Nat → Nat
  | .w8 => cast_uint8
  | .w16 => htons be
  | .w32 => htonl be
  | .w64 => htonll be

/-- The conversion from network order of a width. -/
def Width.ntohx (be : Bool) : Width → Nat → Nat
  | .w8 => cast_uint8
  | .w16 => ntohs be
  | .w32 => ntohl be
  | .w64 => ntohll be

/-! ## Vocabulary for the failure paths of `amqp_simple_rpc` -/

/-- The reply `amqp_simple_rpc` builds on a failure with the numeric cause `code`. -/
def library_exception (code : Int) : amqp_rpc_reply_t :=
  { reply_type := .AMQP_RESPONSE_LIBRARY_EXCEPTION, reply := ⟨0, 0⟩, library_error := code }

/-- Both allocations of the queueing branch of `amqp_simple_rpc` return a non-null
pointer. -/
def rpc_alloc_ok (pool : amqp_pool_t) : Prop :=
  pool.next ≠ 0 ∧ pool.next + sizeof_amqp_frame_t + sizeof_amqp_link_t ≤ pool.limit

instance (pool : amqp_pool_t) : Decidable (rpc_alloc_ok pool) := by
  unfold rpc_alloc_ok
  infer_instance

/-- The pool after the two allocations of the queueing branch of `amqp_simple_rpc`. -/
def rpc_alloc_pool (pool : amqp_pool_t) : amqp_pool_t :=
  (amqp_pool_alloc (amqp_pool_alloc pool sizeof_amqp_frame_t).2 sizeof_amqp_link_t).2

/-- The frames that the retry loop of `amqp_simple_rpc` stores in the queue, in the
order in which it stores them: the frames of the passes that reach
`*frame_copy = frame`. -/
def rpc_queued {σ : Type} (X : Externals σ) (channel : Nat) (expected_reply_ids : List Nat) :
    Nat → amqp_connection_state_t σ → amqp_frame_t → List amqp_frame_t
  | 0, _, _ => []
  | fuel + 1, state, frame =>
    match wait_frame_inner X state frame with
    | .abort => []
    | .diverge => []
    | .done r =>
      if r.status < 0 then []
      else if rpc_reply_frame X channel expected_reply_ids r.frame then []
      else if rpc_alloc_ok r.state.decoding_pool then
        r.frame :: rpc_queued X channel expected_reply_ids fuel (enqueued r.state r.frame) r.frame
      else []

/-- The frames that a call of `amqp_simple_rpc` stores in the queue, in order. -/
def amqp_simple_rpc_queued {σ : Type} (X : Externals σ) (state : amqp_connection_state_t σ)
    (channel request_id : Nat) (expected_reply_ids : List Nat)
    (decoded_request_method : Nat) : List amqp_frame_t :=
  let s := amqp_send_method X state channel request_id decoded_request_method
  if s.1 < 0 then []
  else
    rpc_queued X channel expected_reply_ids
      (s.2.decoding_pool.limit - s.2.decoding_pool.next + 1) s.2 amqp_frame_t.indeterminate

/-! ## Interleaved calls -/

/-- A call of one of the two functions that use the frame queue. -/
inductive api_call where
  | simple_rpc (channel request_id : Nat) (expected_reply_ids : List Nat) (decoded : Nat)
  | simple_wait_frame
  deriving DecidableEq, Repr

/-- Running a sequence of calls, each on the connection the call before left. The
result is the final connection, the frames that `amqp_simple_wait_frame` returned
from the queue, in order, and the frames that `amqp_simple_rpc` stored in the queue,
in order; there is none when a call does not return. -/
def run_calls {σ : Type} (X : Externals σ) :
    List api_call → amqp_connection_state_t σ →
      Option (amqp_connection_state_t σ × List amqp_frame_t × List amqp_frame_t)
  | [], state => some (state, [], [])
  | .simple_wait_frame :: rest, state =>
    match amqp_simple_wait_frame X state amqp_frame_t.indeterminate with
    | .done r =>
      match run_calls X rest r.state with
      | some (state2, dequeued, queued) =>
        some (state2, (if amqp_frames_enqueued state then [r.frame] else []) ++ dequeued,
          queued)
      | none => none
    | .abort => none
    | .diverge => none
  | .simple_rpc channel request_id expected_reply_ids decoded :: rest, state =>
    match amqp_simple_rpc X state channel request_id expected_reply_ids decoded with
    | .done r =>
      match run_calls X rest r.2 with
      | some (state2, dequeued, queued) =>
        some (state2, dequeued,
          amqp_simple_rpc_queued X state channel request_id expected_reply_ids decoded ++
            queued)
      | none => none
    | .abort => none
    | .diverge => none

/-! ## The connection at the calls of `recv` -/

/-- The loop `while (1)` of `wait_frame_inner` with a log: the same function as
`wait_frame_inner_loop`, returning besides its result the connection as it is at each
call `state->recv(...)`, in the order of the calls. A call of `recv` with nothing
more to come from the transport does not return, and is logged as well. -/
def wait_frame_inner_traced {σ : Type} (X : Externals σ) :
    List recv_event → amqp_connection_state_t σ → amqp_frame_t →
      Run (wait_result σ) × List (amqp_connection_state_t σ)
  | transport, state, decoded_frame =>
    match wait_frame_inner_buffered X (state.sock_inbound_limit - state.sock_inbound_offset)
        state decoded_frame with
    | .abort => (.abort, [])
    | .diverge => (.diverge, [])
    | .done (some res, decoded_frame, state) => (.done ⟨res, decoded_frame, state⟩, [])
    | .done (none, decoded_frame, state) =>
      match transport with
      | [] => (.diverge, [state])
      | ev :: rest =>
        let at_recv := state
        let state :=
          { state with
            transport := rest
            sock_inbound_buffer := ev.data ++ state.sock_inbound_buffer.drop ev.data.length }
        let res := ev.res
        if res ≤ 0 then
          if res = 0 then (.done ⟨-ERROR_CONNECTION_CLOSED, decoded_frame, state⟩, [at_recv])
          else (.done ⟨-ev.error, decoded_frame, state⟩, [at_recv])
        else
          let state := { state with sock_inbound_limit := res.toNat }
          let state := { state with sock_inbound_offset := 0 }
          let r := wait_frame_inner_traced X rest state decoded_frame
          (r.1, at_recv :: r.2)

/-- The connection at each call of `recv` that a call of `wait_frame_inner` makes. -/
def wait_frame_inner_recv_states {σ : Type} (X : Externals σ)
    (state : amqp_connection_state_t σ) (decoded_frame : amqp_frame_t) :
    List (amqp_connection_state_t σ) :=
  (wait_frame_inner_traced X state.transport state decoded_frame).2

/-- The connection at each call of `recv` that a call of `amqp_simple_wait_frame`
makes: none when it takes the frame from the queue, else those of its call of
`wait_frame_inner`. -/
def amqp_simple_wait_frame_recv_states {σ : Type} (X : Externals σ)
    (state : amqp_connection_state_t σ) (decoded_frame : amqp_frame_t) :
    List (amqp_connection_state_t σ) :=
  if state.first_queued_frame ≠ 0 then [] else wait_frame_inner_recv_states X state decoded_frame

/-- The connection at each call of `recv` that the retry loop of `amqp_simple_rpc`
makes: those of the call of `wait_frame_inner` of each of its passes, in order. -/
def rpc_recv_states {σ : Type} (X : Externals σ) (channel : Nat)
    (expected_reply_ids : List Nat) :
    Nat → amqp_connection_state_t σ → amqp_frame_t → List (amqp_connection_state_t σ)
  | 0, _, _ => []
  | fuel + 1, state, frame =>
    wait_frame_inner_recv_states X state frame ++
      match wait_frame_inner X state frame with
      | .abort => []
      | .diverge => []
      | .done r =>
        if r.status < 0 then []
        else if rpc_reply_frame X channel expected_reply_ids r.frame then []
        else if rpc_alloc_ok r.state.decoding_pool then
          rpc_recv_states X channel expected_reply_ids fuel (enqueued r.state r.frame) r.frame
        else []

/-- The connection at each call of `recv` that a call of `amqp_simple_rpc` makes. -/
def amqp_simple_rpc_recv_states {σ : Type} (X : Externals σ)
    (state : amqp_connection_state_t σ) (channel request_id : Nat)
    (expected_reply_ids : List Nat) (decoded_request_method : Nat) :
    List (amqp_connection_state_t σ) :=
  let s := amqp_send_method X state channel request_id decoded_request_method
  if s.1 < 0 then []
  else
    rpc_recv_states X channel expected_reply_ids
      (s.2.decoding_pool.limit - s.2.decoding_pool.next + 1) s.2 amqp_frame_t.indeterminate

/-! ## The handshake of `amqp_socket.c` -/

/-- The constant `ERROR_INCOMPATIBLE_AMQP_VERSION` of `amqp_private.h`. -/
def ERROR_INCOMPATIBLE_AMQP_VERSION : Int := 6

/-- The members of `amqp_connection_start_t` (`amqp_framing.h`, not among the sources)
that `amqp_login_inner` reads. -/
structure amqp_connection_start_t where
  version_major : Nat
  version_minor : Nat
  deriving DecidableEq, Repr

/-- The struct `amqp_connection_tune_t` (`amqp_framing.h`): `channel_max` and
`heartbeat` are `uint16_t`, `frame_max` is `uint32_t`. -/
structure amqp_connection_tune_t where
  channel_max : Nat
  frame_max : Nat
  heartbeat : Nat
  deriving DecidableEq, Repr

/-- The struct `amqp_connection_tune_ok_t` (`amqp_framing.h`), with the member widths
of `amqp_connection_tune_t`. -/
structure amqp_connection_tune_ok_t where
  channel_max : Nat
  frame_max : Nat
  heartbeat : Nat
  deriving DecidableEq, Repr

/-- An entry of a field table whose value is a string: the bytes of the key and of
the value. -/
structure amqp_table_entry_t where
  key : List Nat
  value : List Nat
  deriving DecidableEq, Repr

/-- The struct `amqp_connection_start_ok_t` (`amqp_framing.h`) as `amqp_login_inner`
fills it; strings held in static storage or on the stack are given by their bytes,
the response by its view of pool memory. -/
structure amqp_connection_start_ok_t where
  client_properties : List amqp_table_entry_t
  mechanism : List Nat
  response : amqp_bytes_t
  locale : List Nat

/-- The struct `amqp_connection_open_t` (`amqp_framing.h`) as `amqp_login` fills it. -/
structure amqp_connection_open_t where
  virtual_host : List Nat
  capabilities : amqp_bytes_t
  insist : Nat

/-- One variadic argument of `amqp_login`. -/
inductive va_value where
  | string (s : List Nat)
  | long_long (v : Int)
  deriving DecidableEq, Repr

/-- What the handshake takes as given: constants of `amqp.h` and `amqp_framing.h`;
the transport callback `state->send`; the decoded methods, which lie in the memory
behind `core`; the memory behind `core` as far as the handshake writes it (the
response of `sasl_response`, and the local structs whose address is passed to
`amqp_send_method`: `place_start_ok core s` is the address of the local `s` and the
memory with `s` stored there); `evoz_signature`, by the two strings it produces from
its arguments (its body is calls of `sprintf`, of `HMAC` of OpenSSL and of
`base64_encode`); the probe of `evo_get_version` (`popen` and the line it reads);
and `amqp_tune_connection`, `amqp_release_buffers` and `amqp_maybe_release_buffers`
of `amqp_connection.c`, the last two as arbitrary functions of the connection that
may end the process. -/
structure LoginExternals (σ : Type) where
  AMQP_PROTOCOL_VERSION_MAJOR : Nat
  AMQP_PROTOCOL_VERSION_MINOR : Nat
  AMQP_PROTOCOL_VERSION_REVISION : Nat
  AMQP_CONNECTION_START_METHOD : Nat
  AMQP_CONNECTION_START_OK_METHOD : Nat
  AMQP_CONNECTION_TUNE_METHOD : Nat
  AMQP_CONNECTION_TUNE_OK_METHOD : Nat
  AMQP_CONNECTION_OPEN_METHOD : Nat
  AMQP_CONNECTION_OPEN_OK_METHOD : Nat
  AMQP_SASL_METHOD_PLAIN : Nat
  AMQP_SASL_METHOD_EVOZ : Nat
  send : σ → List Nat → Int × σ
  connection_start_at : σ → Nat → amqp_connection_start_t
  connection_tune_at : σ → Nat → amqp_connection_tune_t
  write_bytes : σ → Nat → List Nat → σ
  place_start_ok : σ → amqp_connection_start_ok_t → Nat × σ
  place_tune_ok : σ → amqp_connection_tune_ok_t → Nat × σ
  place_open : σ → amqp_connection_open_t → Nat × σ
  evoz_signature : List Nat → List Nat → List Nat → List Nat → Int → List Nat × List Nat
  evo_get_version : σ → Int × List Nat × σ
  amqp_tune_connection : σ → Int → Int → Int → Int × σ
  amqp_release_buffers : amqp_connection_state_t σ → Run (amqp_connection_state_t σ)
  amqp_maybe_release_buffers : amqp_connection_state_t σ → Run (amqp_connection_state_t σ)

/-- The bytes of a string literal. -/
def cstring (s : String) : List Nat := s.toList.map Char.toNat

/-- Modelled from the spec: `amqp_pool_alloc_bytes` of `amqp_mem.c` (not among the
sources) stores in `*output` the length asked for and the block `amqp_pool_alloc`
returns for it. -/
def amqp_pool_alloc_bytes (pool : amqp_pool_t) (amount : Nat) : amqp_bytes_t × amqp_pool_t :=
  let a := amqp_pool_alloc pool amount
  (⟨amount, a.1⟩, a.2)

/-- The function `amqp_send_header`. -/
def amqp_send_header {σ : Type} (L : LoginExternals σ) (state : amqp_connection_state_t σ) :
    Int × amqp_connection_state_t σ :=
  let header : List Nat :=
    [65, 77, 81, 80, 0, L.AMQP_PROTOCOL_VERSION_MAJOR, L.AMQP_PROTOCOL_VERSION_MINOR,
      L.AMQP_PROTOCOL_VERSION_REVISION]
  let r := L.send state.core header
  (r.1, { state with core := r.2 })

/-- The function `sasl_method_name`; an unknown method ends the process. -/
def sasl_method_name {σ : Type} (L : LoginExternals σ) (method : Nat) : Run (List Nat) :=
  if method = L.AMQP_SASL_METHOD_PLAIN then .done (cstring "PLAIN")
  else if method = L.AMQP_SASL_METHOD_EVOZ then .done (cstring "EVOZ")
  else .abort

/-- The function `sasl_response`: the response, the pool and the memory it leaves.
The lengths are `strlen` of the arguments and their sums are `size_t` sums. Reading
a variadic argument that was not passed, or not with this type, is undefined in C;
the model ends the process there, as it does for an unknown method. -/
def sasl_response {σ : Type} (L : LoginExternals σ) (pool : amqp_pool_t) (core : σ)
    (method : Nat) (args : List va_value) : Run (amqp_bytes_t × amqp_pool_t × σ) :=
  if method = L.AMQP_SASL_METHOD_PLAIN then
    match args with
    | .string username :: .string password :: _ =>
      let a := amqp_pool_alloc_bytes pool
        (size_add (size_add username.length password.length) 2)
      let response := a.1
      if response.bytes = 0 then .done (response, a.2, core)
      else
        .done (response, a.2,
          L.write_bytes core response.bytes ([0] ++ username ++ [0] ++ password))
    | _ => .abort
  else if method = L.AMQP_SASL_METHOD_EVOZ then
    match args with
    | .string udid :: .string key :: .string serial :: .string home :: .string extra ::
        .long_long now :: _ =>
      let sig := L.evoz_signature udid home serial key now
      let hmac64 := sig.1
      let expiry := sig.2
      let a := amqp_pool_alloc_bytes pool
        (size_add (size_add (size_add (size_add (size_add udid.length home.length)
          hmac64.length) expiry.length) extra.length) 5)
      let response := a.1
      if response.bytes = 0 then .done (response, a.2, core)
      else
        .done (response, a.2,
          L.write_bytes core response.bytes
            ([0] ++ udid ++ [0] ++ home ++ [0] ++ hmac64 ++ [0] ++ expiry ++ [0] ++ extra))
    | _ => .abort
  else .abort

/-- The function `amqp_simple_wait_method`: the value returned, `*output` (`output`
is what it holds before the call) and the connection. `amqp_abort` ends the
process. -/
def amqp_simple_wait_method {σ : Type} (X : Externals σ) (state : amqp_connection_state_t σ)
    (expected_channel expected_method : Nat) (output : amqp_method_t) :
    Run (Int × amqp_method_t × amqp_connection_state_t σ) :=
  match amqp_simple_wait_frame X state amqp_frame_t.indeterminate with
  | .abort => .abort
  | .diverge => .diverge
  | .done ⟨res, frame, state⟩ =>
    if res < 0 then .done (res, output, state)
    else if frame.channel ≠ expected_channel then .abort
    else if frame.frame_type ≠ X.AMQP_FRAME_METHOD then .abort
    else if frame.payload.as_method.id ≠ expected_method then .abort
    else .done (0, frame.payload.as_method, state)

/-- The conversion of a `uint32_t` to `int` (two's complement, as every supported
compiler does it). -/
def int_of_uint32 (v : Nat) : Int :=
  if v % 4294967296 < 2147483648 then (v % 4294967296 : Nat)
  else ((v % 4294967296 : Nat) : Int) - 4294967296

/-- The conversion of an `int` to an unsigned integer of `bits` bits. -/
def uint_of_int (bits : Nat) (v : Int) : Nat := (v % (2 ^ bits : Nat)).toNat

/-- The statement `if (server_x != 0 && server_x < x) x = server_x;` of
`amqp_login_inner`, on `int` operands: the value of `x` after it. -/
def tune_choice (server_x x : Int) : Int :=
  if server_x ≠ 0 ∧ server_x < x then server_x else x

/-- The three values `amqp_login_inner` computes from the parameters of the caller
and the tune method of the server: `server_channel_max` and `server_heartbeat` are
`uint16_t` locals, `server_frame_max` is an `int` local. -/
def amqp_login_inner_negotiate (channel_max frame_max heartbeat : Int)
    (s : amqp_connection_tune_t) : Int × Int × Int :=
  let server_channel_max : Nat := s.channel_max % 65536
  let server_frame_max : Int := int_of_uint32 s.frame_max
  let server_heartbeat : Nat := s.heartbeat % 65536
  let channel_max := tune_choice server_channel_max channel_max
  let frame_max := tune_choice server_frame_max frame_max
  let heartbeat := tune_choice server_heartbeat heartbeat
  (channel_max, frame_max, heartbeat)

/-- The part of `amqp_login_inner` after the wait for connection.tune has returned
`method`: the negotiation, `amqp_tune_connection`, tune-ok and the release of the
buffers. -/
def amqp_login_inner_tune {σ : Type} (L : LoginExternals σ) (X : Externals σ)
    (state : amqp_connection_state_t σ) (channel_max frame_max heartbeat : Int)
    (method : amqp_method_t) : Run (Int × amqp_connection_state_t σ) :=
  let n := amqp_login_inner_negotiate channel_max frame_max heartbeat
    (L.connection_tune_at state.core method.decoded)
  let channel_max := n.1
  let frame_max := n.2.1
  let heartbeat := n.2.2
  let t := L.amqp_tune_connection state.core channel_max frame_max heartbeat
  let res := t.1
  let state := { state with core := t.2 }
  if res < 0 then .done (res, state)
  else
    let s : amqp_connection_tune_ok_t :=
      { frame_max := uint_of_int 32 frame_max
        channel_max := uint_of_int 16 channel_max
        heartbeat := uint_of_int 16 heartbeat }
    let p := L.place_tune_ok state.core s
    let state := { state with core := p.2 }
    let r := amqp_send_method X state 0 L.AMQP_CONNECTION_TUNE_OK_METHOD p.1
    let res := r.1
    let state := r.2
    if res < 0 then .done (res, state)
    else
      match L.amqp_release_buffers state with
      | .abort => .abort
      | .diverge => .diverge
      | .done state => .done (0, state)

/-- The part of `amqp_login_inner` after the version check: the start-ok block, the
release of the buffers and the wait for connection.tune. -/
def amqp_login_inner_start_ok {σ : Type} (L : LoginExternals σ) (X : Externals σ)
    (state : amqp_connection_state_t σ) (channel_max frame_max heartbeat : Int)
    (sasl_method : Nat) (vl : List va_value) : Run (Int × amqp_connection_state_t σ) :=
  match sasl_response L state.decoding_pool state.core sasl_method vl with
  | .abort => .abort
  | .diverge => .diverge
  | .done (response_bytes, pool, core) =>
    let state := { state with decoding_pool := pool, core := core }
    if response_bytes.bytes = 0 then .done (-ERROR_NO_MEMORY, state)
    else
      let v := L.evo_get_version state.core
      let evo_ver_res := v.1
      let buffer_evo_version := v.2.1
      let state := { state with core := v.2.2 }
      let properties : List amqp_table_entry_t :=
        [⟨cstring "product", cstring "rabbitmq-c"⟩,
         ⟨cstring "information", cstring "See http://hg.rabbitmq.com/rabbitmq-c/"⟩,
         ⟨cstring "evo_version",
           if evo_ver_res < 0 then cstring "0.0.0" else buffer_evo_version⟩]
      match sasl_method_name L sasl_method with
      | .abort => .abort
      | .diverge => .diverge
      | .done mechanism =>
        let s : amqp_connection_start_ok_t :=
          { client_properties := properties
            mechanism := mechanism
            response := response_bytes
            locale := cstring "en_US" }
        let p := L.place_start_ok state.core s
        let state := { state with core := p.2 }
        let r := amqp_send_method X state 0 L.AMQP_CONNECTION_START_OK_METHOD p.1
        let res := r.1
        let state := r.2
        if res < 0 then .done (res, state)
        else
          match L.amqp_release_buffers state with
          | .abort => .abort
          | .diverge => .diverge
          | .done state =>
            match amqp_simple_wait_method X state 0 L.AMQP_CONNECTION_TUNE_METHOD ⟨0, 0⟩ with
            | .abort => .abort
            | .diverge => .diverge
            | .done (res, method, state) =>
              if res < 0 then .done (res, state)
              else amqp_login_inner_tune L X state channel_max frame_max heartbeat method

/-- The function `amqp_login_inner`; the local `method` starts as the null method.
The value `amqp_send_header` returns is not used. -/
def amqp_login_inner {σ : Type} (L : LoginExternals σ) (X : Externals σ)
    (state : amqp_connection_state_t σ) (channel_max frame_max heartbeat : Int)
    (sasl_method : Nat) (vl : List va_value) : Run (Int × amqp_connection_state_t σ) :=
  let state := (amqp_send_header L state).2
  match amqp_simple_wait_method X state 0 L.AMQP_CONNECTION_START_METHOD ⟨0, 0⟩ with
  | .abort => .abort
  | .diverge => .diverge
  | .done (res, method, state) =>
    if res < 0 then .done (res, state)
    else
      let s := L.connection_start_at state.core method.decoded
      if s.version_major ≠ L.AMQP_PROTOCOL_VERSION_MAJOR ∨
          s.version_minor ≠ L.AMQP_PROTOCOL_VERSION_MINOR then
        .done (-ERROR_INCOMPATIBLE_AMQP_VERSION, state)
      else
        amqp_login_inner_start_ok L X state channel_max frame_max heartbeat sasl_method vl

/-- The function `amqp_login`. -/
def amqp_login {σ : Type} (L : LoginExternals σ) (X : Externals σ)
    (state : amqp_connection_state_t σ) (vhost : List Nat)
    (channel_max frame_max heartbeat : Int) (sasl_method : Nat) (vl : List va_value) :
    Run (amqp_rpc_reply_t × amqp_connection_state_t σ) :=
  match amqp_login_inner L X state channel_max frame_max heartbeat sasl_method vl with
  | .abort => .abort
  | .diverge => .diverge
  | .done (status, state) =>
    if status < 0 then
      .done ({ reply_type := .AMQP_RESPONSE_LIBRARY_EXCEPTION
               reply := ⟨0, 0⟩
               library_error := -status }, state)
    else
      let replies : List Nat := [L.AMQP_CONNECTION_OPEN_OK_METHOD, 0]
      let s : amqp_connection_open_t :=
        { virtual_host := vhost, capabilities := ⟨0, 0⟩, insist := 1 }
      let p := L.place_open state.core s
      let state := { state with core := p.2 }
      match amqp_simple_rpc X state 0 L.AMQP_CONNECTION_OPEN_METHOD replies p.1 with
      | .abort => .abort
      | .diverge => .diverge
      | .done (result, state) =>
        if result.reply_type ≠ .AMQP_RESPONSE_NORMAL then .done (result, state)
        else
          match L.amqp_maybe_release_buffers state with
          | .abort => .abort
          | .diverge => .diverge
          | .done state =>
            .done ({ reply_type := .AMQP_RESPONSE_NORMAL
                     reply := ⟨0, 0⟩
                     library_error := 0 }, state)

/-! ## A concrete handshake, for evaluating the functions -/

/-- A read that delivers connection.start (655370) on channel 0. -/
def example_recv_start : recv_event := ⟨6, [1, 0, 0, 10, 0, 10], 0⟩

/-- The constants of AMQP 0-9-1, a transport whose `send` returns `send_status`, a
server whose connection.start and connection.tune carry `start` and `tune`, and
collaborators that do nothing and succeed. -/
def example_login_externals (send_status : Int) (start : amqp_connection_start_t)
    (tune : amqp_connection_tune_t) : LoginExternals (List Nat) :=
  { AMQP_PROTOCOL_VERSION_MAJOR := 0
    AMQP_PROTOCOL_VERSION_MINOR := 9
    AMQP_PROTOCOL_VERSION_REVISION := 1
    AMQP_CONNECTION_START_METHOD := 655370
    AMQP_CONNECTION_START_OK_METHOD := 655371
    AMQP_CONNECTION_TUNE_METHOD := 655390
    AMQP_CONNECTION_TUNE_OK_METHOD := 655391
    AMQP_CONNECTION_OPEN_METHOD := 655400
    AMQP_CONNECTION_OPEN_OK_METHOD := 655401
    AMQP_SASL_METHOD_PLAIN := 0
    AMQP_SASL_METHOD_EVOZ := 1
    send := fun core _ => (send_status, core)
    connection_start_at := fun _ _ => start
    connection_tune_at := fun _ _ => tune
    write_bytes := fun core _ _ => core
    place_start_ok := fun core _ => (1, core)
    place_tune_ok := fun core _ => (1, core)
    place_open := fun core _ => (1, core)
    evoz_signature := fun _ _ _ _ _ => ([], [])
    evo_get_version := fun core => (-1, [], core)
    amqp_tune_connection := fun core _ _ _ => (0, core)
    amqp_release_buffers := fun state => .done state
    amqp_maybe_release_buffers := fun state => .done state }

/-- The effective value of one tune parameter in the words of the specification: the
value the client requested if the server proposed 0, and otherwise the smaller of
the requested and the proposed value. -/
def tune_effective_spec (requested : Int) (proposed : Nat) : Int :=
  if proposed = 0 then requested else min requested proposed

/-! ## The reply cache of `amqp_socket.c` -/

/-- The function `amqp_simple_rpc_decoded`: the pointer it returns and the
connection. -/
def amqp_simple_rpc_decoded {σ : Type} (X : Externals σ) (state : amqp_connection_state_t σ)
    (channel request_id reply_id decoded_request_method : Nat) :
    Run (Nat × amqp_connection_state_t σ) :=
  let replies : List Nat := [reply_id, 0]
  match amqp_simple_rpc X state channel request_id replies decoded_request_method with
  | .abort => .abort
  | .diverge => .diverge
  | .done (result, state) =>
    let state := { state with most_recent_api_result := result }
    if state.most_recent_api_result.reply_type = .AMQP_RESPONSE_NORMAL then
      .done (state.most_recent_api_result.reply.decoded, state)
    else .done (0, state)

/-- The function `amqp_get_rpc_reply`. -/
def amqp_get_rpc_reply {σ : Type} (state : amqp_connection_state_t σ) : amqp_rpc_reply_t :=
  state.most_recent_api_result

/-! ## Vocabulary for the socket-buffer cursor -/

/-- The cursor of the socket buffer is in range:
`sock_inbound_offset <= sock_inbound_limit <= sock_inbound_buffer.len`. -/
def cursor_in_range {σ : Type} (state : amqp_connection_state_t σ) : Prop :=
  state.sock_inbound_offset ≤ state.sock_inbound_limit ∧
  state.sock_inbound_limit ≤ state.sock_inbound_buffer_len

instance {σ : Type} (state : amqp_connection_state_t σ) : Decidable (cursor_in_range state) := by
  unfold cursor_in_range
  infer_instance

/-! ## `base64_encode` of `amqp_socket.c`

A `char` is held by its byte; the conversion to `unsigned char` gives the value of
that byte. The operands of the shifts and masks are `int` values below 2^16, and a
value stored in an `unsigned char` is reduced modulo 256. `to` and `from` are
addresses in one memory, read and written in the order of the source; `len` is an
`unsigned int`. -/

/-- The array `b64string`: the 64 characters of the string literal and its
terminating NUL. -/
def b64string : List Nat :=
  cstring "ABCDEFGHIJKLMNOPQRSTUVWXYZabcdefghijklmnopqrstuvwxyz0123456789+/" ++ [0]

/-- The loop `for (; len >= 3; len -= 3)` of `base64_encode`: memory, `fromp`, `top`
and `len` after it. -/
def base64_encode_loop (m : Mem) (fromp top len : Nat) : Mem × Nat × Nat × Nat :=
  if h : 3 ≤ len then
    let cbyte := m fromp % 256
    let fromp := fromp + 1
    let m := mem_store m top [b64string.getD (cbyte >>> 2) 0]
    let top := top + 1
    let obyte := ((cbyte <<< 4) &&& 0x30) % 256
    let cbyte := m fromp % 256
    let fromp := fromp + 1
    let obyte := (obyte ||| (cbyte >>> 4)) % 256
    let m := mem_store m top [b64string.getD obyte 0]
    let top := top + 1
    let obyte := ((cbyte <<< 2) &&& 0x3C) % 256
    let cbyte := m fromp % 256
    let fromp := fromp + 1
    let obyte := (obyte ||| (cbyte >>> 6)) % 256
    let m := mem_store m top [b64string.getD obyte 0]
    let top := top + 1
    let m := mem_store m top [b64string.getD (cbyte &&& 0x3F) 0]
    let top := top + 1
    base64_encode_loop m fromp top (len - 3)
  else (m, fromp, top, len)
termination_by len
decreasing_by omega

/-- The function `base64_encode`: the value returned and the memory it leaves. The
parameters `to` and `from` are written `to_` and `from_`, the elements of the local
`end` are written `end_0` and `end_1` (`end[2]` is stored and never read); 61 is the
character `=`. -/
def base64_encode (m : Mem) (to_ from_ len : Nat) : Int × Mem :=
  let fromp := from_
  let top := to_
  let l := base64_encode_loop m fromp top len
  let m := l.1
  let fromp := l.2.1
  let top := l.2.2.1
  let len := l.2.2.2
  let r : Mem × Nat :=
    if len ≠ 0 then
      let end_0 := m fromp % 256
      let fromp := fromp + 1
      let len := len - 1
      let end_1 := if len ≠ 0 then m fromp % 256 else 0
      let cbyte := end_0
      let m := mem_store m top [b64string.getD (cbyte >>> 2) 0]
      let top := top + 1
      let obyte := ((cbyte <<< 4) &&& 0x30) % 256
      let cbyte := end_1
      let obyte := (obyte ||| (cbyte >>> 4)) % 256
      let m := mem_store m top [b64string.getD obyte 0]
      let top := top + 1
      let obyte := ((cbyte <<< 2) &&& 0x3C) % 256
      let m := mem_store m top [if len ≠ 0 then b64string.getD obyte 0 else 61]
      let top := top + 1
      let m := mem_store m top [61]
      let top := top + 1
      (m, top)
    else (m, top)
  let m := r.1
  let top := r.2
  let m := mem_store m top [0]
  ((top : Int) - (to_ : Int), m)

/-! ## Base 64 in the words of RFC 4648 -/

/-- The base 64 alphabet of RFC 4648 (table 1): the character of a 6-bit value,
`A`-`Z` for 0-25, `a`-`z` for 26-51, `0`-`9` for 52-61, `+` for 62 and `/` for 63. -/
def rfc4648_alphabet (v : Nat) : Nat :=
  if v < 26 then 65 + v
  else if v < 52 then 97 + (v - 26)
  else if v < 62 then 48 + (v - 52)
  else if v = 62 then 43
  else 47

/-- The base 64 encoding of RFC 4648 (section 4): each group of three bytes is a
24-bit number that is cut into four 6-bit values; a final group of two bytes is
filled with two zero bits to 18 bits, giving three characters and one `=`; a final
group of one byte is filled with four zero bits to 12 bits, giving two characters and
two `=`. -/
def rfc4648_encode : List Nat → List Nat
  | b0 :: b1 :: b2 :: rest =>
    let n := b0 * 65536 + b1 * 256 + b2
    rfc4648_alphabet (n / 262144 % 64) :: rfc4648_alphabet (n / 4096 % 64) ::
      rfc4648_alphabet (n / 64 % 64) :: rfc4648_alphabet (n % 64) :: rfc4648_encode rest
  | [b0, b1] =>
    let n := (b0 * 256 + b1) * 4
    [rfc4648_alphabet (n / 4096 % 64), rfc4648_alphabet (n / 64 % 64),
      rfc4648_alphabet (n % 64), 61]
  | [b0] =>
    let n := b0 * 16
    [rfc4648_alphabet (n / 64 % 64), rfc4648_alphabet (n % 64), 61, 61]
  | [] => []

/-- The 6-bit value of a character of the base 64 alphabet of RFC 4648, if it is
one. -/
def rfc4648_value (c : Nat) : Option Nat :=
  if 65 ≤ c ∧ c ≤ 90 then some (c - 65)
  else if 97 ≤ c ∧ c ≤ 122 then some (c - 97 + 26)
  else if 48 ≤ c ∧ c ≤ 57 then some (c - 48 + 52)
  else if c = 43 then some 62
  else if c = 47 then some 63
  else none

/-- The base 64 decoding of RFC 4648: each group of four characters gives the three
bytes of its 24-bit number; a final group that ends in one `=` gives two bytes and a
final group that ends in two `=` gives one byte. -/
def rfc4648_decode : List Nat → Option (List Nat)
  | [] => some []
  | c0 :: c1 :: c2 :: c3 :: rest =>
    if c3 = 61 ∧ rest = [] then
      if c2 = 61 then
        match rfc4648_value c0, rfc4648_value c1 with
        | some v0, some v1 => some [(v0 * 64 + v1) / 16 % 256]
        | _, _ => none
      else
        match rfc4648_value c0, rfc4648_value c1, rfc4648_value c2 with
        | some v0, some v1, some v2 =>
          let n := v0 * 4096 + v1 * 64 + v2
          some [n / 1024 % 256, n / 4 % 256]
        | _, _, _ => none
    else
      match rfc4648_value c0, rfc4648_value c1, rfc4648_value c2, rfc4648_value c3,
        rfc4648_decode rest with
      | some v0, some v1, some v2, some v3, some bytes =>
        let n := v0 * 262144 + v1 * 4096 + v2 * 64 + v3
        some (n / 65536 % 256 :: n / 256 % 256 :: n % 256 :: bytes)
      | _, _, _, _, _ => none
  | _ => none

/-! ## The local `frame` of `amqp_simple_rpc` -/

/-- The function `amqp_simple_rpc` for any content of its local `frame`. The source
does not initialise that local, and reads it when `wait_frame_inner` returns a
status that is not negative without having stored a frame; `frame` is what the
stack holds at the start of the call. With `amqp_frame_t.indeterminate` for it this
is `amqp_simple_rpc`. -/
def amqp_simple_rpc_local {σ : Type} (X : Externals σ) (state : amqp_connection_state_t σ)
    (channel request_id : Nat) (expected_reply_ids : List Nat)
    (decoded_request_method : Nat) (frame : amqp_frame_t) :
    Run (amqp_rpc_reply_t × amqp_connection_state_t σ) :=
  let result := amqp_rpc_reply_t.zero
  let s := amqp_send_method X state channel request_id decoded_request_method
  let status := s.1
  let state := s.2
  if status < 0 then
    .done ({ result with reply_type := .AMQP_RESPONSE_LIBRARY_EXCEPTION
                         library_error := -status }, state)
  else
    amqp_simple_rpc_retry X channel expected_reply_ids result
      (state.decoding_pool.limit - state.decoding_pool.next + 1) state frame

/-! ## Byte lists -/

theorem le_bytes_length (n x : Nat) : (le_bytes n x).length = n := by
  induction n generalizing x with
  | zero => rfl
  | succ k ih => simp [le_bytes, ih]

theorem le_bytes_lt (n x b : Nat) (hb : b ∈ le_bytes n x) : b < 256 := by
  induction n generalizing x with
  | zero => simp [le_bytes] at hb
  | succ k ih =>
    simp only [le_bytes, List.mem_cons] at hb
    rcases hb with h | h
    · omega
    · exact ih _ h

theorem le_value_le_bytes (n x : Nat) : le_value (le_bytes n x) = x % 256 ^ n := by
  induction n generalizing x with
  | zero => simp [le_bytes, le_value, Nat.mod_one]
  | succ k ih =>
    simp only [le_bytes, le_value, ih, Nat.mod_mod]
    rw [pow_succ, Nat.mul_comm (256 ^ k) 256, Nat.mod_mul]

theorem le_bytes_le_value (bs : List Nat) (h : ∀ b ∈ bs, b < 256) :
    le_bytes bs.length (le_value bs) = bs := by
  induction bs with
  | nil => rfl
  | cons b bs ih =>
    have hb : b < 256 := h b (List.mem_cons_self _ _)
    have ht : ∀ c ∈ bs, c < 256 := fun c hc => h c (List.mem_cons_of_mem _ hc)
    simp only [List.length_cons, le_bytes, le_value]
    have h1 : (b % 256 + 256 * le_value bs) % 256 = b := by omega
    have h2 : (b % 256 + 256 * le_value bs) / 256 = le_value bs := by omega
    rw [h1, h2, ih ht]

theorem le_bytes_add (m n x : Nat) :
    le_bytes (m + n) x = le_bytes m x ++ le_bytes n (x / 256 ^ m) := by
  induction m generalizing x with
  | zero => simp [le_bytes]
  | succ k ih =>
    rw [Nat.add_right_comm, le_bytes, le_bytes, ih, pow_succ, Nat.mul_comm (256 ^ k) 256,
      Nat.div_div_eq_div_mul]
    rfl

theorem le_value_append (xs ys : List Nat) :
    le_value (xs ++ ys) = le_value xs + 256 ^ xs.length * le_value ys := by
  induction xs with
  | nil => simp [le_value]
  | cons b bs ih =>
    rw [List.cons_append, le_value, ih, le_value, List.length_cons, pow_succ]
    ring

theorem le_bytes_getElem (n x i : Nat) (hi : i < (le_bytes n x).length) :
    (le_bytes n x)[i] = x / 256 ^ i % 256 := by
  induction n generalizing x i with
  | zero => simp [le_bytes] at hi
  | succ k ih =>
    cases i with
    | zero => simp [le_bytes]
    | succ j =>
      simp only [le_bytes, List.getElem_cons_succ]
      rw [ih, Nat.div_div_eq_div_mul, pow_succ, Nat.mul_comm]

theorem be_bytes_length (n x : Nat) : (be_bytes n x).length = n := by
  simp [be_bytes, le_bytes_length]

theorem be_bytes_lt (n x b : Nat) (hb : b ∈ be_bytes n x) : b < 256 := by
  simp only [be_bytes, List.mem_reverse] at hb
  exact le_bytes_lt n x b hb

theorem be_value_be_bytes (n x : Nat) : be_value (be_bytes n x) = x % 256 ^ n := by
  simp [be_value, be_bytes, le_value_le_bytes]

theorem be_bytes_getElem (n x i : Nat) (hi : i < (be_bytes n x).length) :
    (be_bytes n x)[i] = x / 256 ^ (n - 1 - i) % 256 := by
  have hn : i < n := by rwa [be_bytes_length] at hi
  simp only [be_bytes, List.getElem_reverse, le_bytes_getElem, le_bytes_length]

/-- The little-endian bytes of a byte-reversed value are the big-endian bytes. -/
theorem le_bytes_swap (n x : Nat) : le_bytes n (le_value (be_bytes n x)) = be_bytes n x := by
  have h := le_bytes_le_value (be_bytes n x) (be_bytes_lt n x)
  rwa [be_bytes_length] at h

/-- Reversing the bytes twice gives the value back. -/
theorem swap_swap (n x : Nat) :
    le_value (be_bytes n (le_value (be_bytes n x))) = x % 256 ^ n := by
  rw [be_bytes, le_bytes_swap, be_bytes, List.reverse_reverse, le_value_le_bytes]

theorem swap16_eq (x : Nat) : swap16 x = le_value (be_bytes 2 x) := by
  simp [swap16, be_bytes, le_bytes, le_value, Nat.div_div_eq_div_mul]
  omega

theorem swap32_eq (x : Nat) : swap32 x = le_value (be_bytes 4 x) := by
  simp [swap32, be_bytes, le_bytes, le_value, Nat.div_div_eq_div_mul]
  omega

theorem byte_reversal_64_eq (x : Nat) : byte_reversal_64 x = le_value (be_bytes 8 x) := by
  simp [byte_reversal_64, be_bytes, le_bytes, le_value, Nat.div_div_eq_div_mul]
  omega

/-! ## Memory -/

theorem mem_store_outside (m : Mem) (dst : Nat) (bs : List Nat) (a : Nat)
    (h : ¬ (dst ≤ a ∧ a < dst + bs.length)) : mem_store m dst bs a = m a := by
  simp [mem_store, h]

theorem mem_store_inside (m : Mem) (dst : Nat) (bs : List Nat) (i : Nat) (hi : i < bs.length) :
    mem_store m dst bs (dst + i) = bs[i] := by
  have h : dst ≤ dst + i ∧ dst + i < dst + bs.length := ⟨by omega, by omega⟩
  simp [mem_store, h, List.getD_eq_getElem?_getD, List.getElem?_eq_getElem hi]

theorem mem_load_length (m : Mem) (src n : Nat) : (mem_load m src n).length = n := by
  simp [mem_load]

theorem mem_load_store (m : Mem) (dst : Nat) (bs : List Nat) :
    mem_load (mem_store m dst bs) dst bs.length = bs := by
  apply List.ext_getElem
  · simp [mem_load]
  · intro i h1 h2
    simp only [mem_load, List.getElem_map, List.getElem_range]
    exact mem_store_inside m dst bs i h2

/-! ## Byte-order conversions -/

theorem htonll_le_eq (v : Nat) : htonll false v = le_value (be_bytes 8 v) := by
  have h8 : be_bytes 8 v = be_bytes 4 (v / 4294967296) ++ be_bytes 4 v := by
    simp only [be_bytes]
    rw [show (8 : Nat) = 4 + 4 from rfl, le_bytes_add, List.reverse_append]
    norm_num
  have hlow : be_bytes 4 (v % 4294967296) = be_bytes 4 v := by
    simp [be_bytes, le_bytes, Nat.div_div_eq_div_mul]
    omega
  have hhigh : be_bytes 4 (v / 4294967296 % 4294967296) = be_bytes 4 (v / 4294967296) := by
    simp [be_bytes, le_bytes, Nat.div_div_eq_div_mul]
    omega
  simp only [htonll, xtoxll, xtoxll_union.of_whole, xtoxll_union.whole, htonl, swap32_eq,
    Bool.not_false, if_true, Bool.false_eq_true, if_false]
  rw [h8, le_value_append, be_bytes_length, hlow, hhigh]
  norm_num
  ring

theorem htonll_be_eq (v : Nat) (hv : v < 18446744073709551616) : htonll true v = v := by
  simp [htonll, xtoxll, xtoxll_union.of_whole, xtoxll_union.whole, htonl]
  omega

theorem ntohll_eq_htonll (be : Bool) (v : Nat) : ntohll be v = htonll be v := rfl


theorem wire_order_of_swap (be : Bool) (n : Nat) (f : Nat → Nat)
    (hbe : be = true → ∀ v, v < 256 ^ n → f v = v)
    (hle : be = false → ∀ v, f v = le_value (be_bytes n v)) : WireOrder be n f f := by
  cases be with
  | true =>
    constructor
    · intro v hv
      simp [object_bytes, hbe rfl v hv]
    · intro v hv
      have h : be_value (be_bytes n v) = v := by
        rw [be_value_be_bytes, Nat.mod_eq_of_lt hv]
      simp only [object_value, if_true, h]
      exact hbe rfl v hv
  | false =>
    constructor
    · intro v _
      simp only [object_bytes, Bool.false_eq_true, if_false, hle rfl, le_bytes_swap]
    · intro v hv
      simp only [object_value, Bool.false_eq_true, if_false, hle rfl, swap_swap]
      exact Nat.mod_eq_of_lt hv

theorem wire_order_8 (be : Bool) : WireOrder be 1 cast_uint8 cast_uint8 := by
  apply wire_order_of_swap
  · intro _ v hv
    simp only [cast_uint8]
    omega
  · intro _ v
    simp [cast_uint8, be_bytes, le_bytes, le_value]

theorem wire_order_16 (be : Bool) : WireOrder be 2 (htons be) (ntohs be) := by
  apply wire_order_of_swap be 2 (htons be)
  · intro h v _
    simp [htons, h]
  · intro h v
    simp [htons, h, swap16_eq]

theorem wire_order_32 (be : Bool) : WireOrder be 4 (htonl be) (ntohl be) := by
  apply wire_order_of_swap be 4 (htonl be)
  · intro h v _
    simp [htonl, h]
  · intro h v
    simp [htonl, h, swap32_eq]

theorem wire_order_64 (be : Bool) : WireOrder be 8 (htonll be) (ntohll be) := by
  apply wire_order_of_swap be 8 (htonll be)
  · intro h v hv
    subst h
    exact htonll_be_eq v (by norm_num at hv; exact hv)
  · intro h v
    subst h
    exact htonll_le_eq v


theorem wire_order (be : Bool) (w : Width) :
    WireOrder be (w.bits / 8) (w.htonx be) (w.ntohx be) := by
  cases w
  · exact wire_order_8 be
  · exact wire_order_16 be
  · exact wire_order_32 be
  · exact wire_order_64 be

theorem width_pow (w : Width) : 2 ^ w.bits = 256 ^ (w.bits / 8) := by
  cases w <;> norm_num [Width.bits]

theorem width_bytes_pos (w : Width) : 0 < w.bits / 8 := by
  cases w <;> norm_num [Width.bits]

theorem amqp_encode_N_eq (be : Bool) (w : Width) :
    amqp_encode_N be w = amqp_encode be w.bits (w.htonx be) := by
  cases w <;> rfl

theorem amqp_decode_N_eq (be : Bool) (w : Width) :
    amqp_decode_N be w = amqp_decode be w.bits (w.ntohx be) := by
  cases w <;> rfl

theorem size_add_eq (a b : Nat) (h : a + b < SIZE_MODULUS) : size_add a b = a + b :=
  Nat.mod_eq_of_lt h

/-! ## The fixed-width codec -/

theorem amqp_encode_fits (be : Bool) (w : Width) (m : Mem) (encoded : amqp_bytes_t)
    (offset v : Nat) (hlen : encoded.len < SIZE_MODULUS)
    (hfit : offset + w.bits / 8 ≤ encoded.len) (hv : v < 2 ^ w.bits) :
    amqp_encode_N be w m encoded offset v =
      ⟨1, offset + w.bits / 8,
        mem_store m (encoded.bytes + offset) (be_bytes (w.bits / 8) v)⟩ := by
  have hs : size_add offset (w.bits / 8) = offset + w.bits / 8 :=
    size_add_eq _ _ (by omega)
  rw [width_pow] at hv
  simp only [amqp_encode_N_eq, amqp_encode, hs, hfit, if_true, amqp_e, amqp_offset,
    (wire_order be w).to_wire v hv]

theorem amqp_decode_fits (be : Bool) (w : Width) (m : Mem) (encoded : amqp_bytes_t)
    (offset v output : Nat) (hlen : encoded.len < SIZE_MODULUS)
    (hfit : offset + w.bits / 8 ≤ encoded.len) (hv : v < 2 ^ w.bits) :
    amqp_decode_N be w (mem_store m (encoded.bytes + offset) (be_bytes (w.bits / 8) v))
      encoded offset output = ⟨1, offset + w.bits / 8, v⟩ := by
  have hs : size_add offset (w.bits / 8) = offset + w.bits / 8 :=
    size_add_eq _ _ (by omega)
  rw [width_pow] at hv
  have hl := mem_load_store m (encoded.bytes + offset) (be_bytes (w.bits / 8) v)
  rw [be_bytes_length] at hl
  simp only [amqp_decode_N_eq, amqp_decode, hs, hfit, if_true, amqp_d, amqp_offset, hl,
    (wire_order be w).of_wire v hv]

/-- C1. Codec round trip: for each width N, each N-bit value `v` and each view and
offset with `offset + N/8 <= len`, `amqp_encode_N` returns 1, and `amqp_decode_N` on
the resulting memory at the same offset returns 1 and yields `v`, on either host
byte order. -/
theorem codec_round_trip (be : Bool) (w : Width) (m : Mem) (encoded : amqp_bytes_t)
    (offset v output : Nat) (hlen : encoded.len < SIZE_MODULUS)
    (hfit : offset + w.bits / 8 ≤ encoded.len) (hv : v < 2 ^ w.bits) :
    (amqp_encode_N be w m encoded offset v).ret = 1 ∧
    (amqp_decode_N be w (amqp_encode_N be w m encoded offset v).mem encoded offset
      output).ret = 1 ∧
    (amqp_decode_N be w (amqp_encode_N be w m encoded offset v).mem encoded offset
      output).output = v := by
  rw [amqp_encode_fits be w m encoded offset v hlen hfit hv]
  simp only [amqp_decode_fits be w m encoded offset v output hlen hfit hv, and_self]

theorem codec_round_trip_witness :
    (amqp_encode_N false .w32 (fun _ => 0) ⟨8, 4096⟩ 3 305419896).ret = 1 ∧
    (amqp_decode_N false .w32
      (amqp_encode_N false .w32 (fun _ => 0) ⟨8, 4096⟩ 3 305419896).mem ⟨8, 4096⟩ 3
      0).ret = 1 ∧
    (amqp_decode_N false .w32
      (amqp_encode_N false .w32 (fun _ => 0) ⟨8, 4096⟩ 3 305419896).mem ⟨8, 4096⟩ 3
      0).output = 305419896 :=
  codec_round_trip false .w32 (fun _ => 0) ⟨8, 4096⟩ 3 305419896 0
    (by decide) (by decide) (by decide)

theorem amqp_encode_short (be : Bool) (w : Width) (m : Mem) (encoded : amqp_bytes_t)
    (offset v : Nat) (hshort : encoded.len < size_add offset (w.bits / 8)) :
    amqp_encode_N be w m encoded offset v = ⟨0, size_add offset (w.bits / 8), m⟩ := by
  simp only [amqp_encode_N_eq, amqp_encode, Nat.not_le.mpr hshort, if_false]

theorem amqp_decode_short (be : Bool) (w : Width) (m : Mem) (encoded : amqp_bytes_t)
    (offset output : Nat) (hshort : encoded.len < size_add offset (w.bits / 8)) :
    amqp_decode_N be w m encoded offset output =
      ⟨0, size_add offset (w.bits / 8), output⟩ := by
  simp only [amqp_decode_N_eq, amqp_decode, Nat.not_le.mpr hshort, if_false]

/-- C2. Short view: for each width N, when `offset + N/8` exceeds the view's length
and does not wrap around, `amqp_encode_N` returns 0 and leaves memory as it was, and
`amqp_decode_N` returns 0 and leaves `*output` as it was. -/
theorem codec_short_view (be : Bool) (w : Width) (m : Mem) (encoded : amqp_bytes_t)
    (offset v output : Nat) (hshort : encoded.len < offset + w.bits / 8)
    (hnowrap : offset + w.bits / 8 < SIZE_MODULUS) :
    (amqp_encode_N be w m encoded offset v).ret = 0 ∧
    (amqp_encode_N be w m encoded offset v).mem = m ∧
    (amqp_decode_N be w m encoded offset output).ret = 0 ∧
    (amqp_decode_N be w m encoded offset output).output = output := by
  have hs : encoded.len < size_add offset (w.bits / 8) := by
    rw [size_add_eq _ _ hnowrap]
    exact hshort
  rw [amqp_encode_short be w m encoded offset v hs,
    amqp_decode_short be w m encoded offset output hs]
  exact ⟨rfl, rfl, rfl, rfl⟩

theorem codec_short_view_witness :
    (amqp_encode_N true .w16 (fun a => a % 7) ⟨4, 4096⟩ 3 513).ret = 0 ∧
    (amqp_encode_N true .w16 (fun a => a % 7) ⟨4, 4096⟩ 3 513).mem = (fun a => a % 7) ∧
    (amqp_decode_N true .w16 (fun a => a % 7) ⟨4, 4096⟩ 3 99).ret = 0 ∧
    (amqp_decode_N true .w16 (fun a => a % 7) ⟨4, 4096⟩ 3 99).output = 99 :=
  codec_short_view true .w16 (fun a => a % 7) ⟨4, 4096⟩ 3 513 99 (by decide) (by decide)

theorem wire_byte (w : Width) (v i : Nat) (hi : i < w.bits / 8) :
    v / 256 ^ (w.bits / 8 - 1 - i) % 256 = (v >>> (w.bits - 8 * (i + 1))) &&& 0xFF := by
  have h8 : w.bits - 8 * (i + 1) = 8 * (w.bits / 8 - 1 - i) := by
    cases w <;> simp only [Width.bits] at hi ⊢ <;> omega
  have hp : (256 : Nat) ^ (w.bits / 8 - 1 - i) = 2 ^ (8 * (w.bits / 8 - 1 - i)) := by
    rw [pow_mul]
    norm_num
  rw [h8, Nat.shiftRight_eq_div_pow, hp]
  exact (Nat.and_pow_two_sub_one_eq_mod _ 8).symm

/-- C3. Network byte order: after a successful `amqp_encode_N`, on either host byte
order, the byte at position `offset + i` of the view (`i < N/8`) is
`(v >> (N - 8*(i+1))) & 0xFF`, and every byte outside the `N/8` positions from
`offset` on is unchanged. -/
theorem codec_network_order (be : Bool) (w : Width) (m : Mem) (encoded : amqp_bytes_t)
    (offset v : Nat) (hlen : encoded.len < SIZE_MODULUS)
    (hfit : offset + w.bits / 8 ≤ encoded.len) (hv : v < 2 ^ w.bits) :
    (amqp_encode_N be w m encoded offset v).ret = 1 ∧
    (∀ i, i < w.bits / 8 →
      (amqp_encode_N be w m encoded offset v).mem (encoded.bytes + (offset + i)) =
        (v >>> (w.bits - 8 * (i + 1))) &&& 0xFF) ∧
    (∀ a, ¬ (encoded.bytes + offset ≤ a ∧ a < encoded.bytes + offset + w.bits / 8) →
      (amqp_encode_N be w m encoded offset v).mem a = m a) := by
  rw [amqp_encode_fits be w m encoded offset v hlen hfit hv]
  refine ⟨rfl, ?_, ?_⟩
  · intro i hi
    have hi2 : i < (be_bytes (w.bits / 8) v).length := by rwa [be_bytes_length]
    show mem_store m (encoded.bytes + offset) (be_bytes (w.bits / 8) v)
      (encoded.bytes + (offset + i)) = _
    rw [← Nat.add_assoc, mem_store_inside m _ _ i hi2, be_bytes_getElem, wire_byte w v i hi]
  · intro a ha
    apply mem_store_outside
    rwa [be_bytes_length]

theorem codec_network_order_witness :
    (amqp_encode_N false .w64 (fun _ => 0) ⟨16, 4096⟩ 5 72623859790382856).ret = 1 ∧
    (∀ i, i < Width.w64.bits / 8 →
      (amqp_encode_N false .w64 (fun _ => 0) ⟨16, 4096⟩ 5 72623859790382856).mem
          ((⟨16, 4096⟩ : amqp_bytes_t).bytes + (5 + i)) =
        (72623859790382856 >>> (Width.w64.bits - 8 * (i + 1))) &&& 0xFF) ∧
    (∀ a, ¬ ((⟨16, 4096⟩ : amqp_bytes_t).bytes + 5 ≤ a ∧
        a < (⟨16, 4096⟩ : amqp_bytes_t).bytes + 5 + Width.w64.bits / 8) →
      (amqp_encode_N false .w64 (fun _ => 0) ⟨16, 4096⟩ 5 72623859790382856).mem a =
        (fun _ => 0) a) :=
  codec_network_order false .w64 (fun _ => 0) ⟨16, 4096⟩ 5 72623859790382856
    (by decide) (by decide) (by decide)

/-- C4 (evaluation at the failing input). With a 4-byte view at address 4096 and
`*offset = SIZE_MAX`, `amqp_encode_8` computes the wrapped sum 0, returns 1 and
writes the byte outside the view; with `*offset = 1` and `len = SIZE_MAX`,
`amqp_decode_bytes` returns 1 with an output view of `SIZE_MAX` bytes. -/
theorem codec_wraparound_reports_success :
    (amqp_encode_8 false (fun _ => 0) ⟨4, 4096⟩ 18446744073709551615 7).ret = 1 ∧
    (amqp_encode_8 false (fun _ => 0) ⟨4, 4096⟩ 18446744073709551615 7).offset = 0 ∧
    (amqp_encode_8 false (fun _ => 0) ⟨4, 4096⟩ 18446744073709551615 7).mem
      (4096 + 18446744073709551615) = 7 ∧
    ¬ (18446744073709551615 + 8 / 8 ≤ (⟨4, 4096⟩ : amqp_bytes_t).len) ∧
    (amqp_decode_bytes ⟨4, 4096⟩ 1 ⟨0, 0⟩ 18446744073709551615).ret = 1 ∧
    (amqp_decode_bytes ⟨4, 4096⟩ 1 ⟨0, 0⟩ 18446744073709551615).output.len =
      18446744073709551615 ∧
    ¬ (1 + 18446744073709551615 ≤ (⟨4, 4096⟩ : amqp_bytes_t).len) := by
  refine ⟨by decide, by decide, by decide, by decide, by decide, by decide, by decide⟩

/-- Without wraparound of `offset + width`, a call that reports success accessed a
byte range inside the view. -/
theorem codec_bounds_without_wraparound (be : Bool) (w : Width) (m : Mem)
    (encoded input out : amqp_bytes_t) (offset v output len : Nat) :
    (offset + w.bits / 8 < SIZE_MODULUS →
      (amqp_encode_N be w m encoded offset v).ret = 1 →
        offset + w.bits / 8 ≤ encoded.len) ∧
    (offset + w.bits / 8 < SIZE_MODULUS →
      (amqp_decode_N be w m encoded offset output).ret = 1 →
        offset + w.bits / 8 ≤ encoded.len) ∧
    (offset + input.len < SIZE_MODULUS →
      (amqp_encode_bytes m encoded offset input).ret = 1 →
        offset + input.len ≤ encoded.len) ∧
    (offset + len < SIZE_MODULUS →
      (amqp_decode_bytes encoded offset out len).ret = 1 → offset + len ≤ encoded.len) := by
  refine ⟨?_, ?_, ?_, ?_⟩
  · intro h
    simp only [amqp_encode_N_eq, amqp_encode, size_add_eq _ _ h]
    split <;> simp_all
  · intro h
    simp only [amqp_decode_N_eq, amqp_decode, size_add_eq _ _ h]
    split <;> simp_all
  · intro h
    simp only [amqp_encode_bytes, size_add_eq _ _ h]
    split <;> simp_all
  · intro h
    simp only [amqp_decode_bytes, size_add_eq _ _ h]
    split <;> simp_all

/-- C5 (evaluation at the failing input, and the cases that hold). With a 4-byte view
and `*offset = SIZE_MAX` the access of `amqp_encode_8` and `amqp_decode_8` does not
fit (`offset + 1 > len`), yet the `size_t` sum wraps to 0: both return 1 and leave
the offset at 0, not at the old offset plus 1. Whenever `offset + N/8` does not
exceed `SIZE_MAX`, the functions behave as specified: they return 1 exactly when
`offset + N/8 <= len`, return 0 exactly when it is larger, and leave the offset at
`offset + N/8` in both cases. For every input the offset is left at the `size_t` sum
and the call returns 1 exactly when that sum is at most the view's length. -/
theorem codec_offset_semantics (be : Bool) (w : Width) (m : Mem) (encoded : amqp_bytes_t)
    (offset v output : Nat) :
    ((amqp_encode_N false .w8 (fun _ => 0) ⟨4, 4096⟩ 18446744073709551615 7).ret = 1 ∧
      (amqp_encode_N false .w8 (fun _ => 0) ⟨4, 4096⟩ 18446744073709551615 7).offset = 0 ∧
      (amqp_decode_N false .w8 (fun _ => 0) ⟨4, 4096⟩ 18446744073709551615 0).ret = 1 ∧
      (amqp_decode_N false .w8 (fun _ => 0) ⟨4, 4096⟩ 18446744073709551615 0).offset = 0 ∧
      ¬ (18446744073709551615 + Width.w8.bits / 8 ≤ (⟨4, 4096⟩ : amqp_bytes_t).len) ∧
      18446744073709551615 + 1 = SIZE_MODULUS) ∧
    (offset + w.bits / 8 < SIZE_MODULUS →
      ((amqp_encode_N be w m encoded offset v).ret = 1 ↔
        offset + w.bits / 8 ≤ encoded.len) ∧
      ((amqp_encode_N be w m encoded offset v).ret = 0 ↔
        encoded.len < offset + w.bits / 8) ∧
      (amqp_encode_N be w m encoded offset v).offset = offset + w.bits / 8 ∧
      ((amqp_decode_N be w m encoded offset output).ret = 1 ↔
        offset + w.bits / 8 ≤ encoded.len) ∧
      ((amqp_decode_N be w m encoded offset output).ret = 0 ↔
        encoded.len < offset + w.bits / 8) ∧
      (amqp_decode_N be w m encoded offset output).offset = offset + w.bits / 8) ∧
    (amqp_encode_N be w m encoded offset v).offset = size_add offset (w.bits / 8) ∧
    (amqp_decode_N be w m encoded offset output).offset = size_add offset (w.bits / 8) ∧
    ((amqp_encode_N be w m encoded offset v).ret = 1 ↔
      size_add offset (w.bits / 8) ≤ encoded.len) ∧
    ((amqp_encode_N be w m encoded offset v).ret = 0 ↔
      encoded.len < size_add offset (w.bits / 8)) ∧
    ((amqp_decode_N be w m encoded offset output).ret = 1 ↔
      size_add offset (w.bits / 8) ≤ encoded.len) ∧
    ((amqp_decode_N be w m encoded offset output).ret = 0 ↔
      encoded.len < size_add offset (w.bits / 8)) := by
  have hgen : (amqp_encode_N be w m encoded offset v).offset = size_add offset (w.bits / 8) ∧
      (amqp_decode_N be w m encoded offset output).offset = size_add offset (w.bits / 8) ∧
      ((amqp_encode_N be w m encoded offset v).ret = 1 ↔
        size_add offset (w.bits / 8) ≤ encoded.len) ∧
      ((amqp_encode_N be w m encoded offset v).ret = 0 ↔
        encoded.len < size_add offset (w.bits / 8)) ∧
      ((amqp_decode_N be w m encoded offset output).ret = 1 ↔
        size_add offset (w.bits / 8) ≤ encoded.len) ∧
      ((amqp_decode_N be w m encoded offset output).ret = 0 ↔
        encoded.len < size_add offset (w.bits / 8)) := by
    by_cases h : size_add offset (w.bits / 8) ≤ encoded.len
    · simp [amqp_encode_N_eq, amqp_decode_N_eq, amqp_encode, amqp_decode, h]
    · simp [amqp_encode_N_eq, amqp_decode_N_eq, amqp_encode, amqp_decode, h]
      exact Nat.lt_of_not_le h
  refine ⟨⟨by decide, by decide, by decide, by decide, by decide, by decide⟩, ?_, hgen⟩
  intro hno
  have hs := size_add_eq _ _ hno
  rw [hs] at hgen
  exact ⟨hgen.2.2.1, hgen.2.2.2.1, hgen.1, hgen.2.2.2.2.1, hgen.2.2.2.2.2, hgen.2.1⟩

/-- C6 (evaluation at the failing input, and the cases that hold). For a view, an
offset and an input byte string that fits (`offset + |b| <= len`),
`amqp_encode_bytes` returns 1, leaves the offset at `offset + |b|`, puts `b` at the
positions from `offset` on and changes no other byte, and `amqp_decode_bytes` at the
same offset with length `|b|` returns 1 with an output view of that length starting
at position `offset` of the buffer and holding `b`. When `offset + len` exceeds the
view's length and does not exceed `SIZE_MAX`, both return 0, memory is unchanged and
the output view is unchanged. When `offset + len` exceeds `SIZE_MAX` the `size_t`
sum wraps: with a 4-byte view, `*offset = 1` and a length of `SIZE_MAX`,
`offset + len` exceeds the view's length, yet `amqp_decode_bytes` returns 1 and
overwrites the output view, and `amqp_encode_bytes` returns 1. -/
theorem codec_bytes (m : Mem) (encoded input output : amqp_bytes_t) (offset len : Nat)
    (hlen : encoded.len < SIZE_MODULUS) :
    (offset + input.len ≤ encoded.len →
      (amqp_encode_bytes m encoded offset input).ret = 1 ∧
      (amqp_encode_bytes m encoded offset input).offset = offset + input.len ∧
      mem_load (amqp_encode_bytes m encoded offset input).mem (encoded.bytes + offset)
        input.len = mem_load m input.bytes input.len ∧
      (∀ a, ¬ (encoded.bytes + offset ≤ a ∧ a < encoded.bytes + offset + input.len) →
        (amqp_encode_bytes m encoded offset input).mem a = m a) ∧
      (amqp_decode_bytes encoded offset output input.len).ret = 1 ∧
      (amqp_decode_bytes encoded offset output input.len).offset = offset + input.len ∧
      (amqp_decode_bytes encoded offset output input.len).output.len = input.len ∧
      (amqp_decode_bytes encoded offset output input.len).output.bytes =
        encoded.bytes + offset ∧
      mem_load (amqp_encode_bytes m encoded offset input).mem
        (amqp_decode_bytes encoded offset output input.len).output.bytes
        (amqp_decode_bytes encoded offset output input.len).output.len =
          mem_load m input.bytes input.len) ∧
    (offset + input.len < SIZE_MODULUS → encoded.len < offset + input.len →
      (amqp_encode_bytes m encoded offset input).ret = 0 ∧
      (amqp_encode_bytes m encoded offset input).mem = m) ∧
    (offset + len < SIZE_MODULUS → encoded.len < offset + len →
      (amqp_decode_bytes encoded offset output len).ret = 0 ∧
      (amqp_decode_bytes encoded offset output len).output = output) ∧
    ((amqp_decode_bytes ⟨4, 4096⟩ 1 ⟨0, 0⟩ 18446744073709551615).ret = 1 ∧
      (amqp_decode_bytes ⟨4, 4096⟩ 1 ⟨0, 0⟩ 18446744073709551615).output.len =
        18446744073709551615 ∧
      (amqp_decode_bytes ⟨4, 4096⟩ 1 ⟨0, 0⟩ 18446744073709551615).output.bytes = 4097 ∧
      (amqp_decode_bytes ⟨4, 4096⟩ 1 ⟨0, 0⟩ 18446744073709551615).offset = 0 ∧
      (amqp_encode_bytes (fun _ => 0) ⟨4, 4096⟩ 1 ⟨18446744073709551615, 8192⟩).ret = 1 ∧
      (amqp_encode_bytes (fun _ => 0) ⟨4, 4096⟩ 1 ⟨18446744073709551615, 8192⟩).offset = 0 ∧
      (⟨4, 4096⟩ : amqp_bytes_t).len < 1 + 18446744073709551615 ∧
      1 + 18446744073709551615 = SIZE_MODULUS) ∧
    (encoded.len < size_add offset input.len →
      (amqp_encode_bytes m encoded offset input).ret = 0 ∧
      (amqp_encode_bytes m encoded offset input).mem = m) ∧
    (encoded.len < size_add offset len →
      (amqp_decode_bytes encoded offset output len).ret = 0 ∧
      (amqp_decode_bytes encoded offset output len).output = output) := by
  have hse : encoded.len < size_add offset input.len →
      (amqp_encode_bytes m encoded offset input).ret = 0 ∧
      (amqp_encode_bytes m encoded offset input).mem = m := by
    intro hshort
    simp only [amqp_encode_bytes, Nat.not_le.mpr hshort, if_false, and_self]
  have hsd : encoded.len < size_add offset len →
      (amqp_decode_bytes encoded offset output len).ret = 0 ∧
      (amqp_decode_bytes encoded offset output len).output = output := by
    intro hshort
    simp only [amqp_decode_bytes, Nat.not_le.mpr hshort, if_false, and_self]
  refine ⟨?_, ?_, ?_, ⟨by decide, by decide, by decide, by decide, by decide, by decide,
    by decide, by decide⟩, hse, hsd⟩
  · intro hfit
    have hs : size_add offset input.len = offset + input.len := size_add_eq _ _ (by omega)
    have hl := mem_load_store m (encoded.bytes + offset) (mem_load m input.bytes input.len)
    rw [mem_load_length] at hl
    simp only [amqp_encode_bytes, amqp_decode_bytes, hs, hfit, if_true, memcpy, amqp_offset,
      hl, true_and, and_true]
    intro a ha
    apply mem_store_outside
    rwa [mem_load_length]
  · intro hno hshort
    exact hse (by rw [size_add_eq _ _ hno]; exact hshort)
  · intro hno hshort
    exact hsd (by rw [size_add_eq _ _ hno]; exact hshort)

/-- C7. The 64-bit conversion built from two 32-bit conversions: on a little-endian
host `htonll` and `ntohll` are the reversal of the eight bytes, on a big-endian host
they are the identity, and on both `ntohll (htonll v) = v`, for every 64-bit `v`. -/
theorem xtoxll_is_byte_order_conversion (v : Nat) (hv : v < 2 ^ 64) :
    htonll false v = byte_reversal_64 v ∧ ntohll false v = byte_reversal_64 v ∧
    htonll true v = v ∧ ntohll true v = v ∧
    ∀ be, ntohll be (htonll be v) = v := by
  have hv2 : v < 18446744073709551616 := by norm_num at hv; exact hv
  have h256 : (18446744073709551616 : Nat) = 256 ^ 8 := by norm_num
  refine ⟨?_, ?_, htonll_be_eq v hv2, htonll_be_eq v hv2, ?_⟩
  · rw [htonll_le_eq, byte_reversal_64_eq]
  · rw [ntohll_eq_htonll, htonll_le_eq, byte_reversal_64_eq]
  · intro be
    cases be
    · rw [ntohll_eq_htonll, htonll_le_eq, htonll_le_eq, swap_swap]
      exact Nat.mod_eq_of_lt (h256 ▸ hv2)
    · rw [ntohll_eq_htonll, htonll_be_eq v hv2, htonll_be_eq v hv2]


theorem codec_bytes_witness :
    ((amqp_encode_bytes (fun a => a % 251) ⟨8, 4096⟩ 5 ⟨3, 8192⟩).ret = 1 ∧
      (amqp_encode_bytes (fun a => a % 251) ⟨8, 4096⟩ 5 ⟨3, 8192⟩).offset = 5 + 3) ∧
    ((amqp_encode_bytes (fun a => a % 251) ⟨8, 4096⟩ 7 ⟨3, 8192⟩).ret = 0 ∧
      (amqp_encode_bytes (fun a => a % 251) ⟨8, 4096⟩ 7 ⟨3, 8192⟩).mem =
        (fun a => a % 251)) ∧
    ((amqp_decode_bytes ⟨8, 4096⟩ 7 ⟨0, 0⟩ 3).ret = 0 ∧
      (amqp_decode_bytes ⟨8, 4096⟩ 7 ⟨0, 0⟩ 3).output = ⟨0, 0⟩) :=
  ⟨⟨((codec_bytes (fun a => a % 251) ⟨8, 4096⟩ ⟨3, 8192⟩ ⟨0, 0⟩ 5 3 (by decide)).1
      (by decide)).1,
    ((codec_bytes (fun a => a % 251) ⟨8, 4096⟩ ⟨3, 8192⟩ ⟨0, 0⟩ 5 3 (by decide)).1
      (by decide)).2.1⟩,
   (codec_bytes (fun a => a % 251) ⟨8, 4096⟩ ⟨3, 8192⟩ ⟨0, 0⟩ 7 3 (by decide)).2.1
      (by decide) (by decide),
   (codec_bytes (fun a => a % 251) ⟨8, 4096⟩ ⟨3, 8192⟩ ⟨0, 0⟩ 7 3 (by decide)).2.2.1
      (by decide) (by decide)⟩

theorem xtoxll_is_byte_order_conversion_witness :
    htonll false 72623859790382856 = byte_reversal_64 72623859790382856 ∧
    ntohll false 72623859790382856 = byte_reversal_64 72623859790382856 ∧
    htonll true 72623859790382856 = 72623859790382856 ∧
    ntohll true 72623859790382856 = 72623859790382856 ∧
    ∀ be, ntohll be (htonll be 72623859790382856) = 72623859790382856 :=
  xtoxll_is_byte_order_conversion 72623859790382856 (by decide)


/-! ## Reply lists -/

theorem amqp_id_in_reply_list_eq (e : Nat) (l : List Nat) :
    amqp_id_in_reply_list e l = if e ∈ reply_ids l then 1 else 0 := by
  induction l with
  | nil => simp [amqp_id_in_reply_list, reply_ids]
  | cons x xs ih =>
    unfold reply_ids at ih ⊢
    by_cases hx : x = 0
    · simp [amqp_id_in_reply_list, hx]
    · by_cases hxe : x = e
      · simp [amqp_id_in_reply_list, hx, hxe, List.takeWhile_cons]
      · have hne : ¬ e = x := fun h => hxe h.symm
        simp [amqp_id_in_reply_list, hx, hxe, hne, List.takeWhile_cons, ih]

theorem amqp_id_in_reply_list_ne_zero (e : Nat) (l : List Nat) :
    amqp_id_in_reply_list e l ≠ 0 ↔ e ∈ reply_ids l := by
  rw [amqp_id_in_reply_list_eq]
  split <;> simp_all


/-! ## `wait_frame_inner` leaves the pool and the queue alone -/

theorem wait_frame_inner_buffered_with_queue_of {σ : Type} (X : Externals σ) (fuel : Nat)
    (state q : amqp_connection_state_t σ) (frame : amqp_frame_t) :
    wait_frame_inner_buffered X fuel (with_queue_of state q) frame =
      (wait_frame_inner_buffered X fuel state frame).map
        (fun r => (r.1, r.2.1, with_queue_of r.2.2 q)) := by
  induction fuel generalizing state frame with
  | zero =>
    unfold wait_frame_inner_buffered
    by_cases h : amqp_data_in_buffer state = true
    · have h2 : amqp_data_in_buffer (with_queue_of state q) = true := h
      simp [h, h2, Run.map]
    · have h2 : ¬ amqp_data_in_buffer (with_queue_of state q) = true := h
      simp [h, h2, Run.map]
  | succ n ih =>
    unfold wait_frame_inner_buffered
    by_cases h : amqp_data_in_buffer state = true
    · have h2 : amqp_data_in_buffer (with_queue_of state q) = true := h
      simp only [h, h2, if_true]
      have hio : X.amqp_handle_input (with_queue_of state q).core
          { len := (with_queue_of state q).sock_inbound_limit -
              (with_queue_of state q).sock_inbound_offset
            data := List.take ((with_queue_of state q).sock_inbound_limit -
              (with_queue_of state q).sock_inbound_offset)
              (List.drop (with_queue_of state q).sock_inbound_offset
                (with_queue_of state q).sock_inbound_buffer) } =
          X.amqp_handle_input state.core
          { len := state.sock_inbound_limit - state.sock_inbound_offset
            data := List.take (state.sock_inbound_limit - state.sock_inbound_offset)
              (List.drop state.sock_inbound_offset state.sock_inbound_buffer) } := rfl
      rw [hio]
      generalize X.amqp_handle_input state.core _ = r
      by_cases h1 : r.1 < 0
      · rw [if_pos h1, if_pos h1]
        rfl
      · rw [if_neg h1, if_neg h1]
        by_cases h3 : r.2.1.frame_type ≠ 0
        · rw [if_pos h3, if_pos h3]
          rfl
        · rw [if_neg h3, if_neg h3]
          by_cases h4 : r.1 = 0
          · rw [if_pos h4, if_pos h4]
            rfl
          · rw [if_neg h4, if_neg h4]
            exact ih { state with
              core := r.2.2
              sock_inbound_offset := state.sock_inbound_offset + r.1.toNat } r.2.1
    · have h2 : ¬ amqp_data_in_buffer (with_queue_of state q) = true := h
      simp [h, h2, Run.map]


theorem wait_frame_inner_loop_with_queue_of {σ : Type} (X : Externals σ)
    (transport : List recv_event) (state q : amqp_connection_state_t σ) (frame : amqp_frame_t) :
    wait_frame_inner_loop X transport (with_queue_of state q) frame =
      (wait_frame_inner_loop X transport state frame).map
        (fun r => { r with state := with_queue_of r.state q }) := by
  induction transport generalizing state frame with
  | nil =>
    unfold wait_frame_inner_loop
    have hb := wait_frame_inner_buffered_with_queue_of X
      (state.sock_inbound_limit - state.sock_inbound_offset) state q frame
    have hf : (with_queue_of state q).sock_inbound_limit -
      (with_queue_of state q).sock_inbound_offset =
        state.sock_inbound_limit - state.sock_inbound_offset := rfl
    rw [hf, hb]
    cases wait_frame_inner_buffered X
      (state.sock_inbound_limit - state.sock_inbound_offset) state frame with
    | abort => rfl
    | diverge => rfl
    | done a =>
      obtain ⟨res, fr, st⟩ := a
      cases res <;> rfl
  | cons ev rest ih =>
    unfold wait_frame_inner_loop
    have hb := wait_frame_inner_buffered_with_queue_of X
      (state.sock_inbound_limit - state.sock_inbound_offset) state q frame
    have hf : (with_queue_of state q).sock_inbound_limit -
      (with_queue_of state q).sock_inbound_offset =
        state.sock_inbound_limit - state.sock_inbound_offset := rfl
    rw [hf, hb]
    cases wait_frame_inner_buffered X
      (state.sock_inbound_limit - state.sock_inbound_offset) state frame with
    | abort => rfl
    | diverge => rfl
    | done a =>
      obtain ⟨res, fr, st⟩ := a
      cases res with
      | some v => rfl
      | none =>
        simp only [Run.map]
        by_cases h1 : ev.res ≤ 0
        · rw [if_pos h1, if_pos h1]
          by_cases h2 : ev.res = 0
          · rw [if_pos h2, if_pos h2]
            rfl
          · rw [if_neg h2, if_neg h2]
            rfl
        · rw [if_neg h1, if_neg h1]
          exact ih { st with
            transport := rest
            sock_inbound_buffer := ev.data ++ st.sock_inbound_buffer.drop ev.data.length
            sock_inbound_limit := ev.res.toNat
            sock_inbound_offset := 0 } fr

theorem wait_frame_inner_with_queue_of {σ : Type} (X : Externals σ)
    (state q : amqp_connection_state_t σ) (frame : amqp_frame_t) :
    wait_frame_inner X (with_queue_of state q) frame =
      (wait_frame_inner X state frame).map
        (fun r => { r with state := with_queue_of r.state q }) :=
  wait_frame_inner_loop_with_queue_of X state.transport state q frame


/-- The queue members after a call of `wait_frame_inner` are those before it. -/
theorem wait_frame_inner_keeps_queue {σ : Type} (X : Externals σ)
    (state : amqp_connection_state_t σ) (frame : amqp_frame_t) (r : wait_result σ)
    (hw : wait_frame_inner X state frame = .done r) :
    r.state = with_queue_of r.state state := by
  have h := wait_frame_inner_with_queue_of X state state frame
  have he : with_queue_of state state = state := rfl
  rw [he, hw] at h
  simp only [Run.map, Run.done.injEq] at h
  exact congrArg wait_result.state h

/-! ## The bounds on the number of passes are never reached -/

/-- The consume loop gives the same result for every bound that is at least the
number of unconsumed bytes: it does not run out of passes. -/
theorem wait_frame_inner_buffered_fuel {σ : Type} (X : Externals σ) :
    ∀ (fuel1 fuel2 : Nat) (state : amqp_connection_state_t σ) (frame : amqp_frame_t),
      state.sock_inbound_limit - state.sock_inbound_offset ≤ fuel1 →
      state.sock_inbound_limit - state.sock_inbound_offset ≤ fuel2 →
      wait_frame_inner_buffered X fuel1 state frame =
        wait_frame_inner_buffered X fuel2 state frame := by
  intro fuel1
  induction fuel1 with
  | zero =>
    intro fuel2 state frame h1 _
    have hno : ¬ amqp_data_in_buffer state = true := by
      simp only [amqp_data_in_buffer, decide_eq_true_eq]
      omega
    unfold wait_frame_inner_buffered
    rw [if_neg hno, if_neg hno]
  | succ n ih =>
    intro fuel2 state frame h1 h2
    by_cases hd : amqp_data_in_buffer state = true
    · have hlt : state.sock_inbound_offset < state.sock_inbound_limit := by
        simpa [amqp_data_in_buffer] using hd
      obtain ⟨m, rfl⟩ : ∃ m, fuel2 = m + 1 := ⟨fuel2 - 1, by omega⟩
      unfold wait_frame_inner_buffered
      rw [if_pos hd, if_pos hd]
      simp only
      generalize X.amqp_handle_input state.core _ = r
      by_cases hr1 : r.1 < 0
      · rw [if_pos hr1, if_pos hr1]
      · rw [if_neg hr1, if_neg hr1]
        by_cases hr2 : r.2.1.frame_type ≠ 0
        · rw [if_pos hr2, if_pos hr2]
        · rw [if_neg hr2, if_neg hr2]
          by_cases hr3 : r.1 = 0
          · rw [if_pos hr3, if_pos hr3]
          · rw [if_neg hr3, if_neg hr3]
            apply ih
            · show state.sock_inbound_limit - (state.sock_inbound_offset + r.1.toNat) ≤ n
              omega
            · show state.sock_inbound_limit - (state.sock_inbound_offset + r.1.toNat) ≤ m
              omega
    · unfold wait_frame_inner_buffered
      rw [if_neg hd, if_neg hd]

/-- The retry loop of `amqp_simple_rpc` gives the same result for every bound that
exceeds the memory left to the pool: it does not run out of passes. -/
theorem amqp_simple_rpc_retry_fuel {σ : Type} (X : Externals σ) (channel : Nat)
    (expected_reply_ids : List Nat) (result : amqp_rpc_reply_t) :
    ∀ (fuel1 fuel2 : Nat) (state : amqp_connection_state_t σ) (frame : amqp_frame_t),
      state.decoding_pool.limit - state.decoding_pool.next < fuel1 →
      state.decoding_pool.limit - state.decoding_pool.next < fuel2 →
      amqp_simple_rpc_retry X channel expected_reply_ids result fuel1 state frame =
        amqp_simple_rpc_retry X channel expected_reply_ids result fuel2 state frame := by
  intro fuel1
  induction fuel1 with
  | zero => intro fuel2 state frame h1 _; omega
  | succ n ih =>
    intro fuel2 state frame h1 h2
    obtain ⟨m, rfl⟩ : ∃ m, fuel2 = m + 1 := ⟨fuel2 - 1, by omega⟩
    rw [amqp_simple_rpc_retry, amqp_simple_rpc_retry]
    cases hw : wait_frame_inner X state frame with
    | abort => rfl
    | diverge => rfl
    | done r =>
      have hk := wait_frame_inner_keeps_queue X state frame r hw
      have hpool : r.state.decoding_pool = state.decoding_pool := by
        rw [hk]
        rfl
      obtain ⟨status, g, st⟩ := r
      simp only at hpool ⊢
      by_cases hs : status < 0
      · rw [if_pos hs, if_pos hs]
      · rw [if_neg hs, if_neg hs]
        split
        · simp only [amqp_pool_alloc, hpool]
          by_cases ha : state.decoding_pool.next + sizeof_amqp_frame_t ≤
              state.decoding_pool.limit
          · by_cases hb : state.decoding_pool.next + sizeof_amqp_frame_t +
                sizeof_amqp_link_t ≤ state.decoding_pool.limit
            · simp only [if_pos ha, if_pos hb]
              split
              · rfl
              · simp only [sizeof_amqp_frame_t, sizeof_amqp_link_t] at hb
                apply ih
                · by_cases hl : st.last_queued_frame = 0 <;>
                    simp only [hl, if_true, if_false, sizeof_amqp_frame_t,
                      sizeof_amqp_link_t] <;> omega
                · by_cases hl : st.last_queued_frame = 0 <;>
                    simp only [hl, if_true, if_false, sizeof_amqp_frame_t,
                      sizeof_amqp_link_t] <;> omega
            · simp only [if_pos ha, if_neg hb, or_true, if_true]
          · simp only [if_neg ha, true_or, if_true]
        · rfl

/-! ## The frame queue -/

theorem store_same {α : Type} (m : Nat → α) (p : Nat) (v : α) : store m p v p = v := by
  simp [store]

theorem store_other {α : Type} (m : Nat → α) (p q : Nat) (v : α) (h : q ≠ p) :
    store m p v q = m q := by
  simp [store, h]

theorem queue_chain_ne_zero (links : Nat → amqp_link_t) (p : Nat) (ptrs : List Nat)
    (h : queue_chain links p ptrs) : ∀ q ∈ ptrs, q ≠ 0 := by
  induction ptrs generalizing p with
  | nil => simp
  | cons a as ih =>
    obtain ⟨_, h0, ht⟩ := h
    intro q hq
    rcases List.mem_cons.mp hq with h1 | h1
    · rw [h1]
      exact h0
    · exact ih _ ht q h1

theorem queue_chain_congr (links links2 : Nat → amqp_link_t) (p : Nat) (ptrs : List Nat)
    (h : queue_chain links p ptrs) (hsame : ∀ q ∈ ptrs, (links2 q).next = (links q).next) :
    queue_chain links2 p ptrs := by
  induction ptrs generalizing p with
  | nil => exact h
  | cons a as ih =>
    obtain ⟨h1, h0, ht⟩ := h
    refine ⟨h1, h0, ?_⟩
    rw [hsame a (List.mem_cons_self _ _)]
    exact ih _ ht (fun q hq => hsame q (List.mem_cons_of_mem _ hq))

/-- Linking a fresh node behind the last link of a non-empty chain extends the
chain by that node. -/
theorem queue_chain_append (links : Nat → amqp_link_t) (new d : Nat) (ptrs : List Nat)
    (p : Nat) (h : queue_chain links p ptrs) (hne : ptrs ≠ []) (hnd : ptrs.Nodup)
    (hnew : new ∉ ptrs) (hn0 : new ≠ 0) :
    queue_chain
      (store (store links new ⟨0, d⟩) (ptrs.getLastD 0)
        ⟨new, (store links new ⟨0, d⟩ (ptrs.getLastD 0)).data⟩)
      p (ptrs ++ [new]) := by
  induction ptrs generalizing p with
  | nil => exact absurd rfl hne
  | cons a as ih =>
    obtain ⟨h1, h0, ht⟩ := h
    have hna : new ≠ a := fun e => hnew (e ▸ List.mem_cons_self _ _)
    have hnas : new ∉ as := fun e => hnew (List.mem_cons_of_mem _ e)
    cases as with
    | nil =>
      have hnext : (links a).next = 0 := ht
      refine ⟨h1, h0, ?_⟩
      simp only [List.getLastD_cons, List.getLastD_nil, store_same]
      refine ⟨rfl, hn0, ?_⟩
      show (store (store links new ⟨0, d⟩) a _ new).next = 0
      rw [store_other _ _ _ _ hna, store_same]
    | cons b bs =>
      have hlast : (a :: b :: bs).getLastD 0 = (b :: bs).getLastD 0 := by
        simp [List.getLastD_cons]
      have hmem : (b :: bs).getLastD 0 ∈ b :: bs := by
        rw [List.getLastD_eq_getLast?, List.getLast?_eq_getLast _ (List.cons_ne_nil _ _)]
        exact List.getLast_mem _
      have hal : a ≠ (b :: bs).getLastD 0 := by
        intro e
        exact (List.nodup_cons.mp hnd).1 (e ▸ hmem)
      rw [hlast]
      refine ⟨h1, h0, ?_⟩
      rw [store_other _ _ _ _ hal, store_other _ _ _ _ (Ne.symm hna)]
      exact ih _ ht (List.cons_ne_nil _ _) (List.nodup_cons.mp hnd).2 hnas


theorem queue_holds_last_eq_zero {σ : Type} (state : amqp_connection_state_t σ)
    (ptrs : List Nat) (h : queue_holds state ptrs) :
    state.last_queued_frame = 0 ↔ ptrs = [] := by
  constructor
  · intro h0
    cases ptrs with
    | nil => rfl
    | cons a as =>
      have hmem : (a :: as).getLastD 0 ∈ a :: as := by
        rw [List.getLastD_eq_getLast?, List.getLast?_eq_getLast _ (List.cons_ne_nil _ _)]
        exact List.getLast_mem _
      have := queue_chain_ne_zero _ _ _ h.chain _ hmem
      rw [← h.last] at this
      exact absurd h0 this
  · intro he
    rw [h.last, he]
    rfl

theorem queue_holds_last_mem {σ : Type} (state : amqp_connection_state_t σ)
    (ptrs : List Nat) (h : queue_holds state ptrs) (hne : ptrs ≠ []) :
    state.last_queued_frame ∈ ptrs := by
  rw [h.last, List.getLastD_eq_getLast?, List.getLast?_eq_getLast _ hne]
  exact List.getLast_mem _

/-- The queueing branch appends one link, holding the frame, behind the queue. -/
theorem enqueued_holds {σ : Type} (state : amqp_connection_state_t σ) (g : amqp_frame_t)
    (ptrs : List Nat) (h : queue_holds state ptrs) :
    queue_holds (enqueued state g) (ptrs ++ [state.decoding_pool.next + sizeof_amqp_frame_t]) ∧
    queue_frames (enqueued state g) (ptrs ++ [state.decoding_pool.next + sizeof_amqp_frame_t]) =
      queue_frames state ptrs ++ [g] := by
  have hpos := h.pool_pos
  have hlink0 : state.decoding_pool.next + sizeof_amqp_frame_t ≠ 0 := by
    simp [sizeof_amqp_frame_t]
  have hfresh : ∀ p ∈ ptrs, p ≠ state.decoding_pool.next + sizeof_amqp_frame_t := by
    intro p hp
    have := (h.allocated p hp).1
    omega
  have hnew : state.decoding_pool.next + sizeof_amqp_frame_t ∉ ptrs :=
    fun hm => hfresh _ hm rfl
  have hlinks : ∀ p ∈ ptrs, ((enqueued state g).links p).data = (state.links p).data := by
    intro p hp
    simp only [enqueued]
    split
    · rw [store_other _ _ _ _ (hfresh p hp)]
    · by_cases hpl : p = state.last_queued_frame
      · rw [hpl, store_same, store_other _ _ _ _ (hpl ▸ hfresh p hp)]
      · rw [store_other _ _ _ _ hpl, store_other _ _ _ _ (hfresh p hp)]
  have hlinknew : (enqueued state g).links (state.decoding_pool.next + sizeof_amqp_frame_t) =
      ⟨0, state.decoding_pool.next⟩ := by
    simp only [enqueued]
    split
    · rw [store_same]
    · rename_i hl
      have hne : ptrs ≠ [] := fun e => hl ((queue_holds_last_eq_zero state ptrs h).mpr e)
      have hm := queue_holds_last_mem state ptrs h hne
      rw [store_other _ _ _ _ (Ne.symm (hfresh _ hm)), store_same]
  refine ⟨⟨?_, ?_, ?_, ?_, ?_⟩, ?_⟩
  · by_cases hl : state.last_queued_frame = 0
    · have he : ptrs = [] := (queue_holds_last_eq_zero state ptrs h).mp hl
      subst he
      simp only [enqueued, hl, if_true, List.nil_append]
      refine ⟨rfl, hlink0, ?_⟩
      show (store state.links _ _ _).next = 0
      rw [store_same]
    · have hne : ptrs ≠ [] := fun e => hl ((queue_holds_last_eq_zero state ptrs h).mpr e)
      have hc := queue_chain_append state.links
        (state.decoding_pool.next + sizeof_amqp_frame_t) state.decoding_pool.next ptrs
        state.first_queued_frame h.chain hne h.nodup hnew hlink0
      rw [← h.last] at hc
      simp only [enqueued, hl, if_false]
      exact hc
  · show state.decoding_pool.next + sizeof_amqp_frame_t = _
    simp
  · rw [List.nodup_append]
    refine ⟨h.nodup, List.nodup_singleton _, ?_⟩
    intro a ha hb
    rw [List.mem_singleton] at hb
    exact hfresh a ha hb
  · intro p hp
    rcases List.mem_append.mp hp with hp | hp
    · rw [hlinks p hp]
      have := h.allocated p hp
      simp only [enqueued]
      omega
    · rw [List.mem_singleton] at hp
      rw [hp, hlinknew]
      simp only [enqueued, sizeof_amqp_frame_t, sizeof_amqp_link_t]
      omega
  · simp only [enqueued]
    omega
  · simp only [queue_frames, List.map_append, List.map_cons, List.map_nil, hlinknew]
    congr 1
    · apply List.map_congr_left
      intro p hp
      rw [hlinks p hp]
      have := (h.allocated p hp).2
      show store state.frames _ _ _ = _
      rw [store_other _ _ _ _ (by omega)]
    · show [store state.frames _ _ _] = _
      rw [store_same]


/-! ## `amqp_simple_rpc` -/

theorem rpc_condition_iff {σ : Type} (X : Externals σ) (channel : Nat)
    (expected_reply_ids : List Nat) (frame : amqp_frame_t) :
    (frame.frame_type = X.AMQP_FRAME_METHOD ∧
      ((frame.channel = channel ∧
          (amqp_id_in_reply_list frame.payload.as_method.id expected_reply_ids ≠ 0 ∨
            frame.payload.as_method.id = X.AMQP_CHANNEL_CLOSE_METHOD)) ∨
        (frame.channel = 0 ∧
          frame.payload.as_method.id = X.AMQP_CONNECTION_CLOSE_METHOD))) ↔
    rpc_reply_frame X channel expected_reply_ids frame := by
  unfold rpc_reply_frame
  rw [amqp_id_in_reply_list_ne_zero]
  tauto

/-- A pass of the retry loop whose frame does not end the wait queues the frame and
goes round again (when the pool has room for the copy and the link). -/
theorem rpc_retry_queues {σ : Type} (X : Externals σ) (channel : Nat)
    (expected_reply_ids : List Nat) (result : amqp_rpc_reply_t) (fuel : Nat)
    (state : amqp_connection_state_t σ) (frame : amqp_frame_t) (r : wait_result σ)
    (hw : wait_frame_inner X state frame = .done r) (hs : ¬ r.status < 0)
    (hn : ¬ rpc_reply_frame X channel expected_reply_ids r.frame)
    (hpos : 0 < r.state.decoding_pool.next)
    (hroom : r.state.decoding_pool.next + sizeof_amqp_frame_t + sizeof_amqp_link_t ≤
      r.state.decoding_pool.limit) :
    amqp_simple_rpc_retry X channel expected_reply_ids result (fuel + 1) state frame =
      amqp_simple_rpc_retry X channel expected_reply_ids result fuel
        (enqueued r.state r.frame) r.frame := by
  obtain ⟨status, g, st⟩ := r
  rw [amqp_simple_rpc_retry, hw]
  simp only at hs hn hpos hroom ⊢
  rw [if_neg hs, if_pos ((rpc_condition_iff X channel expected_reply_ids g).not.mpr hn)]
  have h1 : st.decoding_pool.next + sizeof_amqp_frame_t ≤ st.decoding_pool.limit := by omega
  have ha1 : amqp_pool_alloc st.decoding_pool sizeof_amqp_frame_t =
      (st.decoding_pool.next,
        { st.decoding_pool with next := st.decoding_pool.next + sizeof_amqp_frame_t }) := by
    simp [amqp_pool_alloc, h1]
  have ha2 : amqp_pool_alloc
      { st.decoding_pool with next := st.decoding_pool.next + sizeof_amqp_frame_t }
      sizeof_amqp_link_t =
      (st.decoding_pool.next + sizeof_amqp_frame_t,
        { st.decoding_pool with
          next := st.decoding_pool.next + sizeof_amqp_frame_t + sizeof_amqp_link_t }) := by
    simp [amqp_pool_alloc, hroom]
  simp only [ha1, ha2]
  have hz : ¬ (st.decoding_pool.next = 0 ∨ st.decoding_pool.next + sizeof_amqp_frame_t = 0) := by
    simp [sizeof_amqp_frame_t]
    omega
  rw [if_neg hz]
  congr 1
  simp only [enqueued]
  split <;> rfl


/-- A pass of the retry loop whose frame ends the wait returns the reply built from
that frame. -/
theorem rpc_retry_replies {σ : Type} (X : Externals σ) (channel : Nat)
    (expected_reply_ids : List Nat) (fuel : Nat)
    (state : amqp_connection_state_t σ) (frame : amqp_frame_t) (r : wait_result σ)
    (hw : wait_frame_inner X state frame = .done r) (hs : ¬ r.status < 0)
    (hy : rpc_reply_frame X channel expected_reply_ids r.frame) :
    amqp_simple_rpc_retry X channel expected_reply_ids amqp_rpc_reply_t.zero (fuel + 1) state
      frame = .done (rpc_reply_of expected_reply_ids r.frame, r.state) := by
  obtain ⟨status, g, st⟩ := r
  rw [amqp_simple_rpc_retry, hw]
  simp only at hs hy ⊢
  rw [if_neg hs,
    if_neg (not_not.mpr ((rpc_condition_iff X channel expected_reply_ids g).mpr hy))]
  simp only [rpc_reply_of, amqp_rpc_reply_t.zero, amqp_id_in_reply_list_ne_zero]

theorem wait_frames_cons {σ : Type} (X : Externals σ) (n : Nat)
    (state : amqp_connection_state_t σ) (frame g : amqp_frame_t) (rest : List amqp_frame_t)
    (h : wait_frames X (n + 1) state frame = g :: rest) :
    ∃ r, wait_frame_inner X state frame = .done r ∧ ¬ r.status < 0 ∧ r.frame = g ∧
      wait_frames X n r.state r.frame = rest := by
  rw [wait_frames] at h
  cases hw : wait_frame_inner X state frame with
  | abort => rw [hw] at h; simp at h
  | diverge => rw [hw] at h; simp at h
  | done r =>
    rw [hw] at h
    simp only at h
    by_cases hs : r.status < 0
    · rw [if_pos hs] at h
      simp at h
    · rw [if_neg hs] at h
      exact ⟨r, rfl, hs, (List.cons.inj h).1, (List.cons.inj h).2⟩

/-- The retry loop of `amqp_simple_rpc`, for the frames `fs ++ [f]` delivered by the
successive calls of `wait_frame_inner`: when no frame of `fs` ends the wait and `f`
does, and the pool has room to queue `fs`, the loop returns the reply built from `f`
and has appended `fs`, one link a frame, behind the queue. -/
theorem rpc_retry_routes {σ : Type} (X : Externals σ) (channel : Nat)
    (expected_reply_ids : List Nat) (f : amqp_frame_t) :
    ∀ (fs : List amqp_frame_t) (fuel : Nat) (state q : amqp_connection_state_t σ)
      (frame : amqp_frame_t) (ptrs : List Nat),
      wait_frames X (fs.length + 1) state frame = fs ++ [f] →
      (∀ g ∈ fs, ¬ rpc_reply_frame X channel expected_reply_ids g) →
      rpc_reply_frame X channel expected_reply_ids f →
      queue_holds q ptrs →
      q.decoding_pool.next + fs.length * (sizeof_amqp_frame_t + sizeof_amqp_link_t) ≤
        q.decoding_pool.limit →
      fs.length < fuel →
      ∃ state2 new,
        amqp_simple_rpc_retry X channel expected_reply_ids amqp_rpc_reply_t.zero fuel
          (with_queue_of state q) frame =
            .done (rpc_reply_of expected_reply_ids f, state2) ∧
        new.length = fs.length ∧
        queue_holds state2 (ptrs ++ new) ∧
        queue_frames state2 (ptrs ++ new) = queue_frames q ptrs ++ fs := by
  intro fs
  induction fs with
  | nil =>
    intro fuel state q frame ptrs hdel _ hf hq _ hfuel
    obtain ⟨r, hw, hs, hfr, _⟩ := wait_frames_cons X 0 state frame f [] hdel
    obtain ⟨k, rfl⟩ : ∃ k, fuel = k + 1 := ⟨fuel - 1, by simp at hfuel; omega⟩
    have hw2 := wait_frame_inner_with_queue_of X state q frame
    rw [hw] at hw2
    refine ⟨with_queue_of r.state q, [], ?_, rfl, ?_, ?_⟩
    · rw [rpc_retry_replies X channel expected_reply_ids k _ frame _ hw2 hs (hfr ▸ hf), ← hfr]
    · rw [List.append_nil]
      exact ⟨hq.chain, hq.last, hq.nodup, hq.allocated, hq.pool_pos⟩
    · simp [queue_frames, with_queue_of]
  | cons g gs ih =>
    intro fuel state q frame ptrs hdel hfs hf hq hroom hfuel
    obtain ⟨r, hw, hs, hfr, hrest⟩ := wait_frames_cons X (gs.length + 1) state frame g
      (gs ++ [f]) hdel
    obtain ⟨k, rfl⟩ : ∃ k, fuel = k + 1 := ⟨fuel - 1, by simp at hfuel; omega⟩
    have hw2 := wait_frame_inner_with_queue_of X state q frame
    rw [hw] at hw2
    have hg : ¬ rpc_reply_frame X channel expected_reply_ids g :=
      hfs g (List.mem_cons_self _ _)
    simp only [List.length_cons] at hroom hfuel
    have hroom1 : q.decoding_pool.next + sizeof_amqp_frame_t + sizeof_amqp_link_t ≤
        q.decoding_pool.limit := by
      simp only [sizeof_amqp_frame_t, sizeof_amqp_link_t] at hroom ⊢
      omega
    have hstep := rpc_retry_queues X channel expected_reply_ids amqp_rpc_reply_t.zero k
      (with_queue_of state q) frame _ hw2 hs (hfr ▸ hg) hq.pool_pos hroom1
    simp only [Run.map] at hstep
    have hq1 : queue_holds (with_queue_of r.state q) ptrs :=
      ⟨hq.chain, hq.last, hq.nodup, hq.allocated, hq.pool_pos⟩
    have hen : queue_holds (enqueued (with_queue_of r.state q) r.frame)
          (ptrs ++ [q.decoding_pool.next + sizeof_amqp_frame_t]) ∧
        queue_frames (enqueued (with_queue_of r.state q) r.frame)
          (ptrs ++ [q.decoding_pool.next + sizeof_amqp_frame_t]) =
            queue_frames q ptrs ++ [r.frame] :=
      enqueued_holds (with_queue_of r.state q) r.frame ptrs hq1
    have hshape : enqueued (with_queue_of r.state q) r.frame =
        with_queue_of r.state (enqueued (with_queue_of r.state q) r.frame) := rfl
    rw [hshape] at hstep
    have hroom2 : (enqueued (with_queue_of r.state q) r.frame).decoding_pool.next +
        gs.length * (sizeof_amqp_frame_t + sizeof_amqp_link_t) ≤
        (enqueued (with_queue_of r.state q) r.frame).decoding_pool.limit := by
      show q.decoding_pool.next + sizeof_amqp_frame_t + sizeof_amqp_link_t + _ ≤
        q.decoding_pool.limit
      simp only [sizeof_amqp_frame_t, sizeof_amqp_link_t] at hroom ⊢
      omega
    obtain ⟨state2, new, hrun, hlen, hq2, hfr2⟩ := ih k r.state
      (enqueued (with_queue_of r.state q) r.frame) r.frame
      (ptrs ++ [q.decoding_pool.next + sizeof_amqp_frame_t]) hrest
      (fun x hx => hfs x (List.mem_cons_of_mem _ hx)) hf hen.1 hroom2 (by omega)
    refine ⟨state2, (q.decoding_pool.next + sizeof_amqp_frame_t) :: new, ?_, ?_, ?_, ?_⟩
    · rw [hstep, hrun]
    · simp [hlen]
    · have : ptrs ++ (q.decoding_pool.next + sizeof_amqp_frame_t) :: new =
          ptrs ++ [q.decoding_pool.next + sizeof_amqp_frame_t] ++ new := by simp
      rw [this]
      exact hq2
    · have : ptrs ++ (q.decoding_pool.next + sizeof_amqp_frame_t) :: new =
          ptrs ++ [q.decoding_pool.next + sizeof_amqp_frame_t] ++ new := by simp
      rw [this, hfr2, hen.2, hfr]
      simp



/-- The whole of `amqp_simple_rpc`, for a request that was sent and the frames
`fs ++ [f]` delivered after it. -/
theorem amqp_simple_rpc_routes {σ : Type} (X : Externals σ)
    (state : amqp_connection_state_t σ) (channel request_id : Nat)
    (expected_reply_ids : List Nat) (decoded : Nat) (fs : List amqp_frame_t)
    (f : amqp_frame_t) (ptrs : List Nat)
    (hsend : ¬ (amqp_send_method X state channel request_id decoded).1 < 0)
    (hdel : wait_frames X (fs.length + 1)
      (amqp_send_method X state channel request_id decoded).2 amqp_frame_t.indeterminate =
        fs ++ [f])
    (hfs : ∀ g ∈ fs, ¬ rpc_reply_frame X channel expected_reply_ids g)
    (hf : rpc_reply_frame X channel expected_reply_ids f)
    (hq : queue_holds state ptrs)
    (hroom : state.decoding_pool.next +
      fs.length * (sizeof_amqp_frame_t + sizeof_amqp_link_t) ≤ state.decoding_pool.limit) :
    ∃ state2 new,
      amqp_simple_rpc X state channel request_id expected_reply_ids decoded =
        .done (rpc_reply_of expected_reply_ids f, state2) ∧
      new.length = fs.length ∧
      queue_holds state2 (ptrs ++ new) ∧
      queue_frames state2 (ptrs ++ new) = queue_frames state ptrs ++ fs := by
  have hq2 : queue_holds (amqp_send_method X state channel request_id decoded).2 ptrs :=
    ⟨hq.chain, hq.last, hq.nodup, hq.allocated, hq.pool_pos⟩
  have hfuel : fs.length <
      (amqp_send_method X state channel request_id decoded).2.decoding_pool.limit -
        (amqp_send_method X state channel request_id decoded).2.decoding_pool.next + 1 := by
    show fs.length < state.decoding_pool.limit - state.decoding_pool.next + 1
    simp only [sizeof_amqp_frame_t, sizeof_amqp_link_t] at hroom
    omega
  obtain ⟨state2, new, hrun, hlen, hq3, hfr⟩ :=
    rpc_retry_routes X channel expected_reply_ids f fs _
      (amqp_send_method X state channel request_id decoded).2
      (amqp_send_method X state channel request_id decoded).2
      amqp_frame_t.indeterminate ptrs hdel hfs hf hq2 hroom hfuel
  refine ⟨state2, new, ?_, hlen, hq3, hfr⟩
  unfold amqp_simple_rpc
  simp only [if_neg hsend]
  exact hrun

/-- C8. RPC frame routing: when the request was sent and the transport then
delivers the frames `fs` followed by `f`, where `f` is the first frame that is a
method frame and (a) on `channel` with an expected id, or (b) on `channel` and
channel.close, or (c) on channel 0 and connection.close, and the pool has room for the
copies, `amqp_simple_rpc` returns the method of `f`, and the frames `fs` have been
appended behind the queue, one link a frame, in arrival order, each equal to the
frame received. -/
theorem rpc_frame_routing {σ : Type} (X : Externals σ)
    (state : amqp_connection_state_t σ) (channel request_id : Nat)
    (expected_reply_ids : List Nat) (decoded : Nat) (fs : List amqp_frame_t)
    (f : amqp_frame_t) (ptrs : List Nat)
    (hsend : ¬ (amqp_send_method X state channel request_id decoded).1 < 0)
    (hdel : wait_frames X (fs.length + 1)
      (amqp_send_method X state channel request_id decoded).2 amqp_frame_t.indeterminate =
        fs ++ [f])
    (hfs : ∀ g ∈ fs, ¬ rpc_reply_frame X channel expected_reply_ids g)
    (hf : rpc_reply_frame X channel expected_reply_ids f)
    (hq : queue_holds state ptrs)
    (hroom : state.decoding_pool.next +
      fs.length * (sizeof_amqp_frame_t + sizeof_amqp_link_t) ≤ state.decoding_pool.limit) :
    ∃ reply state2 new,
      amqp_simple_rpc X state channel request_id expected_reply_ids decoded =
        .done (reply, state2) ∧
      reply.reply = f.payload.as_method ∧
      new.length = fs.length ∧
      queue_holds state2 (ptrs ++ new) ∧
      queue_frames state2 (ptrs ++ new) = queue_frames state ptrs ++ fs := by
  obtain ⟨state2, new, hrun, hlen, hq2, hfr⟩ :=
    amqp_simple_rpc_routes X state channel request_id expected_reply_ids decoded fs f ptrs
      hsend hdel hfs hf hq hroom
  exact ⟨_, state2, new, hrun, rfl, hlen, hq2, hfr⟩

/-- C9. Reply classification: when `amqp_simple_rpc` returns on the frame `f` that
ends its wait, the reply type is NORMAL exactly when the method id of `f` is one of
the expected ids and SERVER_EXCEPTION exactly when it is not, in which case `f` is a
channel.close on the target channel or a connection.close on channel 0; in both
cases the reply is the method of `f`, and `library_error` is 0. -/
theorem rpc_reply_classification {σ : Type} (X : Externals σ)
    (state : amqp_connection_state_t σ) (channel request_id : Nat)
    (expected_reply_ids : List Nat) (decoded : Nat) (fs : List amqp_frame_t)
    (f : amqp_frame_t) (ptrs : List Nat)
    (hsend : ¬ (amqp_send_method X state channel request_id decoded).1 < 0)
    (hdel : wait_frames X (fs.length + 1)
      (amqp_send_method X state channel request_id decoded).2 amqp_frame_t.indeterminate =
        fs ++ [f])
    (hfs : ∀ g ∈ fs, ¬ rpc_reply_frame X channel expected_reply_ids g)
    (hf : rpc_reply_frame X channel expected_reply_ids f)
    (hq : queue_holds state ptrs)
    (hroom : state.decoding_pool.next +
      fs.length * (sizeof_amqp_frame_t + sizeof_amqp_link_t) ≤ state.decoding_pool.limit) :
    ∃ reply state2,
      amqp_simple_rpc X state channel request_id expected_reply_ids decoded =
        .done (reply, state2) ∧
      (reply.reply_type = .AMQP_RESPONSE_NORMAL ↔
        f.payload.as_method.id ∈ reply_ids expected_reply_ids) ∧
      (reply.reply_type = .AMQP_RESPONSE_SERVER_EXCEPTION ↔
        f.payload.as_method.id ∉ reply_ids expected_reply_ids) ∧
      (f.payload.as_method.id ∉ reply_ids expected_reply_ids →
        (f.channel = channel ∧ f.payload.as_method.id = X.AMQP_CHANNEL_CLOSE_METHOD) ∨
        (f.channel = 0 ∧ f.payload.as_method.id = X.AMQP_CONNECTION_CLOSE_METHOD)) ∧
      reply.reply.id = f.payload.as_method.id ∧
      reply.reply.decoded = f.payload.as_method.decoded ∧
      reply.library_error = 0 := by
  obtain ⟨state2, new, hrun, _, _, _⟩ :=
    amqp_simple_rpc_routes X state channel request_id expected_reply_ids decoded fs f ptrs
      hsend hdel hfs hf hq hroom
  refine ⟨_, state2, hrun, ?_, ?_, ?_, rfl, rfl, rfl⟩
  · by_cases h : f.payload.as_method.id ∈ reply_ids expected_reply_ids <;>
      simp [rpc_reply_of, h]
  · by_cases h : f.payload.as_method.id ∈ reply_ids expected_reply_ids <;>
      simp [rpc_reply_of, h]
  · intro h
    obtain ⟨_, h1 | h1 | h1⟩ := hf
    · exact absurd h1.2 h
    · exact Or.inl h1
    · exact Or.inr h1

/-- Taking a frame from a non-empty queue: `amqp_simple_wait_frame` returns the frame
of the head link and leaves the rest of the queue. -/
theorem amqp_simple_wait_frame_dequeues {σ : Type} (X : Externals σ)
    (state : amqp_connection_state_t σ) (frame : amqp_frame_t) (p : Nat) (ptrs : List Nat)
    (hq : queue_holds state (p :: ptrs)) :
    ∃ state2,
      amqp_simple_wait_frame X state frame =
        .done ⟨0, state.frames (state.links p).data, state2⟩ ∧
      queue_holds state2 ptrs ∧
      queue_frames state2 ptrs = queue_frames state ptrs := by
  obtain ⟨hp, hp0, hc⟩ := hq.chain
  have hfirst : state.first_queued_frame ≠ 0 := hp ▸ hp0
  unfold amqp_simple_wait_frame
  rw [if_pos hfirst, hp]
  refine ⟨_, rfl, ?_, ?_⟩
  · cases ptrs with
    | nil =>
      have hn : (state.links p).next = 0 := hc
      simp only [hn, if_true]
      exact ⟨by simp [queue_chain], rfl, List.nodup_nil, by simp, hq.pool_pos⟩
    | cons a as =>
      obtain ⟨ha, ha0, _⟩ := hc
      have hn : ¬ (state.links p).next = 0 := ha ▸ ha0
      simp only [hn, if_false]
      refine ⟨⟨ha, ha0, by assumption⟩, ?_, (List.nodup_cons.mp hq.nodup).2, ?_, hq.pool_pos⟩
      · show state.last_queued_frame = _
        rw [hq.last]
        simp [List.getLastD_cons]
      · intro x hx
        exact hq.allocated x (List.mem_cons_of_mem _ hx)
  · split <;> rfl

/-- C10 (amended). RPC correlation with a close on channel 0: on an empty queue,
when the request was sent and the transport delivers a frame `u` on an unrelated
channel and then a connection.close `y` on channel 0 (not among the expected ids),
`amqp_simple_rpc` returns a SERVER_EXCEPTION reply equal to `y`, and `u` is the frame
the next `amqp_simple_wait_frame` takes from the queue. When instead the second frame
`z` does not end the wait and a reply `x` on the target channel with an expected id
follows, the result is a NORMAL reply equal to `x`, and `u` and then `z` are taken
from the queue by the next two calls of `amqp_simple_wait_frame`. -/
theorem rpc_correlation {σ : Type} (X : Externals σ) (state : amqp_connection_state_t σ)
    (channel request_id : Nat) (expected_reply_ids : List Nat) (decoded : Nat)
    (u : amqp_frame_t) (fr1 fr2 : amqp_frame_t)
    (hsend : ¬ (amqp_send_method X state channel request_id decoded).1 < 0)
    (hu : u.channel ≠ channel ∧ u.channel ≠ 0)
    (hq : queue_holds state [])
    (hroom : state.decoding_pool.next +
      2 * (sizeof_amqp_frame_t + sizeof_amqp_link_t) ≤ state.decoding_pool.limit) :
    (∀ y : amqp_frame_t,
      wait_frames X 2 (amqp_send_method X state channel request_id decoded).2
        amqp_frame_t.indeterminate = [u, y] →
      y.frame_type = X.AMQP_FRAME_METHOD → y.channel = 0 →
      y.payload.as_method.id = X.AMQP_CONNECTION_CLOSE_METHOD →
      X.AMQP_CONNECTION_CLOSE_METHOD ∉ reply_ids expected_reply_ids →
      ∃ state2 state3,
        amqp_simple_rpc X state channel request_id expected_reply_ids decoded =
          .done (⟨.AMQP_RESPONSE_SERVER_EXCEPTION, y.payload.as_method, 0⟩, state2) ∧
        amqp_simple_wait_frame X state2 fr1 = .done ⟨0, u, state3⟩ ∧
        queue_holds state3 []) ∧
    (∀ z x : amqp_frame_t,
      wait_frames X 3 (amqp_send_method X state channel request_id decoded).2
        amqp_frame_t.indeterminate = [u, z, x] →
      ¬ rpc_reply_frame X channel expected_reply_ids z →
      x.frame_type = X.AMQP_FRAME_METHOD → x.channel = channel →
      x.payload.as_method.id ∈ reply_ids expected_reply_ids →
      ∃ state2 state3 state4,
        amqp_simple_rpc X state channel request_id expected_reply_ids decoded =
          .done (⟨.AMQP_RESPONSE_NORMAL, x.payload.as_method, 0⟩, state2) ∧
        amqp_simple_wait_frame X state2 fr1 = .done ⟨0, u, state3⟩ ∧
        amqp_simple_wait_frame X state3 fr2 = .done ⟨0, z, state4⟩ ∧
        queue_holds state4 []) := by
  have hun : ¬ rpc_reply_frame X channel expected_reply_ids u := by
    intro h
    obtain ⟨_, h1 | h1 | h1⟩ := h
    · exact hu.1 h1.1
    · exact hu.1 h1.1
    · exact hu.2 h1.1
  constructor
  · intro y hdel hy1 hy2 hy3 hexp
    have hy : rpc_reply_frame X channel expected_reply_ids y :=
      ⟨hy1, Or.inr (Or.inr ⟨hy2, hy3⟩)⟩
    have hroom1 : state.decoding_pool.next +
        [u].length * (sizeof_amqp_frame_t + sizeof_amqp_link_t) ≤
          state.decoding_pool.limit := by
      simp only [List.length_singleton, sizeof_amqp_frame_t, sizeof_amqp_link_t] at hroom ⊢
      omega
    obtain ⟨state2, new, hrun, hlen, hq2, hfr⟩ :=
      amqp_simple_rpc_routes X state channel request_id expected_reply_ids decoded [u] y []
        hsend hdel (by simpa using hun) hy hq hroom1
    obtain ⟨a, rfl⟩ : ∃ a, new = [a] := List.length_eq_one.mp hlen
    obtain ⟨state3, hw, hq3, _⟩ := amqp_simple_wait_frame_dequeues X state2 fr1 a [] hq2
    have hfa : state2.frames (state2.links a).data = u := by
      simpa [queue_frames] using hfr
    rw [hfa] at hw
    refine ⟨state2, state3, ?_, hw, hq3⟩
    rw [hrun]
    have hne : y.payload.as_method.id ∉ reply_ids expected_reply_ids := hy3 ▸ hexp
    simp [rpc_reply_of, hne]
  · intro z x hdel hz hx1 hx2 hx3
    have hx : rpc_reply_frame X channel expected_reply_ids x := ⟨hx1, Or.inl ⟨hx2, hx3⟩⟩
    have hroom2 : state.decoding_pool.next +
        [u, z].length * (sizeof_amqp_frame_t + sizeof_amqp_link_t) ≤
          state.decoding_pool.limit := hroom
    have hfs : ∀ g ∈ [u, z], ¬ rpc_reply_frame X channel expected_reply_ids g := by
      intro g hg
      rcases List.mem_cons.mp hg with h | h
      · exact h ▸ hun
      · rw [List.mem_singleton] at h
        exact h ▸ hz
    obtain ⟨state2, new, hrun, hlen, hq2, hfr⟩ :=
      amqp_simple_rpc_routes X state channel request_id expected_reply_ids decoded [u, z] x []
        hsend hdel hfs hx hq hroom2
    obtain ⟨a, b, rfl⟩ : ∃ a b, new = [a, b] := List.length_eq_two.mp hlen
    obtain ⟨state3, hw1, hq3, hf3⟩ := amqp_simple_wait_frame_dequeues X state2 fr1 a [b] hq2
    obtain ⟨state4, hw2, hq4, _⟩ := amqp_simple_wait_frame_dequeues X state3 fr2 b [] hq3
    simp only [queue_frames, List.nil_append, List.map_cons, List.map_nil, List.cons.injEq,
      and_true] at hfr hf3
    rw [hfr.1] at hw1
    rw [hf3, hfr.2] at hw2
    refine ⟨state2, state3, state4, ?_, hw1, hw2, hq4⟩
    rw [hrun]
    simp [rpc_reply_of, hx3]

/-! ## Evaluation on the example transport -/

theorem example_wait_other (rest : List recv_event) (buffer : List Nat) (n : Nat)
    (fr : amqp_frame_t) :
    wait_frame_inner example_externals
      (example_state_at (example_recv_other :: rest) buffer n n) fr =
      .done ⟨0, ⟨1, 2, .method ⟨55, 0⟩⟩, example_state_at rest
          ([1, 2, 0, 0, 0, 55] ++ buffer.drop 6) 6 6⟩ := by
  simp [wait_frame_inner, wait_frame_inner_loop, wait_frame_inner_buffered, example_state_at,
    example_state, example_externals, example_handle_input, amqp_data_in_buffer,
    be_value, le_value, example_recv_other]

theorem example_wait_close (rest : List recv_event) (buffer : List Nat) (n : Nat)
    (fr : amqp_frame_t) :
    wait_frame_inner example_externals
      (example_state_at (example_recv_close :: rest) buffer n n) fr =
      .done ⟨0, ⟨1, 0, .method ⟨655410, 0⟩⟩,
        example_state_at rest
          ([1, 0, 0, 10, 0, 50] ++ buffer.drop 6) 6 6⟩ := by
  simp [wait_frame_inner, wait_frame_inner_loop, wait_frame_inner_buffered, example_state_at,
    example_state, example_externals, example_handle_input, amqp_data_in_buffer,
    be_value, le_value, example_recv_close]

theorem example_wait_reply (rest : List recv_event) (buffer : List Nat) (n : Nat)
    (fr : amqp_frame_t) :
    wait_frame_inner example_externals
      (example_state_at (example_recv_reply :: rest) buffer n n) fr =
      .done ⟨0, ⟨1, 1, .method ⟨11, 0⟩⟩, example_state_at rest
          ([1, 1, 0, 0, 0, 11] ++ buffer.drop 6) 6 6⟩ := by
  simp [wait_frame_inner, wait_frame_inner_loop, wait_frame_inner_buffered, example_state_at,
    example_state, example_externals, example_handle_input, amqp_data_in_buffer,
    be_value, le_value, example_recv_reply]

theorem wait_frames_succ {σ : Type} (X : Externals σ) (n : Nat)
    (state : amqp_connection_state_t σ) (frame : amqp_frame_t) (r : wait_result σ)
    (hw : wait_frame_inner X state frame = .done r) (hs : ¬ r.status < 0) :
    wait_frames X (n + 1) state frame = r.frame :: wait_frames X n r.state r.frame := by
  rw [wait_frames, hw]
  simp only [if_neg hs]

theorem example_delivery_plain :
    wait_frames example_externals 2
      (amqp_send_method example_externals
        (example_state [example_recv_other, example_recv_reply]) 1 77 0).2
      amqp_frame_t.indeterminate =
      [⟨1, 2, .method ⟨55, 0⟩⟩, ⟨1, 1, .method ⟨11, 0⟩⟩] := by
  show wait_frames example_externals (1 + 1)
    (example_state_at [example_recv_other, example_recv_reply] [] 0 0) _ = _
  rw [wait_frames_succ _ _ _ _ _ (example_wait_other _ _ _ _) (by decide)]
  show _ :: wait_frames example_externals (0 + 1) _ _ = _
  rw [wait_frames_succ _ _ _ _ _ (example_wait_reply _ _ _ _) (by decide)]
  rfl

theorem example_delivery_close :
    wait_frames example_externals 3
      (amqp_send_method example_externals
        (example_state [example_recv_other, example_recv_close, example_recv_reply]) 1 77 0).2
      amqp_frame_t.indeterminate =
      [⟨1, 2, .method ⟨55, 0⟩⟩, ⟨1, 0, .method ⟨655410, 0⟩⟩, ⟨1, 1, .method ⟨11, 0⟩⟩] := by
  show wait_frames example_externals (2 + 1)
    (example_state_at [example_recv_other, example_recv_close, example_recv_reply] [] 0 0)
    _ = _
  rw [wait_frames_succ _ _ _ _ _ (example_wait_other _ _ _ _) (by decide)]
  show _ :: wait_frames example_externals (1 + 1) _ _ = _
  rw [wait_frames_succ _ _ _ _ _ (example_wait_close _ _ _ _) (by decide)]
  show _ :: _ :: wait_frames example_externals (0 + 1) _ _ = _
  rw [wait_frames_succ _ _ _ _ _ (example_wait_reply _ _ _ _) (by decide)]
  rfl

theorem wait_frames_take {σ : Type} (X : Externals σ) (n : Nat) :
    ∀ (m : Nat) (state : amqp_connection_state_t σ) (frame : amqp_frame_t),
      wait_frames X n state frame = (wait_frames X (n + m) state frame).take n := by
  induction n with
  | zero => intro m state frame; simp [wait_frames]
  | succ k ih =>
    intro m state frame
    rw [Nat.add_right_comm, wait_frames, wait_frames]
    cases wait_frame_inner X state frame with
    | abort => rfl
    | diverge => rfl
    | done r =>
      by_cases hs : r.status < 0
      · simp [hs]
      · simp only [if_neg hs, List.take_succ_cons]
        rw [← ih m]

theorem example_queue_empty (transport : List recv_event) :
    queue_holds (example_state transport) [] :=
  ⟨rfl, rfl, List.nodup_nil, by simp, by simp [example_state]⟩


theorem rpc_frame_routing_witness :
    ∃ reply state2 new,
      amqp_simple_rpc example_externals
        (example_state [example_recv_other, example_recv_reply]) 1 77 [11, 0] 0 =
          .done (reply, state2) ∧
      reply.reply = (⟨1, 1, .method ⟨11, 0⟩⟩ : amqp_frame_t).payload.as_method ∧
      new.length = [(⟨1, 2, .method ⟨55, 0⟩⟩ : amqp_frame_t)].length ∧
      queue_holds state2 ([] ++ new) ∧
      queue_frames state2 ([] ++ new) =
        queue_frames (example_state [example_recv_other, example_recv_reply]) [] ++
          [⟨1, 2, .method ⟨55, 0⟩⟩] :=
  rpc_frame_routing example_externals (example_state [example_recv_other, example_recv_reply])
    1 77 [11, 0] 0 [⟨1, 2, .method ⟨55, 0⟩⟩] ⟨1, 1, .method ⟨11, 0⟩⟩ []
    (by decide) example_delivery_plain (by decide) (by decide) (example_queue_empty _)
    (by decide)

theorem rpc_reply_classification_witness :
    ∃ reply state2,
      amqp_simple_rpc example_externals
        (example_state [example_recv_other, example_recv_close, example_recv_reply])
        1 77 [11, 0] 0 = .done (reply, state2) ∧
      (reply.reply_type = .AMQP_RESPONSE_NORMAL ↔
        (⟨1, 0, .method ⟨655410, 0⟩⟩ : amqp_frame_t).payload.as_method.id ∈
          reply_ids [11, 0]) ∧
      (reply.reply_type = .AMQP_RESPONSE_SERVER_EXCEPTION ↔
        (⟨1, 0, .method ⟨655410, 0⟩⟩ : amqp_frame_t).payload.as_method.id ∉
          reply_ids [11, 0]) ∧
      ((⟨1, 0, .method ⟨655410, 0⟩⟩ : amqp_frame_t).payload.as_method.id ∉
          reply_ids [11, 0] →
        ((⟨1, 0, .method ⟨655410, 0⟩⟩ : amqp_frame_t).channel = 1 ∧
          (⟨1, 0, .method ⟨655410, 0⟩⟩ : amqp_frame_t).payload.as_method.id =
            example_externals.AMQP_CHANNEL_CLOSE_METHOD) ∨
        ((⟨1, 0, .method ⟨655410, 0⟩⟩ : amqp_frame_t).channel = 0 ∧
          (⟨1, 0, .method ⟨655410, 0⟩⟩ : amqp_frame_t).payload.as_method.id =
            example_externals.AMQP_CONNECTION_CLOSE_METHOD)) ∧
      reply.reply.id = (⟨1, 0, .method ⟨655410, 0⟩⟩ : amqp_frame_t).payload.as_method.id ∧
      reply.reply.decoded =
        (⟨1, 0, .method ⟨655410, 0⟩⟩ : amqp_frame_t).payload.as_method.decoded ∧
      reply.library_error = 0 :=
  rpc_reply_classification example_externals
    (example_state [example_recv_other, example_recv_close, example_recv_reply])
    1 77 [11, 0] 0 [⟨1, 2, .method ⟨55, 0⟩⟩] ⟨1, 0, .method ⟨655410, 0⟩⟩ []
    (by decide)
    ((wait_frames_take example_externals 2 1 _ _).trans
      (congrArg (List.take 2) example_delivery_close))
    (by decide) (by decide) (example_queue_empty _) (by decide)


theorem example_delivery_others :
    wait_frames example_externals 3
      (amqp_send_method example_externals
        (example_state [example_recv_other, example_recv_other, example_recv_reply]) 1 77 0).2
      amqp_frame_t.indeterminate =
      [⟨1, 2, .method ⟨55, 0⟩⟩, ⟨1, 2, .method ⟨55, 0⟩⟩, ⟨1, 1, .method ⟨11, 0⟩⟩] := by
  show wait_frames example_externals (2 + 1)
    (example_state_at [example_recv_other, example_recv_other, example_recv_reply] [] 0 0)
    _ = _
  rw [wait_frames_succ _ _ _ _ _ (example_wait_other _ _ _ _) (by decide)]
  show _ :: wait_frames example_externals (1 + 1) _ _ = _
  rw [wait_frames_succ _ _ _ _ _ (example_wait_other _ _ _ _) (by decide)]
  show _ :: _ :: wait_frames example_externals (0 + 1) _ _ = _
  rw [wait_frames_succ _ _ _ _ _ (example_wait_reply _ _ _ _) (by decide)]
  rfl

/-- C10 (counterexample). With expected ids {11} on channel 1, the transport
delivers method 55 on channel 2, connection.close on channel 0 and method 11 on
channel 1, in this order; `amqp_simple_rpc` returns SERVER_EXCEPTION with the
connection.close, not a NORMAL reply equal to method 11. -/
theorem rpc_correlation_counterexample :
    wait_frames example_externals 3
      (amqp_send_method example_externals
        (example_state [example_recv_other, example_recv_close, example_recv_reply]) 1 77 0).2
      amqp_frame_t.indeterminate =
      [⟨1, 2, .method ⟨55, 0⟩⟩, ⟨1, 0, .method ⟨655410, 0⟩⟩, ⟨1, 1, .method ⟨11, 0⟩⟩] ∧
    (∃ state2, amqp_simple_rpc example_externals
        (example_state [example_recv_other, example_recv_close, example_recv_reply])
        1 77 [11, 0] 0 =
      .done (⟨.AMQP_RESPONSE_SERVER_EXCEPTION, ⟨655410, 0⟩, 0⟩, state2)) ∧
    ¬ (∃ state2, amqp_simple_rpc example_externals
        (example_state [example_recv_other, example_recv_close, example_recv_reply])
        1 77 [11, 0] 0 =
      .done (⟨.AMQP_RESPONSE_NORMAL, ⟨11, 0⟩, 0⟩, state2)) := by
  obtain ⟨state2, _, hrun, _, _, _⟩ :=
    amqp_simple_rpc_routes example_externals
      (example_state [example_recv_other, example_recv_close, example_recv_reply])
      1 77 [11, 0] 0 [⟨1, 2, .method ⟨55, 0⟩⟩] ⟨1, 0, .method ⟨655410, 0⟩⟩ []
      (by decide)
      ((wait_frames_take example_externals 2 1 _ _).trans
        (congrArg (List.take 2) example_delivery_close))
      (by decide) (by decide) (example_queue_empty _) (by decide)
  have hreply : rpc_reply_of [11, 0] ⟨1, 0, .method ⟨655410, 0⟩⟩ =
      ⟨.AMQP_RESPONSE_SERVER_EXCEPTION, ⟨655410, 0⟩, 0⟩ := by decide
  rw [hreply] at hrun
  refine ⟨example_delivery_close, ⟨state2, hrun⟩, ?_⟩
  rintro ⟨state3, h⟩
  rw [hrun] at h
  have h2 := congrArg (fun r => r.result.map (fun p => p.1.reply_type)) h
  simp [Run.result] at h2

theorem rpc_correlation_witness :
    (∃ state2 state3,
      amqp_simple_rpc example_externals
        (example_state [example_recv_other, example_recv_close, example_recv_reply])
        1 77 [11, 0] 0 =
          .done (⟨.AMQP_RESPONSE_SERVER_EXCEPTION,
            (⟨1, 0, .method ⟨655410, 0⟩⟩ : amqp_frame_t).payload.as_method, 0⟩, state2) ∧
      amqp_simple_wait_frame example_externals state2 amqp_frame_t.indeterminate =
        .done ⟨0, ⟨1, 2, .method ⟨55, 0⟩⟩, state3⟩ ∧
      queue_holds state3 []) ∧
    (∃ state2 state3 state4,
      amqp_simple_rpc example_externals
        (example_state [example_recv_other, example_recv_other, example_recv_reply])
        1 77 [11, 0] 0 =
          .done (⟨.AMQP_RESPONSE_NORMAL,
            (⟨1, 1, .method ⟨11, 0⟩⟩ : amqp_frame_t).payload.as_method, 0⟩, state2) ∧
      amqp_simple_wait_frame example_externals state2 amqp_frame_t.indeterminate =
        .done ⟨0, ⟨1, 2, .method ⟨55, 0⟩⟩, state3⟩ ∧
      amqp_simple_wait_frame example_externals state3 amqp_frame_t.indeterminate =
        .done ⟨0, ⟨1, 2, .method ⟨55, 0⟩⟩, state4⟩ ∧
      queue_holds state4 []) :=
  ⟨(rpc_correlation example_externals
      (example_state [example_recv_other, example_recv_close, example_recv_reply])
      1 77 [11, 0] 0 ⟨1, 2, .method ⟨55, 0⟩⟩ amqp_frame_t.indeterminate
      amqp_frame_t.indeterminate (by decide) (by decide) (example_queue_empty _)
      (by decide)).1 ⟨1, 0, .method ⟨655410, 0⟩⟩
      ((wait_frames_take example_externals 2 1 _ _).trans
        (congrArg (List.take 2) example_delivery_close))
      (by decide) (by decide) (by decide) (by decide),
   (rpc_correlation example_externals
      (example_state [example_recv_other, example_recv_other, example_recv_reply])
      1 77 [11, 0] 0 ⟨1, 2, .method ⟨55, 0⟩⟩ amqp_frame_t.indeterminate
      amqp_frame_t.indeterminate (by decide) (by decide) (example_queue_empty _)
      (by decide)).2 ⟨1, 2, .method ⟨55, 0⟩⟩ ⟨1, 1, .method ⟨11, 0⟩⟩
      example_delivery_others (by decide) (by decide) (by decide) (by decide)⟩

/-! ## One pass of the retry loop of `amqp_simple_rpc` -/

/-- A pass of the retry loop whose frame does not end the wait and for which an
allocation fails returns the out-of-memory reply; only the pool has changed. -/
theorem rpc_retry_no_memory {σ : Type} (X : Externals σ) (channel : Nat)
    (expected_reply_ids : List Nat) (fuel : Nat)
    (state : amqp_connection_state_t σ) (frame : amqp_frame_t) (r : wait_result σ)
    (hw : wait_frame_inner X state frame = .done r) (hs : ¬ r.status < 0)
    (hn : ¬ rpc_reply_frame X channel expected_reply_ids r.frame)
    (ha : ¬ rpc_alloc_ok r.state.decoding_pool) :
    amqp_simple_rpc_retry X channel expected_reply_ids amqp_rpc_reply_t.zero (fuel + 1) state
      frame =
      .done (library_exception ERROR_NO_MEMORY,
        { r.state with decoding_pool := rpc_alloc_pool r.state.decoding_pool }) := by
  obtain ⟨status, g, st⟩ := r
  rw [amqp_simple_rpc_retry, hw]
  simp only at hs hn ha ⊢
  rw [if_neg hs, if_pos ((rpc_condition_iff X channel expected_reply_ids g).not.mpr hn)]
  have hz : (amqp_pool_alloc st.decoding_pool sizeof_amqp_frame_t).1 = 0 ∨
      (amqp_pool_alloc (amqp_pool_alloc st.decoding_pool sizeof_amqp_frame_t).2
        sizeof_amqp_link_t).1 = 0 := by
    unfold rpc_alloc_ok at ha
    simp only [amqp_pool_alloc, sizeof_amqp_frame_t, sizeof_amqp_link_t] at ha ⊢
    by_cases h1 : st.decoding_pool.next + 48 ≤ st.decoding_pool.limit
    · by_cases h2 : st.decoding_pool.next + 48 + 16 ≤ st.decoding_pool.limit
      · simp only [if_pos h1, if_pos h2]
        left
        by_contra h0
        exact ha ⟨h0, h2⟩
      · simp only [if_pos h1, if_neg h2, or_true]
    · simp only [if_neg h1, true_or]
  rw [if_pos hz]
  rfl

/-- One pass of the retry loop of `amqp_simple_rpc`, by the four ways it can go once
`wait_frame_inner` has returned. -/
theorem rpc_retry_pass {σ : Type} (X : Externals σ) (channel : Nat)
    (expected_reply_ids : List Nat) (fuel : Nat)
    (state : amqp_connection_state_t σ) (frame : amqp_frame_t) (r : wait_result σ)
    (hw : wait_frame_inner X state frame = .done r) :
    amqp_simple_rpc_retry X channel expected_reply_ids amqp_rpc_reply_t.zero (fuel + 1) state
      frame =
      if r.status < 0 then .done (library_exception (-r.status), r.state)
      else if rpc_reply_frame X channel expected_reply_ids r.frame then
        .done (rpc_reply_of expected_reply_ids r.frame, r.state)
      else if rpc_alloc_ok r.state.decoding_pool then
        amqp_simple_rpc_retry X channel expected_reply_ids amqp_rpc_reply_t.zero fuel
          (enqueued r.state r.frame) r.frame
      else
        .done (library_exception ERROR_NO_MEMORY,
          { r.state with decoding_pool := rpc_alloc_pool r.state.decoding_pool }) := by
  by_cases hs : r.status < 0
  · rw [if_pos hs, amqp_simple_rpc_retry, hw]
    simp only [if_pos hs]
    rfl
  · rw [if_neg hs]
    by_cases hy : rpc_reply_frame X channel expected_reply_ids r.frame
    · rw [if_pos hy]
      exact rpc_retry_replies X channel expected_reply_ids fuel state frame r hw hs hy
    · rw [if_neg hy]
      by_cases ha : rpc_alloc_ok r.state.decoding_pool
      · rw [if_pos ha]
        exact rpc_retry_queues X channel expected_reply_ids _ fuel state frame r hw hs hy
          (Nat.pos_of_ne_zero ha.1) ha.2
      · rw [if_neg ha]
        exact rpc_retry_no_memory X channel expected_reply_ids fuel state frame r hw hs hy ha

theorem rpc_retry_abort {σ : Type} (X : Externals σ) (channel : Nat)
    (expected_reply_ids : List Nat) (result : amqp_rpc_reply_t) (fuel : Nat)
    (state : amqp_connection_state_t σ) (frame : amqp_frame_t)
    (hw : wait_frame_inner X state frame = .abort) :
    amqp_simple_rpc_retry X channel expected_reply_ids result (fuel + 1) state frame =
      .abort := by
  rw [amqp_simple_rpc_retry, hw]

theorem rpc_retry_diverge {σ : Type} (X : Externals σ) (channel : Nat)
    (expected_reply_ids : List Nat) (result : amqp_rpc_reply_t) (fuel : Nat)
    (state : amqp_connection_state_t σ) (frame : amqp_frame_t)
    (hw : wait_frame_inner X state frame = .diverge) :
    amqp_simple_rpc_retry X channel expected_reply_ids result (fuel + 1) state frame =
      .diverge := by
  rw [amqp_simple_rpc_retry, hw]

/-! ## Every result of `amqp_simple_rpc` -/

/-- A result of the retry loop is either a failure reply with a non-zero cause and a
null method, or the reply built from a frame that `wait_frame_inner` returned and
that ends the wait. -/
theorem rpc_retry_result {σ : Type} (X : Externals σ) (channel : Nat)
    (expected_reply_ids : List Nat) :
    ∀ (fuel : Nat) (state : amqp_connection_state_t σ) (frame : amqp_frame_t)
      (reply : amqp_rpc_reply_t) (state2 : amqp_connection_state_t σ),
      amqp_simple_rpc_retry X channel expected_reply_ids amqp_rpc_reply_t.zero fuel state
        frame = .done (reply, state2) →
      (∃ code, code ≠ 0 ∧ reply = library_exception code) ∨
      (∃ st fr r, wait_frame_inner X st fr = .done r ∧ ¬ r.status < 0 ∧
        rpc_reply_frame X channel expected_reply_ids r.frame ∧
        reply = rpc_reply_of expected_reply_ids r.frame) := by
  intro fuel
  induction fuel with
  | zero =>
    intro state frame reply state2 h
    simp [amqp_simple_rpc_retry] at h
  | succ n ih =>
    intro state frame reply state2 h
    cases hw : wait_frame_inner X state frame with
    | abort => rw [rpc_retry_abort _ _ _ _ _ _ _ hw] at h; simp at h
    | diverge => rw [rpc_retry_diverge _ _ _ _ _ _ _ hw] at h; simp at h
    | done r =>
      rw [rpc_retry_pass X channel expected_reply_ids n state frame r hw] at h
      by_cases hs : r.status < 0
      · rw [if_pos hs] at h
        simp only [Run.done.injEq, Prod.mk.injEq] at h
        exact Or.inl ⟨-r.status, by omega, h.1.symm⟩
      · rw [if_neg hs] at h
        by_cases hy : rpc_reply_frame X channel expected_reply_ids r.frame
        · rw [if_pos hy] at h
          simp only [Run.done.injEq, Prod.mk.injEq] at h
          exact Or.inr ⟨state, frame, r, hw, hs, hy, h.1.symm⟩
        · rw [if_neg hy] at h
          by_cases ha : rpc_alloc_ok r.state.decoding_pool
          · rw [if_pos ha] at h
            exact ih _ _ _ _ h
          · rw [if_neg ha] at h
            simp only [Run.done.injEq, Prod.mk.injEq] at h
            exact Or.inl ⟨ERROR_NO_MEMORY, by decide, h.1.symm⟩

theorem amqp_simple_rpc_result {σ : Type} (X : Externals σ)
    (state : amqp_connection_state_t σ) (channel request_id : Nat)
    (expected_reply_ids : List Nat) (decoded : Nat) (reply : amqp_rpc_reply_t)
    (state2 : amqp_connection_state_t σ)
    (h : amqp_simple_rpc X state channel request_id expected_reply_ids decoded =
      .done (reply, state2)) :
    (∃ code, code ≠ 0 ∧ reply = library_exception code) ∨
    (∃ st fr r, wait_frame_inner X st fr = .done r ∧ ¬ r.status < 0 ∧
      rpc_reply_frame X channel expected_reply_ids r.frame ∧
      reply = rpc_reply_of expected_reply_ids r.frame) := by
  unfold amqp_simple_rpc at h
  simp only at h
  by_cases hs : (amqp_send_method X state channel request_id decoded).1 < 0
  · rw [if_pos hs] at h
    simp only [Run.done.injEq, Prod.mk.injEq] at h
    exact Or.inl ⟨-(amqp_send_method X state channel request_id decoded).1, by omega,
      h.1.symm⟩
  · rw [if_neg hs] at h
    exact rpc_retry_result X channel expected_reply_ids _ _ _ _ _ h


/-! ## Failures of `amqp_simple_rpc` -/

theorem rpc_alloc_null_iff (pool : amqp_pool_t) :
    ((amqp_pool_alloc pool sizeof_amqp_frame_t).1 = 0 ∨
      (amqp_pool_alloc (amqp_pool_alloc pool sizeof_amqp_frame_t).2 sizeof_amqp_link_t).1 = 0) ↔
    ¬ rpc_alloc_ok pool := by
  unfold rpc_alloc_ok
  simp only [amqp_pool_alloc, sizeof_amqp_frame_t, sizeof_amqp_link_t]
  by_cases h1 : pool.next + 48 ≤ pool.limit
  · by_cases h2 : pool.next + 48 + 16 ≤ pool.limit
    · simp only [if_pos h1, if_pos h2]
      constructor
      · rintro (h | h) ⟨h0, _⟩
        · exact h0 h
        · omega
      · intro h
        left
        by_contra h0
        exact h ⟨h0, h2⟩
    · simp only [if_pos h1, if_neg h2, or_true, true_iff]
      exact fun h => h2 h.2
  · simp only [if_neg h1, true_or, true_iff]
    intro h
    omega

theorem rpc_alloc_pool_le (pool : amqp_pool_t) :
    pool.next ≤ (rpc_alloc_pool pool).next ∧ (rpc_alloc_pool pool).limit = pool.limit := by
  simp only [rpc_alloc_pool, amqp_pool_alloc]
  by_cases h1 : pool.next + sizeof_amqp_frame_t ≤ pool.limit
  · by_cases h2 : pool.next + sizeof_amqp_frame_t + sizeof_amqp_link_t ≤ pool.limit
    · simp only [if_pos h1, if_pos h2, and_true]
      omega
    · simp only [if_pos h1, if_neg h2, and_true]
      omega
  · simp only [if_neg h1]
    split <;> simp

/-- C13. Failures become LIBRARY_EXCEPTION with the numeric cause. If sending the
request returns a negative status `s`, `amqp_simple_rpc` returns LIBRARY_EXCEPTION
with `library_error = -s`; the transport, the socket buffer and its cursor and the
queue are as before. Otherwise `amqp_simple_rpc` is its retry loop, and in any pass
of that loop: if `wait_frame_inner` returns a negative status `s` the result is
LIBRARY_EXCEPTION with `library_error = -s`; if the frame does not end the wait and
either pool allocation returns null the result is LIBRARY_EXCEPTION with
`library_error = ERROR_NO_MEMORY = 1` and the queue pointers, links and frame copies
are as before the pass. -/
theorem rpc_failures {σ : Type} (X : Externals σ) (channel : Nat)
    (expected_reply_ids : List Nat) :
    (∀ (state : amqp_connection_state_t σ) (request_id decoded : Nat),
      (amqp_send_method X state channel request_id decoded).1 < 0 →
      amqp_simple_rpc X state channel request_id expected_reply_ids decoded =
        .done (⟨.AMQP_RESPONSE_LIBRARY_EXCEPTION, ⟨0, 0⟩,
            -(amqp_send_method X state channel request_id decoded).1⟩,
          (amqp_send_method X state channel request_id decoded).2) ∧
      (amqp_send_method X state channel request_id decoded).2.transport = state.transport ∧
      (amqp_send_method X state channel request_id decoded).2.sock_inbound_buffer =
        state.sock_inbound_buffer ∧
      (amqp_send_method X state channel request_id decoded).2.sock_inbound_offset =
        state.sock_inbound_offset ∧
      (amqp_send_method X state channel request_id decoded).2.sock_inbound_limit =
        state.sock_inbound_limit ∧
      (amqp_send_method X state channel request_id decoded).2.first_queued_frame =
        state.first_queued_frame ∧
      (amqp_send_method X state channel request_id decoded).2.last_queued_frame =
        state.last_queued_frame ∧
      (amqp_send_method X state channel request_id decoded).2.links = state.links ∧
      (amqp_send_method X state channel request_id decoded).2.frames = state.frames) ∧
    (∀ (state : amqp_connection_state_t σ) (request_id decoded : Nat),
      ¬ (amqp_send_method X state channel request_id decoded).1 < 0 →
      amqp_simple_rpc X state channel request_id expected_reply_ids decoded =
        amqp_simple_rpc_retry X channel expected_reply_ids amqp_rpc_reply_t.zero
          ((amqp_send_method X state channel request_id decoded).2.decoding_pool.limit -
            (amqp_send_method X state channel request_id decoded).2.decoding_pool.next + 1)
          (amqp_send_method X state channel request_id decoded).2
          amqp_frame_t.indeterminate) ∧
    (∀ (fuel : Nat) (state : amqp_connection_state_t σ) (frame : amqp_frame_t)
      (r : wait_result σ),
      wait_frame_inner X state frame = .done r → r.status < 0 →
      amqp_simple_rpc_retry X channel expected_reply_ids amqp_rpc_reply_t.zero (fuel + 1)
        state frame =
        .done (⟨.AMQP_RESPONSE_LIBRARY_EXCEPTION, ⟨0, 0⟩, -r.status⟩, r.state)) ∧
    (∀ (fuel : Nat) (state : amqp_connection_state_t σ) (frame : amqp_frame_t)
      (r : wait_result σ),
      wait_frame_inner X state frame = .done r → ¬ r.status < 0 →
      ¬ rpc_reply_frame X channel expected_reply_ids r.frame →
      ((amqp_pool_alloc r.state.decoding_pool sizeof_amqp_frame_t).1 = 0 ∨
        (amqp_pool_alloc (amqp_pool_alloc r.state.decoding_pool sizeof_amqp_frame_t).2
          sizeof_amqp_link_t).1 = 0) →
      ∃ state2,
        amqp_simple_rpc_retry X channel expected_reply_ids amqp_rpc_reply_t.zero (fuel + 1)
          state frame =
          .done (⟨.AMQP_RESPONSE_LIBRARY_EXCEPTION, ⟨0, 0⟩, ERROR_NO_MEMORY⟩, state2) ∧
        ERROR_NO_MEMORY = 1 ∧
        state2.first_queued_frame = state.first_queued_frame ∧
        state2.last_queued_frame = state.last_queued_frame ∧
        state2.links = state.links ∧
        state2.frames = state.frames) := by
  refine ⟨?_, ?_, ?_, ?_⟩
  · intro state request_id decoded hs
    refine ⟨?_, rfl, rfl, rfl, rfl, rfl, rfl, rfl, rfl⟩
    unfold amqp_simple_rpc
    simp only [if_pos hs]
    rfl
  · intro state request_id decoded hs
    unfold amqp_simple_rpc
    simp only [if_neg hs]
  · intro fuel state frame r hw hs
    rw [rpc_retry_pass X channel expected_reply_ids fuel state frame r hw, if_pos hs]
    rfl
  · intro fuel state frame r hw hs hn ha
    have hk := wait_frame_inner_keeps_queue X state frame r hw
    have hna := (rpc_alloc_null_iff r.state.decoding_pool).mp ha
    refine ⟨{ r.state with decoding_pool := rpc_alloc_pool r.state.decoding_pool }, ?_, rfl,
      ?_, ?_, ?_, ?_⟩
    · rw [rpc_retry_pass X channel expected_reply_ids fuel state frame r hw, if_neg hs,
        if_neg hn, if_neg hna]
      rfl
    · show r.state.first_queued_frame = _
      rw [hk]
      rfl
    · show r.state.last_queued_frame = _
      rw [hk]
      rfl
    · show r.state.links = _
      rw [hk]
      rfl
    · show r.state.frames = _
      rw [hk]
      rfl

/-! ## The queue across calls -/

theorem queue_holds_of_keeps {σ : Type} (state st : amqp_connection_state_t σ)
    (ptrs : List Nat) (hk : st = with_queue_of st state) (hq : queue_holds state ptrs) :
    queue_holds st ptrs ∧ queue_frames st ptrs = queue_frames state ptrs := by
  rw [hk]
  exact ⟨⟨hq.chain, hq.last, hq.nodup, hq.allocated, hq.pool_pos⟩, rfl⟩

theorem queue_holds_pool {σ : Type} (state : amqp_connection_state_t σ) (ptrs : List Nat)
    (pool : amqp_pool_t) (hq : queue_holds state ptrs)
    (hp : state.decoding_pool.next ≤ pool.next) :
    queue_holds { state with decoding_pool := pool } ptrs ∧
    queue_frames { state with decoding_pool := pool } ptrs = queue_frames state ptrs := by
  refine ⟨⟨hq.chain, hq.last, hq.nodup, ?_, ?_⟩, rfl⟩
  · intro p hp2
    have := hq.allocated p hp2
    exact ⟨Nat.lt_of_lt_of_le this.1 hp, Nat.lt_of_lt_of_le this.2 hp⟩
  · exact Nat.lt_of_lt_of_le hq.pool_pos hp

/-- The retry loop of `amqp_simple_rpc` leaves the queued frames where they are and
puts the frames it stores behind them, in the order in which it stores them. -/
theorem rpc_retry_appends {σ : Type} (X : Externals σ) (channel : Nat)
    (expected_reply_ids : List Nat) :
    ∀ (fuel : Nat) (state : amqp_connection_state_t σ) (frame : amqp_frame_t)
      (ptrs : List Nat) (reply : amqp_rpc_reply_t) (state2 : amqp_connection_state_t σ),
      queue_holds state ptrs →
      amqp_simple_rpc_retry X channel expected_reply_ids amqp_rpc_reply_t.zero fuel state
        frame = .done (reply, state2) →
      ∃ new, queue_holds state2 (ptrs ++ new) ∧
        queue_frames state2 (ptrs ++ new) =
          queue_frames state ptrs ++ rpc_queued X channel expected_reply_ids fuel state frame := by
  intro fuel
  induction fuel with
  | zero =>
    intro state frame ptrs reply state2 _ h
    simp [amqp_simple_rpc_retry] at h
  | succ n ih =>
    intro state frame ptrs reply state2 hq h
    cases hw : wait_frame_inner X state frame with
    | abort => rw [rpc_retry_abort _ _ _ _ _ _ _ hw] at h; simp at h
    | diverge => rw [rpc_retry_diverge _ _ _ _ _ _ _ hw] at h; simp at h
    | done r =>
      have hk := queue_holds_of_keeps state r.state ptrs
        (wait_frame_inner_keeps_queue X state frame r hw) hq
      rw [rpc_retry_pass X channel expected_reply_ids n state frame r hw] at h
      rw [rpc_queued, hw]
      simp only
      by_cases hs : r.status < 0
      · rw [if_pos hs] at h ⊢
        simp only [Run.done.injEq, Prod.mk.injEq] at h
        rw [← h.2]
        exact ⟨[], by simpa using hk⟩
      · rw [if_neg hs] at h ⊢
        by_cases hy : rpc_reply_frame X channel expected_reply_ids r.frame
        · rw [if_pos hy] at h ⊢
          simp only [Run.done.injEq, Prod.mk.injEq] at h
          rw [← h.2]
          exact ⟨[], by simpa using hk⟩
        · rw [if_neg hy] at h ⊢
          by_cases ha : rpc_alloc_ok r.state.decoding_pool
          · rw [if_pos ha] at h ⊢
            have hen := enqueued_holds r.state r.frame ptrs hk.1
            obtain ⟨new, hq2, hf2⟩ := ih _ _ _ _ _ hen.1 h
            refine ⟨(r.state.decoding_pool.next + sizeof_amqp_frame_t) :: new, ?_, ?_⟩
            · simpa using hq2
            · have he : ptrs ++ (r.state.decoding_pool.next + sizeof_amqp_frame_t) :: new =
                  ptrs ++ [r.state.decoding_pool.next + sizeof_amqp_frame_t] ++ new := by simp
              rw [he, hf2, hen.2, hk.2]
              simp
          · rw [if_neg ha] at h ⊢
            simp only [Run.done.injEq, Prod.mk.injEq] at h
            rw [← h.2]
            have hp := queue_holds_pool r.state ptrs (rpc_alloc_pool r.state.decoding_pool)
              hk.1 (rpc_alloc_pool_le _).1
            refine ⟨[], ?_⟩
            rw [List.append_nil, List.append_nil, hp.2, hk.2]
            exact ⟨hp.1, rfl⟩

/-- A call of `amqp_simple_rpc` that returns leaves the queued frames where they are
and puts the frames it stores behind them. -/
theorem amqp_simple_rpc_appends {σ : Type} (X : Externals σ)
    (state : amqp_connection_state_t σ) (channel request_id : Nat)
    (expected_reply_ids : List Nat) (decoded : Nat) (ptrs : List Nat)
    (reply : amqp_rpc_reply_t) (state2 : amqp_connection_state_t σ)
    (hq : queue_holds state ptrs)
    (h : amqp_simple_rpc X state channel request_id expected_reply_ids decoded =
      .done (reply, state2)) :
    ∃ new, queue_holds state2 (ptrs ++ new) ∧
      queue_frames state2 (ptrs ++ new) =
        queue_frames state ptrs ++
          amqp_simple_rpc_queued X state channel request_id expected_reply_ids decoded := by
  have hq1 : queue_holds (amqp_send_method X state channel request_id decoded).2 ptrs :=
    ⟨hq.chain, hq.last, hq.nodup, hq.allocated, hq.pool_pos⟩
  unfold amqp_simple_rpc at h
  unfold amqp_simple_rpc_queued
  simp only at h ⊢
  by_cases hs : (amqp_send_method X state channel request_id decoded).1 < 0
  · rw [if_pos hs] at h ⊢
    simp only [Run.done.injEq, Prod.mk.injEq] at h
    rw [← h.2]
    refine ⟨[], ?_⟩
    rw [List.append_nil, List.append_nil]
    exact ⟨hq1, rfl⟩
  · rw [if_neg hs] at h ⊢
    exact rpc_retry_appends X channel expected_reply_ids _ _ _ ptrs reply state2 hq1 h

theorem queue_holds_nil_first {σ : Type} (state : amqp_connection_state_t σ)
    (hq : queue_holds state []) : state.first_queued_frame = 0 := hq.chain

theorem queue_holds_cons_first {σ : Type} (state : amqp_connection_state_t σ) (p : Nat)
    (ptrs : List Nat) (hq : queue_holds state (p :: ptrs)) :
    state.first_queued_frame = p ∧ p ≠ 0 := ⟨hq.chain.1, hq.chain.2.1⟩

/-- For any sequence of calls that all return, the frames taken from the queue
followed by the frames still queued are the frames queued at the start followed by
the frames stored by the RPCs. -/
theorem run_calls_fifo {σ : Type} (X : Externals σ) :
    ∀ (calls : List api_call) (state : amqp_connection_state_t σ) (ptrs : List Nat)
      (state2 : amqp_connection_state_t σ) (dequeued queued : List amqp_frame_t),
      queue_holds state ptrs →
      run_calls X calls state = some (state2, dequeued, queued) →
      ∃ ptrs2, queue_holds state2 ptrs2 ∧
        dequeued ++ queue_frames state2 ptrs2 = queue_frames state ptrs ++ queued := by
  intro calls
  induction calls with
  | nil =>
    intro state ptrs state2 dequeued queued hq h
    simp only [run_calls, Option.some.injEq, Prod.mk.injEq] at h
    obtain ⟨rfl, rfl, rfl⟩ := h
    exact ⟨ptrs, hq, by simp⟩
  | cons c rest ih =>
    intro state ptrs state2 dequeued queued hq h
    cases c with
    | simple_wait_frame =>
      rw [run_calls] at h
      cases ptrs with
      | nil =>
        have h0 := queue_holds_nil_first state hq
        have hwf : amqp_simple_wait_frame X state amqp_frame_t.indeterminate =
            wait_frame_inner X state amqp_frame_t.indeterminate := by
          unfold amqp_simple_wait_frame
          rw [if_neg (not_not.mpr h0)]
        have hen : amqp_frames_enqueued state = false := by
          simp [amqp_frames_enqueued, h0]
        rw [hwf] at h
        cases hw : wait_frame_inner X state amqp_frame_t.indeterminate with
        | abort => rw [hw] at h; simp at h
        | diverge => rw [hw] at h; simp at h
        | done r =>
          rw [hw] at h
          simp only at h
          have hk := queue_holds_of_keeps state r.state []
            (wait_frame_inner_keeps_queue X state _ r hw) hq
          cases hr : run_calls X rest r.state with
          | none => rw [hr] at h; simp at h
          | some res =>
            obtain ⟨s2, d2, q2⟩ := res
            rw [hr] at h
            simp only [hen, Option.some.injEq, Prod.mk.injEq] at h
            obtain ⟨rfl, rfl, rfl⟩ := h
            obtain ⟨ptrs2, hq2, hf2⟩ := ih r.state [] s2 d2 q2 hk.1 hr
            refine ⟨ptrs2, hq2, ?_⟩
            simpa [queue_frames] using hf2
      | cons p ps =>
        obtain ⟨st2, hw, hq2, hf2⟩ :=
          amqp_simple_wait_frame_dequeues X state amqp_frame_t.indeterminate p ps hq
        have hen : amqp_frames_enqueued state = true := by
          have := queue_holds_cons_first state p ps hq
          simp [amqp_frames_enqueued, this.1, this.2]
        rw [hw] at h
        simp only at h
        cases hr : run_calls X rest st2 with
        | none => rw [hr] at h; simp at h
        | some res =>
          obtain ⟨s2, d2, q2⟩ := res
          rw [hr] at h
          simp only [hen, if_true, Option.some.injEq, Prod.mk.injEq] at h
          obtain ⟨rfl, rfl, rfl⟩ := h
          obtain ⟨ptrs2, hq3, hf3⟩ := ih st2 ps s2 d2 q2 hq2 hr
          refine ⟨ptrs2, hq3, ?_⟩
          rw [List.append_assoc, hf3, hf2]
          simp [queue_frames]
    | simple_rpc channel request_id expected_reply_ids decoded =>
      rw [run_calls] at h
      cases hw : amqp_simple_rpc X state channel request_id expected_reply_ids decoded with
      | abort => rw [hw] at h; simp at h
      | diverge => rw [hw] at h; simp at h
      | done r =>
        obtain ⟨reply, st1⟩ := r
        rw [hw] at h
        simp only at h
        obtain ⟨new, hq1, hf1⟩ := amqp_simple_rpc_appends X state channel request_id
          expected_reply_ids decoded ptrs reply st1 hq hw
        cases hr : run_calls X rest st1 with
        | none => rw [hr] at h; simp at h
        | some res =>
          obtain ⟨s2, d2, q2⟩ := res
          rw [hr] at h
          simp only [Option.some.injEq, Prod.mk.injEq] at h
          obtain ⟨rfl, rfl, rfl⟩ := h
          obtain ⟨ptrs2, hq2, hf2⟩ := ih st1 (ptrs ++ new) s2 d2 q2 hq1 hr
          refine ⟨ptrs2, hq2, ?_⟩
          rw [hf2, hf1, List.append_assoc]

/-- As many calls of `amqp_simple_wait_frame` as there are queued frames return the
queued frames, head first, and leave the queue empty. -/
theorem run_calls_drains {σ : Type} (X : Externals σ) :
    ∀ (ptrs : List Nat) (state : amqp_connection_state_t σ),
      queue_holds state ptrs →
      ∃ state2, run_calls X (List.replicate ptrs.length .simple_wait_frame) state =
          some (state2, queue_frames state ptrs, []) ∧
        queue_holds state2 [] := by
  intro ptrs
  induction ptrs with
  | nil =>
    intro state hq
    exact ⟨state, rfl, hq⟩
  | cons p ps ih =>
    intro state hq
    obtain ⟨st2, hw, hq2, hf2⟩ :=
      amqp_simple_wait_frame_dequeues X state amqp_frame_t.indeterminate p ps hq
    have hen : amqp_frames_enqueued state = true := by
      have := queue_holds_cons_first state p ps hq
      simp [amqp_frames_enqueued, this.1, this.2]
    obtain ⟨state3, hr, hq3⟩ := ih st2 hq2
    refine ⟨state3, ?_, hq3⟩
    rw [List.length_cons, List.replicate_succ, run_calls, hw]
    simp only [hr, hen, if_true]
    rw [hf2]
    rfl

/-- C11. The frame queue is FIFO across RPCs. For every sequence of calls of
`amqp_simple_rpc` and `amqp_simple_wait_frame` that return, started on a well-formed
queue, the frames that `amqp_simple_wait_frame` returned from the queue, followed by
the frames still queued, are the frames queued at the start followed by the frames
the RPCs stored, in the order in which they stored them. A call of `amqp_simple_rpc`
leaves the frames already queued in place and in order and puts its frames behind
them; as many waits as there are queued frames return them head first. -/
theorem frame_queue_fifo {σ : Type} (X : Externals σ) :
    (∀ (calls : List api_call) (state : amqp_connection_state_t σ) (ptrs : List Nat)
      (state2 : amqp_connection_state_t σ) (dequeued queued : List amqp_frame_t),
      queue_holds state ptrs →
      run_calls X calls state = some (state2, dequeued, queued) →
      ∃ ptrs2, queue_holds state2 ptrs2 ∧
        dequeued ++ queue_frames state2 ptrs2 = queue_frames state ptrs ++ queued) ∧
    (∀ (state : amqp_connection_state_t σ) (channel request_id : Nat)
      (expected_reply_ids : List Nat) (decoded : Nat) (ptrs : List Nat)
      (reply : amqp_rpc_reply_t) (state2 : amqp_connection_state_t σ),
      queue_holds state ptrs →
      amqp_simple_rpc X state channel request_id expected_reply_ids decoded =
        .done (reply, state2) →
      ∃ new, queue_holds state2 (ptrs ++ new) ∧
        queue_frames state2 (ptrs ++ new) =
          queue_frames state ptrs ++
            amqp_simple_rpc_queued X state channel request_id expected_reply_ids decoded) ∧
    (∀ (ptrs : List Nat) (state : amqp_connection_state_t σ),
      queue_holds state ptrs →
      ∃ state2, run_calls X (List.replicate ptrs.length .simple_wait_frame) state =
          some (state2, queue_frames state ptrs, []) ∧
        queue_holds state2 []) :=
  ⟨run_calls_fifo X,
    fun state channel request_id expected_reply_ids decoded ptrs reply state2 hq h =>
      amqp_simple_rpc_appends X state channel request_id expected_reply_ids decoded ptrs
        reply state2 hq h,
    run_calls_drains X⟩

/-- C12. Queue-first wait: on a connection whose queue is not empty,
`amqp_simple_wait_frame` returns 0 with the frame stored in the head link and
removes exactly that link; the transport is not read and the frame state machine is
not called (the transport still to come and `core` are as before, and the result
does not depend on the state machine at all); `sock_inbound_offset`,
`sock_inbound_limit`, the socket buffer, the pool and the pool memory are as
before. -/
theorem wait_frame_queue_first {σ : Type} (X X2 : Externals σ)
    (state : amqp_connection_state_t σ) (frame : amqp_frame_t) (p : Nat) (ptrs : List Nat)
    (hq : queue_holds state (p :: ptrs)) :
    ∃ state2,
      amqp_simple_wait_frame X state frame =
        .done ⟨0, state.frames (state.links state.first_queued_frame).data, state2⟩ ∧
      state.first_queued_frame = p ∧
      queue_holds state2 ptrs ∧
      queue_frames state2 ptrs = queue_frames state ptrs ∧
      state2.transport = state.transport ∧
      state2.core = state.core ∧
      state2.sock_inbound_offset = state.sock_inbound_offset ∧
      state2.sock_inbound_limit = state.sock_inbound_limit ∧
      state2.sock_inbound_buffer = state.sock_inbound_buffer ∧
      state2.decoding_pool = state.decoding_pool ∧
      state2.links = state.links ∧
      state2.frames = state.frames ∧
      amqp_simple_wait_frame X2 state frame = amqp_simple_wait_frame X state frame := by
  obtain ⟨hp, hp0⟩ := queue_holds_cons_first state p ptrs hq
  obtain ⟨st2, hw, hq2, hf2⟩ := amqp_simple_wait_frame_dequeues X state frame p ptrs hq
  have hfirst : state.first_queued_frame ≠ 0 := hp ▸ hp0
  have hx : amqp_simple_wait_frame X2 state frame = amqp_simple_wait_frame X state frame := by
    unfold amqp_simple_wait_frame
    rw [if_pos hfirst, if_pos hfirst]
  have hst : amqp_simple_wait_frame X state frame =
      .done ⟨0, state.frames (state.links state.first_queued_frame).data,
        if (state.links state.first_queued_frame).next = 0 then
          { state with
            first_queued_frame := (state.links state.first_queued_frame).next
            last_queued_frame := 0 }
        else
          { state with
            first_queued_frame := (state.links state.first_queued_frame).next }⟩ := by
    unfold amqp_simple_wait_frame
    rw [if_pos hfirst]
  rw [hst, hp] at hw
  simp only [Run.done.injEq, wait_result.mk.injEq, true_and] at hw
  refine ⟨st2, ?_, hp, hq2, hf2, ?_, ?_, ?_, ?_, ?_, ?_, ?_, ?_, hx⟩
  · rw [hst, hp, hw]
  all_goals
    rw [← hw]
    split <;> rfl

theorem wait_frame_queue_first_witness :
    queue_holds (enqueued (example_state []) ⟨1, 2, .method ⟨55, 0⟩⟩) [4144] ∧
    ∃ state2,
      amqp_simple_wait_frame example_externals
          (enqueued (example_state []) ⟨1, 2, .method ⟨55, 0⟩⟩) amqp_frame_t.indeterminate =
        .done ⟨0, ⟨1, 2, .method ⟨55, 0⟩⟩, state2⟩ ∧
      queue_holds state2 [] ∧
      state2.transport = [] ∧
      state2.sock_inbound_offset = 0 ∧
      state2.sock_inbound_limit = 0 := by
  have hq : queue_holds (enqueued (example_state []) ⟨1, 2, .method ⟨55, 0⟩⟩) [4144] :=
    (enqueued_holds (example_state []) ⟨1, 2, .method ⟨55, 0⟩⟩ [] (example_queue_empty [])).1
  obtain ⟨state2, h1, _, h3, _, h5, _, h7, h8, _⟩ :=
    wait_frame_queue_first example_externals example_externals
      (enqueued (example_state []) ⟨1, 2, .method ⟨55, 0⟩⟩) amqp_frame_t.indeterminate 4144 [] hq
  refine ⟨hq, state2, ?_, h3, h5, h7, h8⟩
  rw [h1]
  simp [enqueued, example_state, store, sizeof_amqp_frame_t]

/-! ## A closed or failed transport -/

/-- With no unconsumed bytes in the socket buffer the inner loop of `wait_frame_inner`
is not entered. -/
theorem wait_frame_inner_buffered_empty {σ : Type} (X : Externals σ) (fuel : Nat)
    (state : amqp_connection_state_t σ) (frame : amqp_frame_t)
    (h : amqp_data_in_buffer state = false) :
    wait_frame_inner_buffered X fuel state frame = .done (none, frame, state) := by
  unfold wait_frame_inner_buffered
  simp [h]

/-- C14. Closed or failed transport mid-wait: on a connection with an empty frame
queue whose buffered bytes, if there are any, are consumed without completing a frame
(the inner loop of `wait_frame_inner` runs to its end, leaving the frame `f` and the
connection `st`), a next `recv` that returns 0 makes `amqp_simple_wait_frame` return
`-ERROR_CONNECTION_CLOSED`, which is -7, and a next `recv` that returns a negative
value makes it return the negation of the transport's error code; in both cases
exactly that one `recv` has been made (the transport still to come is `rest`) and
the frame state machine is not called again. With no unconsumed bytes in the buffer
the inner loop runs to its end at once. -/
theorem wait_frame_closed_transport {σ : Type} (X : Externals σ)
    (state st : amqp_connection_state_t σ) (frame f : amqp_frame_t)
    (ev : recv_event) (rest : List recv_event)
    (hq : state.first_queued_frame = 0)
    (ht : state.transport = ev :: rest)
    (hb : wait_frame_inner_buffered X
      (state.sock_inbound_limit - state.sock_inbound_offset) state frame =
        .done (none, f, st)) :
    (ev.res = 0 →
      amqp_simple_wait_frame X state frame =
        .done ⟨-ERROR_CONNECTION_CLOSED, f,
          { st with
            transport := rest
            sock_inbound_buffer := ev.data ++ st.sock_inbound_buffer.drop ev.data.length }⟩) ∧
    (ev.res < 0 →
      amqp_simple_wait_frame X state frame =
        .done ⟨-ev.error, f,
          { st with
            transport := rest
            sock_inbound_buffer := ev.data ++ st.sock_inbound_buffer.drop ev.data.length }⟩) ∧
    -ERROR_CONNECTION_CLOSED = -7 ∧
    (amqp_data_in_buffer state = false → f = frame ∧ st = state) := by
  have hw : amqp_simple_wait_frame X state frame =
      wait_frame_inner_loop X (ev :: rest) state frame := by
    unfold amqp_simple_wait_frame
    rw [if_neg (by simp [hq]), wait_frame_inner, ht]
  refine ⟨?_, ?_, rfl, ?_⟩
  · intro h0
    rw [hw]
    unfold wait_frame_inner_loop
    rw [hb]
    simp [h0]
  · intro hneg
    rw [hw]
    unfold wait_frame_inner_loop
    rw [hb]
    have h1 : ev.res ≤ 0 := by omega
    have h2 : ev.res ≠ 0 := by omega
    simp [h1, h2]
  · intro hd
    rw [wait_frame_inner_buffered_empty X _ state frame hd] at hb
    simp only [Run.done.injEq, Prod.mk.injEq, true_and] at hb
    exact ⟨hb.1.symm, hb.2.symm⟩

theorem wait_frame_closed_transport_witness :
    (example_state [⟨0, [], 0⟩]).first_queued_frame = 0 ∧
    amqp_simple_wait_frame example_externals (example_state [⟨0, [], 0⟩])
        amqp_frame_t.indeterminate =
      .done ⟨-7, amqp_frame_t.indeterminate, example_state []⟩ := by
  have hb : wait_frame_inner_buffered example_externals
      ((example_state [⟨0, [], 0⟩]).sock_inbound_limit -
        (example_state [⟨0, [], 0⟩]).sock_inbound_offset)
      (example_state [⟨0, [], 0⟩]) amqp_frame_t.indeterminate =
        .done (none, amqp_frame_t.indeterminate, example_state [⟨0, [], 0⟩]) :=
    wait_frame_inner_buffered_empty _ _ _ _ rfl
  have h := (wait_frame_closed_transport example_externals (example_state [⟨0, [], 0⟩])
    (example_state [⟨0, [], 0⟩]) amqp_frame_t.indeterminate amqp_frame_t.indeterminate
    ⟨0, [], 0⟩ [] rfl rfl hb).1 rfl
  refine ⟨rfl, ?_⟩
  rw [h]
  rfl

/-! ## What the consume loop of `wait_frame_inner` leaves -/

/-- The consume loop of `wait_frame_inner` changes nothing of the connection but the
frame state machine and `sock_inbound_offset`, which does not decrease; when it runs
to its end no unconsumed byte is left, and when it returns from inside, it returns a
negative value or 0 with a frame whose type is not 0. -/
theorem wait_frame_inner_buffered_leaves {σ : Type} (X : Externals σ) :
    ∀ (fuel : Nat) (state : amqp_connection_state_t σ) (frame : amqp_frame_t)
      (o : Option Int) (f : amqp_frame_t) (st : amqp_connection_state_t σ),
      wait_frame_inner_buffered X fuel state frame = .done (o, f, st) →
      st.transport = state.transport ∧
      st.sock_inbound_limit = state.sock_inbound_limit ∧
      st.sock_inbound_buffer = state.sock_inbound_buffer ∧
      state.sock_inbound_offset ≤ st.sock_inbound_offset ∧
      (o = none → st.sock_inbound_limit ≤ st.sock_inbound_offset) ∧
      (∀ res, o = some res → res < 0 ∨ (res = 0 ∧ f.frame_type ≠ 0)) := by
  intro fuel
  induction fuel with
  | zero =>
    intro state frame o f st h
    unfold wait_frame_inner_buffered at h
    by_cases hd : amqp_data_in_buffer state = true
    · simp [hd] at h
    · rw [if_neg hd] at h
      simp only [Run.done.injEq, Prod.mk.injEq] at h
      obtain ⟨rfl, rfl, rfl⟩ := h
      have hle : state.sock_inbound_limit ≤ state.sock_inbound_offset := by
        simpa [amqp_data_in_buffer] using hd
      exact ⟨rfl, rfl, rfl, Nat.le_refl _, fun _ => hle, fun res hres => by simp at hres⟩
  | succ n ih =>
    intro state frame o f st h
    unfold wait_frame_inner_buffered at h
    by_cases hd : amqp_data_in_buffer state = true
    · rw [if_pos hd] at h
      simp only at h
      generalize X.amqp_handle_input state.core _ = r at h
      by_cases h1 : r.1 < 0
      · rw [if_pos h1] at h
        simp only [Run.done.injEq, Prod.mk.injEq] at h
        obtain ⟨rfl, rfl, rfl⟩ := h
        refine ⟨rfl, rfl, rfl, Nat.le_refl _, fun hn => by simp at hn, ?_⟩
        intro res hres
        simp only [Option.some.injEq] at hres
        exact Or.inl (hres ▸ h1)
      · rw [if_neg h1] at h
        by_cases h3 : r.2.1.frame_type ≠ 0
        · rw [if_pos h3] at h
          simp only [Run.done.injEq, Prod.mk.injEq] at h
          obtain ⟨rfl, rfl, rfl⟩ := h
          refine ⟨rfl, rfl, rfl, Nat.le_add_right _ _, fun hn => by simp at hn, ?_⟩
          intro res hres
          simp only [Option.some.injEq] at hres
          exact Or.inr ⟨hres.symm, h3⟩
        · rw [if_neg h3] at h
          by_cases h4 : r.1 = 0
          · rw [if_pos h4] at h
            simp at h
          · rw [if_neg h4] at h
            obtain ⟨g1, g2, g3, g4, g5, g6⟩ := ih _ _ _ _ _ h
            exact ⟨g1, g2, g3, Nat.le_trans (Nat.le_add_right _ _) g4, g5, g6⟩
    · rw [if_neg hd] at h
      simp only [Run.done.injEq, Prod.mk.injEq] at h
      obtain ⟨rfl, rfl, rfl⟩ := h
      have hle : state.sock_inbound_limit ≤ state.sock_inbound_offset := by
        simpa [amqp_data_in_buffer] using hd
      exact ⟨rfl, rfl, rfl, Nat.le_refl _, fun _ => hle, fun res hres => by simp at hres⟩

/-! ## The transport is read only when the socket buffer is consumed -/

/-- The logging loop returns what `wait_frame_inner_loop` returns. -/
theorem wait_frame_inner_traced_result {σ : Type} (X : Externals σ)
    (transport : List recv_event) (state : amqp_connection_state_t σ) (frame : amqp_frame_t) :
    (wait_frame_inner_traced X transport state frame).1 =
      wait_frame_inner_loop X transport state frame := by
  induction transport generalizing state frame with
  | nil =>
    unfold wait_frame_inner_traced wait_frame_inner_loop
    cases wait_frame_inner_buffered X
      (state.sock_inbound_limit - state.sock_inbound_offset) state frame with
    | abort => rfl
    | diverge => rfl
    | done a =>
      obtain ⟨res, fr, st⟩ := a
      cases res <;> rfl
  | cons ev rest ih =>
    unfold wait_frame_inner_traced wait_frame_inner_loop
    cases wait_frame_inner_buffered X
      (state.sock_inbound_limit - state.sock_inbound_offset) state frame with
    | abort => rfl
    | diverge => rfl
    | done a =>
      obtain ⟨res, fr, st⟩ := a
      cases res with
      | some v => rfl
      | none =>
        simp only
        by_cases h1 : ev.res ≤ 0
        · rw [if_pos h1, if_pos h1]
          by_cases h2 : ev.res = 0
          · rw [if_pos h2, if_pos h2]
          · rw [if_neg h2, if_neg h2]
        · rw [if_neg h1, if_neg h1]
          exact ih _ _

/-- At every logged call of `recv` the socket buffer holds no unconsumed byte. -/
theorem wait_frame_inner_traced_states {σ : Type} (X : Externals σ)
    (transport : List recv_event) (state : amqp_connection_state_t σ) (frame : amqp_frame_t) :
    ∀ s ∈ (wait_frame_inner_traced X transport state frame).2,
      s.sock_inbound_limit ≤ s.sock_inbound_offset := by
  induction transport generalizing state frame with
  | nil =>
    unfold wait_frame_inner_traced
    cases hb : wait_frame_inner_buffered X
      (state.sock_inbound_limit - state.sock_inbound_offset) state frame with
    | abort => simp
    | diverge => simp
    | done a =>
      obtain ⟨res, fr, st⟩ := a
      cases res with
      | some v => simp
      | none =>
        have hl := (wait_frame_inner_buffered_leaves X _ _ _ _ _ _ hb).2.2.2.2.1 rfl
        simpa using hl
  | cons ev rest ih =>
    unfold wait_frame_inner_traced
    cases hb : wait_frame_inner_buffered X
      (state.sock_inbound_limit - state.sock_inbound_offset) state frame with
    | abort => simp
    | diverge => simp
    | done a =>
      obtain ⟨res, fr, st⟩ := a
      cases res with
      | some v => simp
      | none =>
        have hl := (wait_frame_inner_buffered_leaves X _ _ _ _ _ _ hb).2.2.2.2.1 rfl
        simp only
        by_cases h1 : ev.res ≤ 0
        · rw [if_pos h1]
          by_cases h2 : ev.res = 0
          · rw [if_pos h2]
            simpa using hl
          · rw [if_neg h2]
            simpa using hl
        · rw [if_neg h1]
          intro s hs
          rcases List.mem_cons.mp hs with h | h
          · rw [h]
            exact hl
          · exact ih _ _ s h

/-- Every logged call of `recv` that returns takes one read from the transport: a
call of the loop that returns leaves the transport without its first reads, as many
as calls are logged. -/
theorem wait_frame_inner_traced_consumed {σ : Type} (X : Externals σ)
    (transport : List recv_event) (state : amqp_connection_state_t σ) (frame : amqp_frame_t)
    (r : wait_result σ) (ht : state.transport = transport)
    (h : wait_frame_inner_loop X transport state frame = .done r) :
    r.state.transport =
      transport.drop (wait_frame_inner_traced X transport state frame).2.length := by
  induction transport generalizing state frame with
  | nil =>
    unfold wait_frame_inner_loop at h
    unfold wait_frame_inner_traced
    cases hb : wait_frame_inner_buffered X
      (state.sock_inbound_limit - state.sock_inbound_offset) state frame with
    | abort => rw [hb] at h; simp at h
    | diverge => rw [hb] at h; simp at h
    | done a =>
      obtain ⟨res, fr, st⟩ := a
      rw [hb] at h
      have hl := (wait_frame_inner_buffered_leaves X _ _ _ _ _ _ hb).1
      cases res with
      | some v =>
        simp only [Run.done.injEq] at h
        rw [← h]
        simp [hl, ht]
      | none => simp at h
  | cons ev rest ih =>
    unfold wait_frame_inner_loop at h
    unfold wait_frame_inner_traced
    cases hb : wait_frame_inner_buffered X
      (state.sock_inbound_limit - state.sock_inbound_offset) state frame with
    | abort => rw [hb] at h; simp at h
    | diverge => rw [hb] at h; simp at h
    | done a =>
      obtain ⟨res, fr, st⟩ := a
      rw [hb] at h
      have hl := (wait_frame_inner_buffered_leaves X _ _ _ _ _ _ hb).1
      cases res with
      | some v =>
        simp only [Run.done.injEq] at h
        rw [← h]
        simp [hl, ht]
      | none =>
        simp only at h ⊢
        by_cases h1 : ev.res ≤ 0
        · rw [if_pos h1] at h ⊢
          by_cases h2 : ev.res = 0
          · rw [if_pos h2] at h ⊢
            simp only [Run.done.injEq] at h
            rw [← h]
            simp
          · rw [if_neg h2] at h ⊢
            simp only [Run.done.injEq] at h
            rw [← h]
            simp
        · rw [if_neg h1] at h ⊢
          have := ih _ _ rfl h
          rw [this]
          simp

/-- With unconsumed bytes in the socket buffer, the loop starts by giving exactly
the bytes from `sock_inbound_offset` to `sock_inbound_limit` to the frame state
machine, and reads the transport only if a further turn of the loop does. -/
theorem wait_frame_inner_traced_buffered {σ : Type} (X : Externals σ)
    (transport : List recv_event) (state : amqp_connection_state_t σ) (frame : amqp_frame_t)
    (hd : amqp_data_in_buffer state = true) :
    wait_frame_inner_traced X transport state frame =
      (let r := X.amqp_handle_input state.core
        { len := state.sock_inbound_limit - state.sock_inbound_offset
          data := (state.sock_inbound_buffer.drop state.sock_inbound_offset).take
            (state.sock_inbound_limit - state.sock_inbound_offset) }
      if r.1 < 0 then (.done ⟨r.1, r.2.1, { state with core := r.2.2 }⟩, [])
      else if r.2.1.frame_type ≠ 0 then
        (.done ⟨0, r.2.1,
          { state with
            core := r.2.2
            sock_inbound_offset := state.sock_inbound_offset + r.1.toNat }⟩, [])
      else if r.1 = 0 then (.abort, [])
      else
        wait_frame_inner_traced X transport
          { state with
            core := r.2.2
            sock_inbound_offset := state.sock_inbound_offset + r.1.toNat } r.2.1) := by
  have hlt : state.sock_inbound_offset < state.sock_inbound_limit := by
    simpa [amqp_data_in_buffer] using hd
  obtain ⟨k, hk⟩ : ∃ k, state.sock_inbound_limit - state.sock_inbound_offset = k + 1 :=
    ⟨state.sock_inbound_limit - state.sock_inbound_offset - 1, by omega⟩
  simp only
  generalize hr : X.amqp_handle_input state.core
    { len := state.sock_inbound_limit - state.sock_inbound_offset
      data := (state.sock_inbound_buffer.drop state.sock_inbound_offset).take
        (state.sock_inbound_limit - state.sock_inbound_offset) } = r
  have hbuf : wait_frame_inner_buffered X
      (state.sock_inbound_limit - state.sock_inbound_offset) state frame =
      if r.1 < 0 then .done (some r.1, r.2.1, { state with core := r.2.2 })
      else if r.2.1.frame_type ≠ 0 then
        .done (some 0, r.2.1,
          { state with
            core := r.2.2
            sock_inbound_offset := state.sock_inbound_offset + r.1.toNat })
      else if r.1 = 0 then .abort
      else
        wait_frame_inner_buffered X
          (state.sock_inbound_limit - (state.sock_inbound_offset + r.1.toNat))
          { state with
            core := r.2.2
            sock_inbound_offset := state.sock_inbound_offset + r.1.toNat } r.2.1 := by
    rw [hk]
    conv_lhs => unfold wait_frame_inner_buffered
    rw [if_pos hd]
    simp only
    rw [hr]
    by_cases h1 : r.1 < 0
    · rw [if_pos h1, if_pos h1]
    · rw [if_neg h1, if_neg h1]
      by_cases h3 : r.2.1.frame_type ≠ 0
      · rw [if_pos h3, if_pos h3]
      · rw [if_neg h3, if_neg h3]
        by_cases h4 : r.1 = 0
        · rw [if_pos h4, if_pos h4]
        · rw [if_neg h4, if_neg h4]
          apply wait_frame_inner_buffered_fuel
          · show state.sock_inbound_limit - (state.sock_inbound_offset + r.1.toNat) ≤ k
            omega
          · exact Nat.le_refl _
  by_cases h1 : r.1 < 0
  · rw [if_pos h1] at hbuf ⊢
    unfold wait_frame_inner_traced
    rw [hbuf]
  · rw [if_neg h1] at hbuf ⊢
    by_cases h3 : r.2.1.frame_type ≠ 0
    · rw [if_pos h3] at hbuf ⊢
      unfold wait_frame_inner_traced
      rw [hbuf]
    · rw [if_neg h3] at hbuf ⊢
      by_cases h4 : r.1 = 0
      · rw [if_pos h4] at hbuf ⊢
        unfold wait_frame_inner_traced
        rw [hbuf]
      · rw [if_neg h4] at hbuf ⊢
        conv_lhs => unfold wait_frame_inner_traced
        conv_rhs => unfold wait_frame_inner_traced
        rw [hbuf]

/-- At every call of `recv` of the retry loop of `amqp_simple_rpc` the socket buffer
holds no unconsumed byte. -/
theorem rpc_recv_states_consumed {σ : Type} (X : Externals σ) (channel : Nat)
    (expected_reply_ids : List Nat) :
    ∀ (fuel : Nat) (state : amqp_connection_state_t σ) (frame : amqp_frame_t),
      ∀ s ∈ rpc_recv_states X channel expected_reply_ids fuel state frame,
        s.sock_inbound_limit ≤ s.sock_inbound_offset := by
  intro fuel
  induction fuel with
  | zero =>
    intro state frame s hs
    simp [rpc_recv_states] at hs
  | succ n ih =>
    intro state frame s hs
    rw [rpc_recv_states] at hs
    rcases List.mem_append.mp hs with h | h
    · exact wait_frame_inner_traced_states X state.transport state frame s h
    · cases hw : wait_frame_inner X state frame with
      | abort => rw [hw] at h; simp at h
      | diverge => rw [hw] at h; simp at h
      | done r =>
        rw [hw] at h
        simp only at h
        by_cases h1 : r.status < 0
        · rw [if_pos h1] at h
          simp at h
        · rw [if_neg h1] at h
          by_cases h2 : rpc_reply_frame X channel expected_reply_ids r.frame
          · rw [if_pos h2] at h
            simp at h
          · rw [if_neg h2] at h
            by_cases h3 : rpc_alloc_ok r.state.decoding_pool
            · rw [if_pos h3] at h
              exact ih _ _ s h
            · rw [if_neg h3] at h
              simp at h

/-- Every logged call of `recv` of the retry loop of `amqp_simple_rpc` takes one read
from the transport: a loop that returns leaves the transport without its first
reads, as many as calls are logged. -/
theorem rpc_recv_states_length {σ : Type} (X : Externals σ) (channel : Nat)
    (expected_reply_ids : List Nat) :
    ∀ (fuel : Nat) (state : amqp_connection_state_t σ) (frame : amqp_frame_t)
      (reply : amqp_rpc_reply_t) (state2 : amqp_connection_state_t σ),
      amqp_simple_rpc_retry X channel expected_reply_ids amqp_rpc_reply_t.zero fuel state
        frame = .done (reply, state2) →
      state2.transport = state.transport.drop
        (rpc_recv_states X channel expected_reply_ids fuel state frame).length := by
  intro fuel
  induction fuel with
  | zero =>
    intro state frame reply state2 h
    simp [amqp_simple_rpc_retry] at h
  | succ n ih =>
    intro state frame reply state2 h
    cases hw : wait_frame_inner X state frame with
    | abort => rw [rpc_retry_abort _ _ _ _ _ _ _ hw] at h; simp at h
    | diverge => rw [rpc_retry_diverge _ _ _ _ _ _ _ hw] at h; simp at h
    | done r =>
      have hc := wait_frame_inner_traced_consumed X state.transport state frame r rfl hw
      rw [rpc_retry_pass X channel expected_reply_ids n state frame r hw] at h
      rw [rpc_recv_states, hw]
      simp only [List.length_append]
      by_cases hs : r.status < 0
      · rw [if_pos hs] at h ⊢
        simp only [Run.done.injEq, Prod.mk.injEq] at h
        rw [← h.2, hc]
        rfl
      · rw [if_neg hs] at h ⊢
        by_cases hy : rpc_reply_frame X channel expected_reply_ids r.frame
        · rw [if_pos hy] at h ⊢
          simp only [Run.done.injEq, Prod.mk.injEq] at h
          rw [← h.2, hc]
          rfl
        · rw [if_neg hy] at h ⊢
          by_cases ha : rpc_alloc_ok r.state.decoding_pool
          · rw [if_pos ha] at h ⊢
            have h2 := ih _ _ _ _ h
            have he : (enqueued r.state r.frame).transport = r.state.transport := rfl
            rw [h2, he, hc, List.drop_drop]
            rfl
          · rw [if_neg ha] at h ⊢
            simp only [Run.done.injEq, Prod.mk.injEq] at h
            rw [← h.2]
            show r.state.transport = _
            rw [hc]
            rfl

/-- C15. No read while data remains. The connection as it is at each call of `recv`
is logged by `wait_frame_inner_traced`, which returns what `wait_frame_inner`
returns and logs one state for each read taken from the transport; so do the logs
of `amqp_simple_wait_frame` and of `amqp_simple_rpc`. In every state
logged for a call of `wait_frame_inner`, of `amqp_simple_wait_frame` or of
`amqp_simple_rpc`, `sock_inbound_offset >= sock_inbound_limit`. In particular a
wait that starts with unconsumed bytes in the socket buffer first gives exactly the
bytes from `sock_inbound_offset` to `sock_inbound_limit` to the frame state machine:
it returns without any `recv` when that call fails or completes a frame, and goes on
from the advanced offset otherwise. -/
theorem no_read_while_data_remains {σ : Type} (X : Externals σ)
    (state : amqp_connection_state_t σ) (frame : amqp_frame_t) :
    (wait_frame_inner_traced X state.transport state frame).1 =
      wait_frame_inner X state frame ∧
    (∀ r, wait_frame_inner X state frame = .done r →
      r.state.transport =
        state.transport.drop (wait_frame_inner_recv_states X state frame).length) ∧
    (∀ r, amqp_simple_wait_frame X state frame = .done r →
      r.state.transport =
        state.transport.drop (amqp_simple_wait_frame_recv_states X state frame).length) ∧
    (∀ (channel request_id : Nat) (expected_reply_ids : List Nat) (decoded : Nat)
      (reply : amqp_rpc_reply_t) (state2 : amqp_connection_state_t σ),
      amqp_simple_rpc X state channel request_id expected_reply_ids decoded =
        .done (reply, state2) →
      state2.transport =
        state.transport.drop
          (amqp_simple_rpc_recv_states X state channel request_id expected_reply_ids
            decoded).length) ∧
    (∀ s ∈ wait_frame_inner_recv_states X state frame,
      s.sock_inbound_offset ≥ s.sock_inbound_limit) ∧
    (∀ s ∈ amqp_simple_wait_frame_recv_states X state frame,
      s.sock_inbound_offset ≥ s.sock_inbound_limit) ∧
    (∀ (channel request_id : Nat) (expected_reply_ids : List Nat) (decoded : Nat),
      ∀ s ∈ amqp_simple_rpc_recv_states X state channel request_id expected_reply_ids
          decoded,
        s.sock_inbound_offset ≥ s.sock_inbound_limit) ∧
    (amqp_data_in_buffer state = true →
      wait_frame_inner X state frame =
        (let r := X.amqp_handle_input state.core
          { len := state.sock_inbound_limit - state.sock_inbound_offset
            data := (state.sock_inbound_buffer.drop state.sock_inbound_offset).take
              (state.sock_inbound_limit - state.sock_inbound_offset) }
        if r.1 < 0 then .done ⟨r.1, r.2.1, { state with core := r.2.2 }⟩
        else if r.2.1.frame_type ≠ 0 then
          .done ⟨0, r.2.1,
            { state with
              core := r.2.2
              sock_inbound_offset := state.sock_inbound_offset + r.1.toNat }⟩
        else if r.1 = 0 then .abort
        else
          wait_frame_inner X
            { state with
              core := r.2.2
              sock_inbound_offset := state.sock_inbound_offset + r.1.toNat } r.2.1) ∧
      wait_frame_inner_recv_states X state frame =
        (let r := X.amqp_handle_input state.core
          { len := state.sock_inbound_limit - state.sock_inbound_offset
            data := (state.sock_inbound_buffer.drop state.sock_inbound_offset).take
              (state.sock_inbound_limit - state.sock_inbound_offset) }
        if r.1 < 0 then []
        else if r.2.1.frame_type ≠ 0 then []
        else if r.1 = 0 then []
        else
          wait_frame_inner_recv_states X
            { state with
              core := r.2.2
              sock_inbound_offset := state.sock_inbound_offset + r.1.toNat } r.2.1)) := by
  refine ⟨wait_frame_inner_traced_result X state.transport state frame, ?_, ?_, ?_, ?_, ?_,
    ?_, ?_⟩
  · intro r h
    exact wait_frame_inner_traced_consumed X state.transport state frame r rfl h
  · intro r h
    unfold amqp_simple_wait_frame at h
    unfold amqp_simple_wait_frame_recv_states
    by_cases hq : state.first_queued_frame ≠ 0
    · rw [if_pos hq] at h ⊢
      simp only [Run.done.injEq] at h
      rw [← h]
      split <;> rfl
    · rw [if_neg hq] at h ⊢
      exact wait_frame_inner_traced_consumed X state.transport state frame r rfl h
  · intro channel request_id expected_reply_ids decoded reply state2 h
    unfold amqp_simple_rpc at h
    unfold amqp_simple_rpc_recv_states
    simp only at h ⊢
    by_cases h1 : (amqp_send_method X state channel request_id decoded).1 < 0
    · rw [if_pos h1] at h ⊢
      simp only [Run.done.injEq, Prod.mk.injEq] at h
      rw [← h.2]
      rfl
    · rw [if_neg h1] at h ⊢
      exact rpc_recv_states_length X channel expected_reply_ids _ _ _ reply state2 h
  · exact wait_frame_inner_traced_states X state.transport state frame
  · intro s hs
    unfold amqp_simple_wait_frame_recv_states at hs
    by_cases hq : state.first_queued_frame ≠ 0
    · rw [if_pos hq] at hs
      simp at hs
    · rw [if_neg hq] at hs
      exact wait_frame_inner_traced_states X state.transport state frame s hs
  · intro channel request_id expected_reply_ids decoded s hs
    unfold amqp_simple_rpc_recv_states at hs
    simp only at hs
    by_cases h1 : (amqp_send_method X state channel request_id decoded).1 < 0
    · rw [if_pos h1] at hs
      simp at hs
    · rw [if_neg h1] at hs
      exact rpc_recv_states_consumed X channel expected_reply_ids _ _ _ s hs
  · intro hd
    have h := wait_frame_inner_traced_buffered X state.transport state frame hd
    have h1 := wait_frame_inner_traced_result X state.transport state frame
    simp only at h ⊢
    generalize X.amqp_handle_input state.core _ = r at h ⊢
    constructor
    · rw [wait_frame_inner, ← h1, h]
      by_cases c1 : r.1 < 0
      · rw [if_pos c1, if_pos c1]
      · rw [if_neg c1, if_neg c1]
        by_cases c3 : r.2.1.frame_type ≠ 0
        · rw [if_pos c3, if_pos c3]
        · rw [if_neg c3, if_neg c3]
          by_cases c4 : r.1 = 0
          · rw [if_pos c4, if_pos c4]
          · rw [if_neg c4, if_neg c4]
            exact wait_frame_inner_traced_result X state.transport _ _
    · rw [wait_frame_inner_recv_states, h]
      by_cases c1 : r.1 < 0
      · rw [if_pos c1, if_pos c1]
      · rw [if_neg c1, if_neg c1]
        by_cases c3 : r.2.1.frame_type ≠ 0
        · rw [if_pos c3, if_pos c3]
        · rw [if_neg c3, if_neg c3]
          by_cases c4 : r.1 = 0
          · rw [if_pos c4, if_pos c4]
          · rw [if_neg c4, if_neg c4]
            rfl

/-! ## Frames of type 0 -/

/-- When every failed read of the transport to come reports a positive error code,
the loop of `wait_frame_inner` returns a negative value or 0 with a frame whose type
is not 0; and the reads it leaves to come are among those it was given. -/
theorem wait_frame_inner_loop_status {σ : Type} (X : Externals σ)
    (transport : List recv_event) (state : amqp_connection_state_t σ) (frame : amqp_frame_t)
    (r : wait_result σ)
    (hpos : ∀ ev ∈ transport, ev.res < 0 → 0 < ev.error)
    (h : wait_frame_inner_loop X transport state frame = .done r) :
    (r.status < 0 ∨ (r.status = 0 ∧ r.frame.frame_type ≠ 0)) ∧
    (∀ ev ∈ r.state.transport, ev ∈ transport ∨ ev ∈ state.transport) := by
  induction transport generalizing state frame with
  | nil =>
    unfold wait_frame_inner_loop at h
    cases hb : wait_frame_inner_buffered X
      (state.sock_inbound_limit - state.sock_inbound_offset) state frame with
    | abort => rw [hb] at h; simp at h
    | diverge => rw [hb] at h; simp at h
    | done a =>
      obtain ⟨res, fr, st⟩ := a
      rw [hb] at h
      have hl := wait_frame_inner_buffered_leaves X _ _ _ _ _ _ hb
      cases res with
      | some v =>
        simp only [Run.done.injEq] at h
        rw [← h]
        refine ⟨hl.2.2.2.2.2 v rfl, ?_⟩
        intro ev hev
        exact Or.inr (hl.1 ▸ hev)
      | none => simp at h
  | cons ev rest ih =>
    unfold wait_frame_inner_loop at h
    cases hb : wait_frame_inner_buffered X
      (state.sock_inbound_limit - state.sock_inbound_offset) state frame with
    | abort => rw [hb] at h; simp at h
    | diverge => rw [hb] at h; simp at h
    | done a =>
      obtain ⟨res, fr, st⟩ := a
      rw [hb] at h
      have hl := wait_frame_inner_buffered_leaves X _ _ _ _ _ _ hb
      cases res with
      | some v =>
        simp only [Run.done.injEq] at h
        rw [← h]
        refine ⟨hl.2.2.2.2.2 v rfl, ?_⟩
        intro e he
        exact Or.inr (hl.1 ▸ he)
      | none =>
        simp only at h
        by_cases h1 : ev.res ≤ 0
        · rw [if_pos h1] at h
          by_cases h2 : ev.res = 0
          · rw [if_pos h2] at h
            simp only [Run.done.injEq] at h
            rw [← h]
            refine ⟨Or.inl (by simp [ERROR_CONNECTION_CLOSED]), ?_⟩
            intro e he
            exact Or.inl (List.mem_cons_of_mem _ he)
          · rw [if_neg h2] at h
            simp only [Run.done.injEq] at h
            rw [← h]
            have hneg : ev.res < 0 := by omega
            have := hpos ev (List.mem_cons_self _ _) hneg
            refine ⟨Or.inl (by show -ev.error < 0; omega), ?_⟩
            intro e he
            exact Or.inl (List.mem_cons_of_mem _ he)
        · rw [if_neg h1] at h
          obtain ⟨g1, g2⟩ := ih _ _ (fun e he => hpos e (List.mem_cons_of_mem _ he)) h
          refine ⟨g1, ?_⟩
          intro e he
          rcases g2 e he with h3 | h3
          · exact Or.inl (List.mem_cons_of_mem _ h3)
          · exact Or.inl (List.mem_cons_of_mem _ h3)

/-- When every failed read of the transport to come reports a positive error code,
every frame that the retry loop of `amqp_simple_rpc` stores in the queue has a type
that is not 0. -/
theorem rpc_queued_typed {σ : Type} (X : Externals σ) (channel : Nat)
    (expected_reply_ids : List Nat) :
    ∀ (fuel : Nat) (state : amqp_connection_state_t σ) (frame : amqp_frame_t),
      (∀ ev ∈ state.transport, ev.res < 0 → 0 < ev.error) →
      ∀ g ∈ rpc_queued X channel expected_reply_ids fuel state frame, g.frame_type ≠ 0 := by
  intro fuel
  induction fuel with
  | zero =>
    intro state frame _ g hg
    simp [rpc_queued] at hg
  | succ n ih =>
    intro state frame hpos g hg
    rw [rpc_queued] at hg
    cases hw : wait_frame_inner X state frame with
    | abort => rw [hw] at hg; simp at hg
    | diverge => rw [hw] at hg; simp at hg
    | done r =>
      rw [hw] at hg
      simp only at hg
      obtain ⟨hs, ht⟩ := wait_frame_inner_loop_status X state.transport state frame r hpos hw
      by_cases h1 : r.status < 0
      · rw [if_pos h1] at hg
        simp at hg
      · rw [if_neg h1] at hg
        by_cases h2 : rpc_reply_frame X channel expected_reply_ids r.frame
        · rw [if_pos h2] at hg
          simp at hg
        · rw [if_neg h2] at hg
          by_cases h3 : rpc_alloc_ok r.state.decoding_pool
          · rw [if_pos h3] at hg
            rcases List.mem_cons.mp hg with h4 | h4
            · rw [h4]
              rcases hs with h5 | h5
              · exact absurd h5 h1
              · exact h5.2
            · refine ih (enqueued r.state r.frame) r.frame ?_ g h4
              intro ev hev
              have hev2 : ev ∈ r.state.transport := hev
              rcases ht ev hev2 with h6 | h6 <;> exact hpos ev h6
          · rw [if_neg h3] at hg
            simp at hg

/-- C16 (counterexample). A transport whose error callback reports 0 after a
failed read: with an incomplete frame in the socket buffer, `wait_frame_inner` and
`amqp_simple_wait_frame` return 0 with a frame of type 0. -/
theorem frame_never_none_counterexample :
    wait_frame_inner example_externals
        (example_state_at [⟨-1, [], 0⟩] [1, 2, 0] 0 3) amqp_frame_t.indeterminate =
      .done ⟨0, ⟨0, 0, .body_fragment 0 0⟩,
        { example_state_at [] [1, 2, 0] 3 3 with core := [1, 2, 0] }⟩ ∧
    amqp_simple_wait_frame example_externals
        (example_state_at [⟨-1, [], 0⟩] [1, 2, 0] 0 3) amqp_frame_t.indeterminate =
      .done ⟨0, ⟨0, 0, .body_fragment 0 0⟩,
        { example_state_at [] [1, 2, 0] 3 3 with core := [1, 2, 0] }⟩ ∧
    (⟨0, 0, .body_fragment 0 0⟩ : amqp_frame_t).frame_type = 0 := by
  refine ⟨?_, ?_, rfl⟩
  · simp [wait_frame_inner, wait_frame_inner_loop, wait_frame_inner_buffered,
      example_state_at, example_state, example_externals, example_handle_input,
      amqp_data_in_buffer]
  · simp [amqp_simple_wait_frame, wait_frame_inner, wait_frame_inner_loop,
      wait_frame_inner_buffered, example_state_at, example_state, example_externals,
      example_handle_input, amqp_data_in_buffer]

/-- C16 (amended). A frame of type none is never delivered, provided that the
transport's error callback reports a positive code after a failed read (`hpos`,
over the reads still to come). For every behaviour of the frame state machine and
every such transport: whenever `wait_frame_inner` returns 0 the output frame has a
type that is not 0, and it never returns a positive value; every frame that
`amqp_simple_rpc` stores in the frame queue has a type that is not 0; and on a
connection whose queued frames all have a type that is not 0,
`amqp_simple_wait_frame` returns 0 only with a frame whose type is not 0, and
`amqp_simple_rpc` leaves a queue of such frames. -/
theorem frame_never_none {σ : Type} (X : Externals σ)
    (state : amqp_connection_state_t σ) (frame : amqp_frame_t)
    (hpos : ∀ ev ∈ state.transport, ev.res < 0 → 0 < ev.error) :
    (∀ r, wait_frame_inner X state frame = .done r → r.status = 0 →
      r.frame.frame_type ≠ 0) ∧
    (∀ r, wait_frame_inner X state frame = .done r → r.status ≤ 0) ∧
    (∀ (channel request_id : Nat) (expected_reply_ids : List Nat) (decoded : Nat),
      ∀ g ∈ amqp_simple_rpc_queued X state channel request_id expected_reply_ids decoded,
        g.frame_type ≠ 0) ∧
    (∀ ptrs, queue_holds state ptrs →
      (∀ g ∈ queue_frames state ptrs, g.frame_type ≠ 0) →
      (∀ r, amqp_simple_wait_frame X state frame = .done r → r.status = 0 →
        r.frame.frame_type ≠ 0) ∧
      (∀ (channel request_id : Nat) (expected_reply_ids : List Nat) (decoded : Nat)
        (reply : amqp_rpc_reply_t) (state2 : amqp_connection_state_t σ),
        amqp_simple_rpc X state channel request_id expected_reply_ids decoded =
          .done (reply, state2) →
        ∃ ptrs2, queue_holds state2 ptrs2 ∧
          ∀ g ∈ queue_frames state2 ptrs2, g.frame_type ≠ 0)) := by
  have hinner : ∀ r, wait_frame_inner X state frame = .done r →
      r.status < 0 ∨ (r.status = 0 ∧ r.frame.frame_type ≠ 0) := fun r h =>
    (wait_frame_inner_loop_status X state.transport state frame r hpos h).1
  have hqueued : ∀ (channel request_id : Nat) (expected_reply_ids : List Nat) (decoded : Nat),
      ∀ g ∈ amqp_simple_rpc_queued X state channel request_id expected_reply_ids decoded,
        g.frame_type ≠ 0 := by
    intro channel request_id expected_reply_ids decoded g hg
    unfold amqp_simple_rpc_queued at hg
    simp only at hg
    by_cases h1 : (amqp_send_method X state channel request_id decoded).1 < 0
    · rw [if_pos h1] at hg
      simp at hg
    · rw [if_neg h1] at hg
      exact rpc_queued_typed X channel expected_reply_ids _
        (amqp_send_method X state channel request_id decoded).2 _ hpos g hg
  refine ⟨?_, ?_, hqueued, ?_⟩
  · intro r h h0
    rcases hinner r h with h1 | h1
    · omega
    · exact h1.2
  · intro r h
    rcases hinner r h with h1 | h1
    · omega
    · omega
  · intro ptrs hq htyped
    constructor
    · intro r h h0
      cases ptrs with
      | nil =>
        have hf := queue_holds_nil_first state hq
        unfold amqp_simple_wait_frame at h
        rw [if_neg (by simp [hf])] at h
        rcases hinner r h with h1 | h1
        · omega
        · exact h1.2
      | cons p rest =>
        obtain ⟨st2, hw, _, _⟩ := amqp_simple_wait_frame_dequeues X state frame p rest hq
        rw [hw] at h
        simp only [Run.done.injEq] at h
        rw [← h]
        apply htyped
        simp [queue_frames]
    · intro channel request_id expected_reply_ids decoded reply state2 h
      obtain ⟨new, hq2, hf2⟩ := amqp_simple_rpc_appends X state channel request_id
        expected_reply_ids decoded ptrs reply state2 hq h
      refine ⟨ptrs ++ new, hq2, ?_⟩
      intro g hg
      rw [hf2] at hg
      rcases List.mem_append.mp hg with h1 | h1
      · exact htyped g h1
      · exact hqueued channel request_id expected_reply_ids decoded g h1

theorem frame_never_none_witness :
    wait_frame_inner example_externals (example_state_at [example_recv_other] [] 0 0)
        amqp_frame_t.indeterminate =
      .done ⟨0, ⟨1, 2, .method ⟨55, 0⟩⟩,
        example_state_at [] ([1, 2, 0, 0, 0, 55] ++ ([] : List Nat).drop 6) 6 6⟩ ∧
    (⟨1, 2, .method ⟨55, 0⟩⟩ : amqp_frame_t).frame_type ≠ 0 :=
  ⟨example_wait_other [] [] 0 amqp_frame_t.indeterminate,
    (frame_never_none example_externals (example_state_at [example_recv_other] [] 0 0)
      amqp_frame_t.indeterminate
      (by simp [example_state_at, example_state, example_recv_other])).1 _
      (example_wait_other [] [] 0 amqp_frame_t.indeterminate) rfl⟩

/-! ## The frame wait does not use `amqp_send_frame` -/

theorem wait_frame_inner_buffered_input {σ : Type} (X X2 : Externals σ)
    (hx : X2.amqp_handle_input = X.amqp_handle_input) (fuel : Nat)
    (state : amqp_connection_state_t σ) (frame : amqp_frame_t) :
    wait_frame_inner_buffered X2 fuel state frame =
      wait_frame_inner_buffered X fuel state frame := by
  induction fuel generalizing state frame with
  | zero =>
    unfold wait_frame_inner_buffered
    rfl
  | succ n ih =>
    unfold wait_frame_inner_buffered
    by_cases hd : amqp_data_in_buffer state = true
    · rw [if_pos hd, if_pos hd]
      simp only [hx]
      generalize X.amqp_handle_input state.core _ = r
      by_cases h1 : r.1 < 0
      · rw [if_pos h1, if_pos h1]
      · rw [if_neg h1, if_neg h1]
        by_cases h3 : r.2.1.frame_type ≠ 0
        · rw [if_pos h3, if_pos h3]
        · rw [if_neg h3, if_neg h3]
          by_cases h4 : r.1 = 0
          · rw [if_pos h4, if_pos h4]
          · rw [if_neg h4, if_neg h4]
            exact ih _ _
    · rw [if_neg hd, if_neg hd]

theorem wait_frame_inner_loop_input {σ : Type} (X X2 : Externals σ)
    (hx : X2.amqp_handle_input = X.amqp_handle_input) (transport : List recv_event)
    (state : amqp_connection_state_t σ) (frame : amqp_frame_t) :
    wait_frame_inner_loop X2 transport state frame =
      wait_frame_inner_loop X transport state frame := by
  induction transport generalizing state frame with
  | nil =>
    unfold wait_frame_inner_loop
    rw [wait_frame_inner_buffered_input X X2 hx]
  | cons ev rest ih =>
    unfold wait_frame_inner_loop
    rw [wait_frame_inner_buffered_input X X2 hx]
    cases wait_frame_inner_buffered X
      (state.sock_inbound_limit - state.sock_inbound_offset) state frame with
    | abort => rfl
    | diverge => rfl
    | done a =>
      obtain ⟨res, fr, st⟩ := a
      cases res with
      | some v => rfl
      | none =>
        simp only
        by_cases h1 : ev.res ≤ 0
        · rw [if_pos h1, if_pos h1]
        · rw [if_neg h1, if_neg h1]
          exact ih _ _

/-- The frame wait depends on the rest of the library only through
`amqp_handle_input`: it does not send. -/
theorem amqp_simple_wait_frame_input {σ : Type} (X X2 : Externals σ)
    (hx : X2.amqp_handle_input = X.amqp_handle_input)
    (state : amqp_connection_state_t σ) (frame : amqp_frame_t) :
    amqp_simple_wait_frame X2 state frame = amqp_simple_wait_frame X state frame := by
  unfold amqp_simple_wait_frame wait_frame_inner
  rw [wait_frame_inner_loop_input X X2 hx]

/-- The method wait depends on the rest of the library only through
`amqp_handle_input` and the constant `AMQP_FRAME_METHOD`: it does not send. -/
theorem amqp_simple_wait_method_input {σ : Type} (X X2 : Externals σ)
    (hx : X2.amqp_handle_input = X.amqp_handle_input)
    (hm : X2.AMQP_FRAME_METHOD = X.AMQP_FRAME_METHOD)
    (state : amqp_connection_state_t σ) (expected_channel expected_method : Nat)
    (output : amqp_method_t) :
    amqp_simple_wait_method X2 state expected_channel expected_method output =
      amqp_simple_wait_method X state expected_channel expected_method output := by
  unfold amqp_simple_wait_method
  rw [amqp_simple_wait_frame_input X X2 hx, hm]

/-! ## The steps of the handshake -/

/-- What `amqp_login_inner` does once the wait for connection.start has returned. -/
theorem amqp_login_inner_started {σ : Type} (L : LoginExternals σ) (X : Externals σ)
    (state : amqp_connection_state_t σ) (channel_max frame_max heartbeat : Int)
    (sasl_method : Nat) (vl : List va_value) (res : Int) (method : amqp_method_t)
    (st : amqp_connection_state_t σ)
    (hw : amqp_simple_wait_method X (amqp_send_header L state).2 0
      L.AMQP_CONNECTION_START_METHOD ⟨0, 0⟩ = .done (res, method, st)) :
    amqp_login_inner L X state channel_max frame_max heartbeat sasl_method vl =
      if res < 0 then .done (res, st)
      else if (L.connection_start_at st.core method.decoded).version_major ≠
            L.AMQP_PROTOCOL_VERSION_MAJOR ∨
          (L.connection_start_at st.core method.decoded).version_minor ≠
            L.AMQP_PROTOCOL_VERSION_MINOR then
        .done (-ERROR_INCOMPATIBLE_AMQP_VERSION, st)
      else
        amqp_login_inner_start_ok L X st channel_max frame_max heartbeat sasl_method vl := by
  unfold amqp_login_inner
  simp only [hw]

/-- A negative status of `amqp_login_inner` becomes a library exception with the
negated status. -/
theorem amqp_login_failed {σ : Type} (L : LoginExternals σ) (X : Externals σ)
    (state : amqp_connection_state_t σ) (vhost : List Nat)
    (channel_max frame_max heartbeat : Int) (sasl_method : Nat) (vl : List va_value)
    (status : Int) (st : amqp_connection_state_t σ)
    (hi : amqp_login_inner L X state channel_max frame_max heartbeat sasl_method vl =
      .done (status, st))
    (hs : status < 0) :
    amqp_login L X state vhost channel_max frame_max heartbeat sasl_method vl =
      .done (⟨.AMQP_RESPONSE_LIBRARY_EXCEPTION, ⟨0, 0⟩, -status⟩, st) := by
  unfold amqp_login
  simp only [hi, if_pos hs]

theorem example_wait_start (rest : List recv_event) (buffer : List Nat) (n : Nat)
    (fr : amqp_frame_t) :
    wait_frame_inner example_externals
      (example_state_at (example_recv_start :: rest) buffer n n) fr =
      .done ⟨0, ⟨1, 0, .method ⟨655370, 0⟩⟩, example_state_at rest
          ([1, 0, 0, 10, 0, 10] ++ buffer.drop 6) 6 6⟩ := by
  simp [wait_frame_inner, wait_frame_inner_loop, wait_frame_inner_buffered, example_state_at,
    example_state, example_externals, example_handle_input, amqp_data_in_buffer,
    be_value, le_value, example_recv_start]

/-- On the example transport the wait for connection.start returns the method,
whatever `send` returned for the protocol header. -/
theorem example_wait_method_start (send_status : Int) (start : amqp_connection_start_t)
    (tune : amqp_connection_tune_t) (rest : List recv_event) :
    amqp_simple_wait_method example_externals
      (amqp_send_header (example_login_externals send_status start tune)
        (example_state (example_recv_start :: rest))).2 0
      (example_login_externals send_status start tune).AMQP_CONNECTION_START_METHOD ⟨0, 0⟩ =
      .done (0, ⟨655370, 0⟩, example_state_at rest [1, 0, 0, 10, 0, 10] 6 6) := by
  have hs : (amqp_send_header (example_login_externals send_status start tune)
      (example_state (example_recv_start :: rest))).2 =
      example_state_at (example_recv_start :: rest) [] 0 0 := rfl
  have hf : (example_state_at (example_recv_start :: rest) [] 0 0).first_queued_frame = 0 :=
    rfl
  rw [hs]
  unfold amqp_simple_wait_method amqp_simple_wait_frame
  rw [if_neg (by simp [hf]), example_wait_start]
  simp [example_externals, example_login_externals, amqp_payload_t.as_method]

/-- C19. Version mismatch is fatal. When the wait for connection.start has returned
the method (`hw`, `hres`) and the start it points to reports a major or minor version
other than `AMQP_PROTOCOL_VERSION_MAJOR`, `AMQP_PROTOCOL_VERSION_MINOR`, `amqp_login`
returns LIBRARY_EXCEPTION with `library_error = ERROR_INCOMPATIBLE_AMQP_VERSION`,
which is 6, a reply id of 0 and a null decoded pointer. No frame is sent after the
protocol header: the connection returned is the one the wait left, and the result
is the same for every `amqp_send_frame` (`X2` is any library with the frame state
machine of `X`). When both versions are equal the step does not fail:
`amqp_login_inner` goes on with the start-ok block. -/
theorem login_version_mismatch {σ : Type} (L : LoginExternals σ) (X X2 : Externals σ)
    (state : amqp_connection_state_t σ) (vhost : List Nat)
    (channel_max frame_max heartbeat : Int) (sasl_method : Nat) (vl : List va_value)
    (res : Int) (method : amqp_method_t) (st : amqp_connection_state_t σ)
    (hw : amqp_simple_wait_method X (amqp_send_header L state).2 0
      L.AMQP_CONNECTION_START_METHOD ⟨0, 0⟩ = .done (res, method, st))
    (hres : ¬ res < 0)
    (hx : X2.amqp_handle_input = X.amqp_handle_input)
    (hm : X2.AMQP_FRAME_METHOD = X.AMQP_FRAME_METHOD) :
    (((L.connection_start_at st.core method.decoded).version_major ≠
          L.AMQP_PROTOCOL_VERSION_MAJOR ∨
        (L.connection_start_at st.core method.decoded).version_minor ≠
          L.AMQP_PROTOCOL_VERSION_MINOR) →
      amqp_login L X state vhost channel_max frame_max heartbeat sasl_method vl =
        .done (⟨.AMQP_RESPONSE_LIBRARY_EXCEPTION, ⟨0, 0⟩, 6⟩, st) ∧
      amqp_login L X2 state vhost channel_max frame_max heartbeat sasl_method vl =
        .done (⟨.AMQP_RESPONSE_LIBRARY_EXCEPTION, ⟨0, 0⟩, 6⟩, st)) ∧
    ERROR_INCOMPATIBLE_AMQP_VERSION = 6 ∧
    (((L.connection_start_at st.core method.decoded).version_major =
          L.AMQP_PROTOCOL_VERSION_MAJOR ∧
        (L.connection_start_at st.core method.decoded).version_minor =
          L.AMQP_PROTOCOL_VERSION_MINOR) →
      amqp_login_inner L X state channel_max frame_max heartbeat sasl_method vl =
        amqp_login_inner_start_ok L X st channel_max frame_max heartbeat sasl_method vl) := by
  have hw2 : amqp_simple_wait_method X2 (amqp_send_header L state).2 0
      L.AMQP_CONNECTION_START_METHOD ⟨0, 0⟩ = .done (res, method, st) := by
    rw [amqp_simple_wait_method_input X X2 hx hm, hw]
  refine ⟨?_, rfl, ?_⟩
  · intro hv
    have h1 := amqp_login_inner_started L X state channel_max frame_max heartbeat
      sasl_method vl res method st hw
    have h2 := amqp_login_inner_started L X2 state channel_max frame_max heartbeat
      sasl_method vl res method st hw2
    rw [if_neg hres, if_pos hv] at h1 h2
    exact ⟨amqp_login_failed L X state vhost _ _ _ _ _ _ st h1 (by decide),
      amqp_login_failed L X2 state vhost _ _ _ _ _ _ st h2 (by decide)⟩
  · intro hv
    have h1 := amqp_login_inner_started L X state channel_max frame_max heartbeat
      sasl_method vl res method st hw
    rw [if_neg hres, if_neg (by simp [hv.1, hv.2])] at h1
    exact h1

theorem login_version_mismatch_witness :
    amqp_login (example_login_externals 8 ⟨0, 8⟩ ⟨0, 0, 0⟩) example_externals
        (example_state [example_recv_start]) [47] 10 4096 60 0
        [.string [103], .string [103]] =
      .done (⟨.AMQP_RESPONSE_LIBRARY_EXCEPTION, ⟨0, 0⟩, 6⟩,
        example_state_at [] [1, 0, 0, 10, 0, 10] 6 6) :=
  ((login_version_mismatch (example_login_externals 8 ⟨0, 8⟩ ⟨0, 0, 0⟩) example_externals
    example_externals (example_state [example_recv_start]) [47] 10 4096 60 0
    [.string [103], .string [103]] 0 ⟨655370, 0⟩
    (example_state_at [] [1, 0, 0, 10, 0, 10] 6 6)
    (example_wait_method_start 8 ⟨0, 8⟩ ⟨0, 0, 0⟩ []) (by decide) rfl rfl).1
    (by decide)).1

/-! ## The tune negotiation -/

/-- The statement `if (server_x != 0 && server_x < x) x = server_x;` computes the
effective value of the specification when `server_x` holds the value the server
proposed. -/
theorem tune_choice_spec (x : Int) (proposed : Nat) :
    tune_choice proposed x = tune_effective_spec x proposed := by
  unfold tune_choice tune_effective_spec
  by_cases h0 : proposed = 0
  · simp [h0]
  · have h1 : (proposed : Int) ≠ 0 := by omega
    by_cases h2 : (proposed : Int) < x
    · rw [if_pos ⟨h1, h2⟩, if_neg h0]
      omega
    · rw [if_neg (fun h => h2 h.2), if_neg h0]
      omega

/-- The negotiation follows the rule of the specification for every tune method
whose `frame_max` is below 2^31. -/
theorem amqp_login_inner_negotiate_in_range (channel_max frame_max heartbeat : Int)
    (s : amqp_connection_tune_t) (hc : s.channel_max < 65536)
    (hf : s.frame_max < 2147483648) (hh : s.heartbeat < 65536) :
    amqp_login_inner_negotiate channel_max frame_max heartbeat s =
      (tune_effective_spec channel_max s.channel_max,
        tune_effective_spec frame_max s.frame_max,
        tune_effective_spec heartbeat s.heartbeat) := by
  have h1 : s.frame_max % 4294967296 = s.frame_max := Nat.mod_eq_of_lt (by omega)
  unfold amqp_login_inner_negotiate int_of_uint32
  simp only [Nat.mod_eq_of_lt hc, Nat.mod_eq_of_lt hh, h1, if_pos hf, tune_choice_spec]

/-- C17. Tune negotiation. The values `amqp_login_inner` gives to
`amqp_tune_connection` and, converted to the member widths, to tune-ok are those of
`amqp_login_inner_negotiate`. For a tune method whose `frame_max` is below 2^31 they
follow the rule of the specification, and the client (10, 4096, 60) with the server
(5, 8192, 0) gets (5, 4096, 60). For a `frame_max` of 2^31 or more the local
`int server_frame_max` is negative: with a requested `frame_max` that is not
negative (and an `int`) the value applied is the negative `frame_max - 2^32` and the value echoed
is the proposal of the server, not the smaller requested value; the client
(10, 4096, 60) with the server (5, 2147483648, 0) gets (5, -2147483648, 60) and
echoes 2147483648 where the rule gives 4096. -/
theorem tune_negotiation :
    (∀ (σ : Type) (L : LoginExternals σ) (X : Externals σ)
      (state : amqp_connection_state_t σ) (channel_max frame_max heartbeat : Int)
      (method : amqp_method_t),
      amqp_login_inner_tune L X state channel_max frame_max heartbeat method =
        (let n := amqp_login_inner_negotiate channel_max frame_max heartbeat
          (L.connection_tune_at state.core method.decoded)
        let t := L.amqp_tune_connection state.core n.1 n.2.1 n.2.2
        if t.1 < 0 then .done (t.1, { state with core := t.2 })
        else
          let p := L.place_tune_ok t.2
            { channel_max := uint_of_int 16 n.1
              frame_max := uint_of_int 32 n.2.1
              heartbeat := uint_of_int 16 n.2.2 }
          let r := amqp_send_method X { state with core := p.2 } 0
            L.AMQP_CONNECTION_TUNE_OK_METHOD p.1
          if r.1 < 0 then .done (r.1, r.2)
          else
            match L.amqp_release_buffers r.2 with
            | .abort => .abort
            | .diverge => .diverge
            | .done state => .done (0, state))) ∧
    (∀ (channel_max frame_max heartbeat : Int) (s : amqp_connection_tune_t),
      s.channel_max < 65536 → s.frame_max < 2147483648 → s.heartbeat < 65536 →
      amqp_login_inner_negotiate channel_max frame_max heartbeat s =
        (tune_effective_spec channel_max s.channel_max,
          tune_effective_spec frame_max s.frame_max,
          tune_effective_spec heartbeat s.heartbeat)) ∧
    amqp_login_inner_negotiate 10 4096 60 ⟨5, 8192, 0⟩ = (5, 4096, 60) ∧
    (∀ (channel_max frame_max heartbeat : Int) (s : amqp_connection_tune_t),
      2147483648 ≤ s.frame_max → s.frame_max < 4294967296 →
      0 ≤ frame_max → frame_max < 2147483648 →
      (amqp_login_inner_negotiate channel_max frame_max heartbeat s).2.1 =
        (s.frame_max : Int) - 4294967296 ∧
      uint_of_int 32 ((s.frame_max : Int) - 4294967296) = s.frame_max ∧
      tune_effective_spec frame_max s.frame_max = frame_max) ∧
    amqp_login_inner_negotiate 10 4096 60 ⟨5, 2147483648, 0⟩ = (5, -2147483648, 60) ∧
    uint_of_int 32 (-2147483648) = 2147483648 ∧
    tune_effective_spec 4096 2147483648 = 4096 := by
  refine ⟨?_, ?_, by decide, ?_, by decide, by decide, by decide⟩
  · intro σ L X state channel_max frame_max heartbeat method
    rfl
  · intro channel_max frame_max heartbeat s hc hf hh
    exact amqp_login_inner_negotiate_in_range channel_max frame_max heartbeat s hc hf hh
  · intro channel_max frame_max heartbeat s h1 h2 h3 h4
    have hm : s.frame_max % 4294967296 = s.frame_max := Nat.mod_eq_of_lt h2
    refine ⟨?_, ?_, ?_⟩
    · show tune_choice (int_of_uint32 s.frame_max) frame_max = _
      unfold int_of_uint32
      rw [hm, if_neg (by omega)]
      unfold tune_choice
      rw [if_pos (by constructor <;> omega)]
    · unfold uint_of_int
      have : ((s.frame_max : Int) - 4294967296) % ((2 ^ 32 : Nat) : Int) = s.frame_max := by
        norm_num
        omega
      rw [this]
      simp
    · unfold tune_effective_spec
      rw [if_neg (by omega)]
      omega

/-- What the start-ok block of `amqp_login_inner` does once `sasl_response` has
returned a response and the mechanism has its name: a failed send of start-ok is
returned, and so is a failed wait for connection.tune; otherwise the tune block is
next. -/
theorem amqp_login_inner_start_ok_sent {σ : Type} (L : LoginExternals σ) (X : Externals σ)
    (state : amqp_connection_state_t σ) (channel_max frame_max heartbeat : Int)
    (sasl_method : Nat) (vl : List va_value) (response : amqp_bytes_t) (pool : amqp_pool_t)
    (core : σ) (mechanism : List Nat)
    (hs : sasl_response L state.decoding_pool state.core sasl_method vl =
      .done (response, pool, core))
    (hr : response.bytes ≠ 0)
    (hn : sasl_method_name L sasl_method = .done mechanism) :
    let v := L.evo_get_version core
    let p := L.place_start_ok v.2.2
      { client_properties :=
          [⟨cstring "product", cstring "rabbitmq-c"⟩,
           ⟨cstring "information", cstring "See http://hg.rabbitmq.com/rabbitmq-c/"⟩,
           ⟨cstring "evo_version", if v.1 < 0 then cstring "0.0.0" else v.2.1⟩]
        mechanism := mechanism
        response := response
        locale := cstring "en_US" }
    let r := amqp_send_method X { state with decoding_pool := pool, core := p.2 } 0
      L.AMQP_CONNECTION_START_OK_METHOD p.1
    (r.1 < 0 →
      amqp_login_inner_start_ok L X state channel_max frame_max heartbeat sasl_method vl =
        .done (r.1, r.2)) ∧
    (¬ r.1 < 0 → ∀ st2, L.amqp_release_buffers r.2 = .done st2 →
      ∀ res method st3,
        amqp_simple_wait_method X st2 0 L.AMQP_CONNECTION_TUNE_METHOD ⟨0, 0⟩ =
          .done (res, method, st3) →
        amqp_login_inner_start_ok L X state channel_max frame_max heartbeat sasl_method vl =
          if res < 0 then .done (res, st3)
          else amqp_login_inner_tune L X st3 channel_max frame_max heartbeat method) := by
  intro v p r
  constructor
  · intro h
    unfold amqp_login_inner_start_ok
    simp only [hs, if_neg hr, hn]
    exact if_pos h
  · intro h st2 h2 res method st3 h3
    unfold amqp_login_inner_start_ok
    simp only [hs, if_neg hr, hn]
    rw [if_neg h]
    simp only [h2, h3]

/-- The value `send` returns for the protocol header does not reach the result of
`amqp_login`. -/
theorem amqp_login_header_status {σ : Type} (L : LoginExternals σ) (X : Externals σ)
    (state : amqp_connection_state_t σ) (vhost : List Nat)
    (channel_max frame_max heartbeat : Int) (sasl_method : Nat) (vl : List va_value)
    (status : Int) :
    amqp_login { L with send := fun core bytes => (status, (L.send core bytes).2) } X state
        vhost channel_max frame_max heartbeat sasl_method vl =
      amqp_login L X state vhost channel_max frame_max heartbeat sasl_method vl := rfl

/-- C18. Handshake steps and their failures. The send of the protocol header is the
step whose failure does not abort: the value `send` returns for the header never
reaches the result of `amqp_login` (the result is the same for every value it
returns, the negative ones among them), and on the example transport a header send
that returns -1 is followed by the wait for connection.start, whose version check
gives the result, error 6. Every other step aborts: a failed wait for
connection.start, a failed send of start-ok, a failed wait for connection.tune, a
failed `amqp_tune_connection` and a failed send of tune-ok each end
`amqp_login_inner` with that step's status and the connection that step left; a
negative status of `amqp_login_inner` makes `amqp_login` return LIBRARY_EXCEPTION
with the negated status without running the open RPC; and a reply of the open RPC
that is not NORMAL is returned as it is. -/
theorem login_step_failures {σ : Type} (L : LoginExternals σ) (X : Externals σ)
    (state : amqp_connection_state_t σ) (vhost : List Nat)
    (channel_max frame_max heartbeat : Int) (sasl_method : Nat) (vl : List va_value) :
    (∀ status : Int,
      amqp_login { L with send := fun core bytes => (status, (L.send core bytes).2) } X
          state vhost channel_max frame_max heartbeat sasl_method vl =
        amqp_login L X state vhost channel_max frame_max heartbeat sasl_method vl) ∧
    ((amqp_send_header (example_login_externals (-1) ⟨0, 8⟩ ⟨0, 0, 0⟩)
        (example_state [example_recv_start])).1 = -1 ∧
      amqp_login (example_login_externals (-1) ⟨0, 8⟩ ⟨0, 0, 0⟩) example_externals
          (example_state [example_recv_start]) [47] 10 4096 60 0
          [.string [103], .string [103]] =
        .done (⟨.AMQP_RESPONSE_LIBRARY_EXCEPTION, ⟨0, 0⟩, 6⟩,
          example_state_at [] [1, 0, 0, 10, 0, 10] 6 6)) ∧
    (∀ res method st,
      amqp_simple_wait_method X (amqp_send_header L state).2 0
        L.AMQP_CONNECTION_START_METHOD ⟨0, 0⟩ = .done (res, method, st) →
      res < 0 →
      amqp_login L X state vhost channel_max frame_max heartbeat sasl_method vl =
        .done (⟨.AMQP_RESPONSE_LIBRARY_EXCEPTION, ⟨0, 0⟩, -res⟩, st)) ∧
    (∀ (st : amqp_connection_state_t σ) response pool core mechanism,
      sasl_response L st.decoding_pool st.core sasl_method vl =
        .done (response, pool, core) →
      response.bytes ≠ 0 →
      sasl_method_name L sasl_method = .done mechanism →
      let v := L.evo_get_version core
      let p := L.place_start_ok v.2.2
        { client_properties :=
            [⟨cstring "product", cstring "rabbitmq-c"⟩,
             ⟨cstring "information", cstring "See http://hg.rabbitmq.com/rabbitmq-c/"⟩,
             ⟨cstring "evo_version", if v.1 < 0 then cstring "0.0.0" else v.2.1⟩]
          mechanism := mechanism
          response := response
          locale := cstring "en_US" }
      let r := amqp_send_method X { st with decoding_pool := pool, core := p.2 } 0
        L.AMQP_CONNECTION_START_OK_METHOD p.1
      (r.1 < 0 →
        amqp_login_inner_start_ok L X st channel_max frame_max heartbeat sasl_method vl =
          .done (r.1, r.2)) ∧
      (¬ r.1 < 0 → ∀ st2, L.amqp_release_buffers r.2 = .done st2 →
        ∀ res method st3,
          amqp_simple_wait_method X st2 0 L.AMQP_CONNECTION_TUNE_METHOD ⟨0, 0⟩ =
            .done (res, method, st3) →
          res < 0 →
          amqp_login_inner_start_ok L X st channel_max frame_max heartbeat sasl_method vl =
            .done (res, st3))) ∧
    (∀ (st : amqp_connection_state_t σ) (method : amqp_method_t),
      let n := amqp_login_inner_negotiate channel_max frame_max heartbeat
        (L.connection_tune_at st.core method.decoded)
      let t := L.amqp_tune_connection st.core n.1 n.2.1 n.2.2
      let p := L.place_tune_ok t.2
        { channel_max := uint_of_int 16 n.1
          frame_max := uint_of_int 32 n.2.1
          heartbeat := uint_of_int 16 n.2.2 }
      let r := amqp_send_method X { st with core := p.2 } 0
        L.AMQP_CONNECTION_TUNE_OK_METHOD p.1
      (t.1 < 0 →
        amqp_login_inner_tune L X st channel_max frame_max heartbeat method =
          .done (t.1, { st with core := t.2 })) ∧
      (¬ t.1 < 0 → r.1 < 0 →
        amqp_login_inner_tune L X st channel_max frame_max heartbeat method =
          .done (r.1, r.2))) ∧
    (∀ status st,
      amqp_login_inner L X state channel_max frame_max heartbeat sasl_method vl =
        .done (status, st) →
      (status < 0 →
        amqp_login L X state vhost channel_max frame_max heartbeat sasl_method vl =
          .done (⟨.AMQP_RESPONSE_LIBRARY_EXCEPTION, ⟨0, 0⟩, -status⟩, st)) ∧
      (¬ status < 0 → ∀ result st2,
        amqp_simple_rpc X
            { st with core := (L.place_open st.core ⟨vhost, ⟨0, 0⟩, 1⟩).2 } 0
            L.AMQP_CONNECTION_OPEN_METHOD [L.AMQP_CONNECTION_OPEN_OK_METHOD, 0]
            (L.place_open st.core ⟨vhost, ⟨0, 0⟩, 1⟩).1 = .done (result, st2) →
        result.reply_type ≠ .AMQP_RESPONSE_NORMAL →
        amqp_login L X state vhost channel_max frame_max heartbeat sasl_method vl =
          .done (result, st2))) := by
  refine ⟨fun _ => rfl, ⟨rfl, ?_⟩, ?_, ?_, ?_, ?_⟩
  · have h1 := amqp_login_inner_started (example_login_externals (-1) ⟨0, 8⟩ ⟨0, 0, 0⟩)
      example_externals (example_state [example_recv_start]) 10 4096 60 0
      [.string [103], .string [103]] 0 ⟨655370, 0⟩
      (example_state_at [] [1, 0, 0, 10, 0, 10] 6 6)
      (example_wait_method_start (-1) ⟨0, 8⟩ ⟨0, 0, 0⟩ [])
    rw [if_neg (by decide), if_pos (by decide)] at h1
    exact amqp_login_failed _ _ _ [47] _ _ _ _ _ _ _ h1 (by decide)
  · intro res method st hw hres
    have h1 := amqp_login_inner_started L X state channel_max frame_max heartbeat
      sasl_method vl res method st hw
    rw [if_pos hres] at h1
    exact amqp_login_failed L X state vhost _ _ _ _ _ _ st h1 hres
  · intro st response pool core mechanism hs hr hn v p r
    have h := amqp_login_inner_start_ok_sent L X st channel_max frame_max heartbeat
      sasl_method vl response pool core mechanism hs hr hn
    refine ⟨h.1, ?_⟩
    intro hr1 st2 h2 res method st3 h3 hres
    rw [h.2 hr1 st2 h2 res method st3 h3, if_pos hres]
  · intro st method n t p r
    constructor
    · intro ht
      unfold amqp_login_inner_tune
      exact if_pos ht
    · intro ht hr
      unfold amqp_login_inner_tune
      simp only
      rw [if_neg ht]
      exact if_pos hr
  · intro status st hi
    constructor
    · intro hs
      exact amqp_login_failed L X state vhost _ _ _ _ _ _ st hi hs
    · intro hs result st2 hrpc hne
      unfold amqp_login
      simp only [hi, if_neg hs, hrpc]
      exact if_pos hne


/-! ## Membership in a reply list -/

/-- An id is among the entries before the terminating 0 exactly when it is not 0 and
stands in the list with no 0 before it. -/
theorem mem_reply_ids_iff (e : Nat) (l : List Nat) :
    e ∈ reply_ids l ↔ e ≠ 0 ∧ ∃ pre post, l = pre ++ e :: post ∧ 0 ∉ pre := by
  induction l with
  | nil => simp [reply_ids]
  | cons x xs ih =>
    unfold reply_ids at ih ⊢
    by_cases hx : x = 0
    · subst hx
      simp only [List.takeWhile_cons, bne_self_eq_false, Bool.false_eq_true, if_false,
        List.not_mem_nil, false_iff, not_and, not_exists]
      intro he pre post h
      cases pre with
      | nil =>
        simp only [List.nil_append, List.cons.injEq] at h
        exact absurd h.1.symm he
      | cons a as =>
        simp only [List.cons_append, List.cons.injEq] at h
        intro hmem
        exact hmem (h.1 ▸ List.mem_cons_self _ _)
    · have hb : (x != 0) = true := by simpa using hx
      simp only [List.takeWhile_cons, hb, if_true, List.mem_cons]
      constructor
      · rintro (h | h)
        · subst h
          exact ⟨hx, [], xs, rfl, by simp⟩
        · obtain ⟨he, pre, post, hl, hpre⟩ := ih.mp h
          refine ⟨he, x :: pre, post, by simp [hl], ?_⟩
          intro hmem
          rcases List.mem_cons.mp hmem with h0 | h0
          · exact hx h0.symm
          · exact hpre h0
      · rintro ⟨he, pre, post, hl, hpre⟩
        cases pre with
        | nil =>
          simp only [List.nil_append, List.cons.injEq] at hl
          exact Or.inl hl.1.symm
        | cons a as =>
          simp only [List.cons_append, List.cons.injEq] at hl
          right
          refine ih.mpr ⟨he, as, post, hl.2, ?_⟩
          intro hmem
          exact hpre (List.mem_cons_of_mem _ hmem)

/-- The loop of `amqp_id_in_reply_list` stops at the first 0: what follows it is not
read. -/
theorem amqp_id_in_reply_list_stops (e : Nat) (pre post : List Nat) (hpre : 0 ∉ pre) :
    amqp_id_in_reply_list e (pre ++ 0 :: post) = amqp_id_in_reply_list e (pre ++ [0]) := by
  induction pre with
  | nil => simp [amqp_id_in_reply_list]
  | cons a as ih =>
    have ha : a ≠ 0 := fun h => hpre (h ▸ List.mem_cons_self _ _)
    have has : 0 ∉ as := fun h => hpre (List.mem_cons_of_mem _ h)
    show amqp_id_in_reply_list e (a :: (as ++ 0 :: post)) =
      amqp_id_in_reply_list e (a :: (as ++ [0]))
    unfold amqp_id_in_reply_list
    rw [ih has]

/-- A list that holds a 0 splits at its first 0. -/
theorem split_at_first_zero (l : List Nat) (h0 : 0 ∈ l) :
    ∃ pre post, l = pre ++ 0 :: post ∧ 0 ∉ pre := by
  induction l with
  | nil => simp at h0
  | cons x xs ih =>
    by_cases hx : x = 0
    · exact ⟨[], xs, by simp [hx], by simp⟩
    · have h1 : 0 ∈ xs := by
        rcases List.mem_cons.mp h0 with h | h
        · exact absurd h.symm hx
        · exact h
      obtain ⟨pre, post, hl, hpre⟩ := ih h1
      refine ⟨x :: pre, post, by simp [hl], ?_⟩
      intro hmem
      rcases List.mem_cons.mp hmem with h | h
      · exact hx h.symm
      · exact hpre h

/-- C26. Reply-list membership: for every method id `e` and every list `l` that
holds a 0, `amqp_id_in_reply_list e l` is 1 or 0; it is 1 exactly when `e` is not 0
and stands in `l` with no 0 before it; the loop stops at the first 0 of `l` (the
result is that for the entries up to and including it, whatever follows); so an id
of 0 is never found, entries behind the first 0 are not looked at, and for the list
`{reply_id, 0}` that `amqp_simple_rpc_decoded` builds the result is 1 exactly for
`e = reply_id` not 0. -/
theorem reply_list_membership (e : Nat) (l : List Nat) (h0 : 0 ∈ l) :
    (amqp_id_in_reply_list e l = 1 ∨ amqp_id_in_reply_list e l = 0) ∧
    (amqp_id_in_reply_list e l = 1 ↔
      e ≠ 0 ∧ ∃ pre post, l = pre ++ e :: post ∧ 0 ∉ pre) ∧
    (∃ pre post, l = pre ++ 0 :: post ∧ 0 ∉ pre ∧
      amqp_id_in_reply_list e l = amqp_id_in_reply_list e (pre ++ [0]) ∧
      ∀ post2, amqp_id_in_reply_list e (pre ++ 0 :: post2) = amqp_id_in_reply_list e l) ∧
    amqp_id_in_reply_list 0 l = 0 ∧
    (∀ reply_id, amqp_id_in_reply_list e [reply_id, 0] = 1 ↔ e ≠ 0 ∧ e = reply_id) := by
  have hiff : ∀ (e : Nat) (l : List Nat), amqp_id_in_reply_list e l = 1 ↔
      e ≠ 0 ∧ ∃ pre post, l = pre ++ e :: post ∧ 0 ∉ pre := by
    intro e l
    rw [← mem_reply_ids_iff, amqp_id_in_reply_list_eq]
    by_cases h : e ∈ reply_ids l <;> simp [h]
  refine ⟨?_, hiff e l, ?_, ?_, ?_⟩
  · rw [amqp_id_in_reply_list_eq]
    by_cases h : e ∈ reply_ids l <;> simp [h]
  · obtain ⟨pre, post, hl, hpre⟩ := split_at_first_zero l h0
    refine ⟨pre, post, hl, hpre, ?_, ?_⟩
    · rw [hl]
      exact amqp_id_in_reply_list_stops e pre post hpre
    · intro post2
      rw [hl, amqp_id_in_reply_list_stops e pre post hpre,
        amqp_id_in_reply_list_stops e pre post2 hpre]
  · have h := hiff 0 l
    rw [amqp_id_in_reply_list_eq] at h ⊢
    by_cases hm : 0 ∈ reply_ids l
    · rw [if_pos hm] at h
      exact absurd rfl (h.mp rfl).1
    · rw [if_neg hm]
  · intro reply_id
    rw [amqp_id_in_reply_list_eq]
    by_cases hr : reply_id = 0
    · subst hr
      simp [reply_ids]
    · have hb : (reply_id != 0) = true := by simpa using hr
      by_cases he : e = reply_id
      · subst he
        simp [reply_ids, List.takeWhile_cons, hb, hr]
      · simp [reply_ids, List.takeWhile_cons, hb, he]

theorem reply_list_membership_witness :
    amqp_id_in_reply_list 11 [55, 11, 0, 77] = 1 ∧
    amqp_id_in_reply_list 77 [55, 11, 0, 77] = 0 :=
  ⟨((reply_list_membership 11 [55, 11, 0, 77] (by decide)).2.1).mpr
      ⟨by decide, [55], [0, 77], rfl, by decide⟩,
    ((reply_list_membership 77 [55, 11, 0, 77] (by decide)).1).resolve_left (by decide)⟩

/-! ## The single-method wait -/

/-- C22. Single-method wait. When the frame wait of `amqp_simple_wait_method` returns
`res` with the frame `frame`: a negative `res` is returned unchanged and `*output`
is left as it was; otherwise the function returns 0 with `*output` the method of the
frame exactly when the frame is on `expected_channel`, has type `AMQP_FRAME_METHOD`
and carries `expected_method`, and the process is ended (`amqp_abort`) in every
other case: on a wrong channel, else on a wrong frame type, else on a wrong method
id. When the frame wait does not return, neither does the function. -/
theorem wait_method_single {σ : Type} (X : Externals σ) (state : amqp_connection_state_t σ)
    (expected_channel expected_method : Nat) (output : amqp_method_t) (res : Int)
    (frame : amqp_frame_t) (st : amqp_connection_state_t σ)
    (hw : amqp_simple_wait_frame X state amqp_frame_t.indeterminate = .done ⟨res, frame, st⟩) :
    (res < 0 →
      amqp_simple_wait_method X state expected_channel expected_method output =
        .done (res, output, st)) ∧
    (¬ res < 0 →
      ((frame.channel = expected_channel ∧ frame.frame_type = X.AMQP_FRAME_METHOD ∧
          frame.payload.as_method.id = expected_method) ↔
        amqp_simple_wait_method X state expected_channel expected_method output =
          .done (0, frame.payload.as_method, st)) ∧
      (¬ (frame.channel = expected_channel ∧ frame.frame_type = X.AMQP_FRAME_METHOD ∧
          frame.payload.as_method.id = expected_method) ↔
        amqp_simple_wait_method X state expected_channel expected_method output = .abort) ∧
      (frame.channel ≠ expected_channel →
        amqp_simple_wait_method X state expected_channel expected_method output = .abort) ∧
      (frame.channel = expected_channel → frame.frame_type ≠ X.AMQP_FRAME_METHOD →
        amqp_simple_wait_method X state expected_channel expected_method output = .abort) ∧
      (frame.channel = expected_channel → frame.frame_type = X.AMQP_FRAME_METHOD →
        frame.payload.as_method.id ≠ expected_method →
        amqp_simple_wait_method X state expected_channel expected_method output = .abort)) ∧
    (∀ (state2 : amqp_connection_state_t σ),
      (amqp_simple_wait_frame X state2 amqp_frame_t.indeterminate = .abort →
        amqp_simple_wait_method X state2 expected_channel expected_method output = .abort) ∧
      (amqp_simple_wait_frame X state2 amqp_frame_t.indeterminate = .diverge →
        amqp_simple_wait_method X state2 expected_channel expected_method output =
          .diverge)) := by
  have heq : amqp_simple_wait_method X state expected_channel expected_method output =
      if res < 0 then .done (res, output, st)
      else if frame.channel ≠ expected_channel then .abort
      else if frame.frame_type ≠ X.AMQP_FRAME_METHOD then .abort
      else if frame.payload.as_method.id ≠ expected_method then .abort
      else .done (0, frame.payload.as_method, st) := by
    unfold amqp_simple_wait_method
    rw [hw]
  refine ⟨?_, ?_, ?_⟩
  · intro h
    rw [heq, if_pos h]
  · intro h
    rw [heq, if_neg h]
    by_cases h1 : frame.channel = expected_channel
    · by_cases h2 : frame.frame_type = X.AMQP_FRAME_METHOD
      · by_cases h3 : frame.payload.as_method.id = expected_method
        · simp [h1, h2, h3]
        · simp [h1, h2, h3]
      · simp [h1, h2]
    · simp [h1]
  · intro state2
    constructor
    · intro h
      unfold amqp_simple_wait_method
      rw [h]
    · intro h
      unfold amqp_simple_wait_method
      rw [h]

theorem wait_method_single_witness :
    amqp_simple_wait_method example_externals (example_state_at [example_recv_start] [] 0 0)
        0 655370 ⟨0, 0⟩ =
      .done (0, ⟨655370, 0⟩, example_state_at [] [1, 0, 0, 10, 0, 10] 6 6) ∧
    amqp_simple_wait_method example_externals (example_state_at [example_recv_other] [] 0 0)
        0 655370 ⟨0, 0⟩ = .abort := by
  have h1 : amqp_simple_wait_frame example_externals
      (example_state_at [example_recv_start] [] 0 0) amqp_frame_t.indeterminate =
      .done ⟨0, ⟨1, 0, .method ⟨655370, 0⟩⟩,
        example_state_at [] [1, 0, 0, 10, 0, 10] 6 6⟩ := by
    unfold amqp_simple_wait_frame
    rw [if_neg (by simp [example_state_at, example_state]), example_wait_start]
    rfl
  have h2 : amqp_simple_wait_frame example_externals
      (example_state_at [example_recv_other] [] 0 0) amqp_frame_t.indeterminate =
      .done ⟨0, ⟨1, 2, .method ⟨55, 0⟩⟩,
        example_state_at [] [1, 2, 0, 0, 0, 55] 6 6⟩ := by
    unfold amqp_simple_wait_frame
    rw [if_neg (by simp [example_state_at, example_state]), example_wait_other]
    rfl
  exact ⟨((wait_method_single example_externals _ 0 655370 ⟨0, 0⟩ 0 _ _ h1).2.1
      (by decide)).1.mp ⟨rfl, rfl, rfl⟩,
    ((wait_method_single example_externals _ 0 655370 ⟨0, 0⟩ 0 _ _ h2).2.1
      (by decide)).2.2.1 (by decide)⟩

/-! ## The reply cache -/

/-- The helper `amqp_simple_rpc_decoded` is `amqp_simple_rpc` with the reply list
`{reply_id, 0}`, followed by the store of the reply in the connection. -/
theorem amqp_simple_rpc_decoded_eq {σ : Type} (X : Externals σ)
    (state : amqp_connection_state_t σ) (channel request_id reply_id decoded : Nat) :
    amqp_simple_rpc_decoded X state channel request_id reply_id decoded =
      (amqp_simple_rpc X state channel request_id [reply_id, 0] decoded).map
        (fun r =>
          (if r.1.reply_type = .AMQP_RESPONSE_NORMAL then r.1.reply.decoded else 0,
            { r.2 with most_recent_api_result := r.1 })) := by
  unfold amqp_simple_rpc_decoded
  simp only
  cases amqp_simple_rpc X state channel request_id [reply_id, 0] decoded with
  | abort => rfl
  | diverge => rfl
  | done r =>
    obtain ⟨result, st⟩ := r
    simp only [Run.map]
    by_cases hn : result.reply_type = .AMQP_RESPONSE_NORMAL
    · rw [if_pos hn, if_pos hn]
    · rw [if_neg hn, if_neg hn]

/-- C21. Most-recent reply cache. When the call of `amqp_simple_rpc` that
`amqp_simple_rpc_decoded` makes, with the reply list `{reply_id, 0}`, returns
`reply`, the helper returns, `amqp_get_rpc_reply` on the connection it leaves gives
exactly `reply`, nothing else of the connection differs from what `amqp_simple_rpc`
left, and the pointer returned is the decoded payload of `reply` if its type is
NORMAL and `NULL` if it is SERVER_EXCEPTION, LIBRARY_EXCEPTION or anything else.
The helper returns only when that call of `amqp_simple_rpc` does. -/
theorem rpc_decoded_caches_reply {σ : Type} (X : Externals σ)
    (state : amqp_connection_state_t σ) (channel request_id reply_id decoded : Nat)
    (reply : amqp_rpc_reply_t) (state2 : amqp_connection_state_t σ)
    (h : amqp_simple_rpc X state channel request_id [reply_id, 0] decoded =
      .done (reply, state2)) :
    (∃ p state3,
      amqp_simple_rpc_decoded X state channel request_id reply_id decoded =
        .done (p, state3) ∧
      amqp_get_rpc_reply state3 = reply ∧
      state3 = { state2 with most_recent_api_result := reply } ∧
      (reply.reply_type = .AMQP_RESPONSE_NORMAL → p = reply.reply.decoded) ∧
      (reply.reply_type = .AMQP_RESPONSE_SERVER_EXCEPTION → p = 0) ∧
      (reply.reply_type = .AMQP_RESPONSE_LIBRARY_EXCEPTION → p = 0) ∧
      (reply.reply_type ≠ .AMQP_RESPONSE_NORMAL → p = 0)) ∧
    (∀ (st : amqp_connection_state_t σ) (reply_id2 : Nat) (p : Nat)
      (state3 : amqp_connection_state_t σ),
      amqp_simple_rpc_decoded X st channel request_id reply_id2 decoded =
        .done (p, state3) →
      ∃ st2, amqp_simple_rpc X st channel request_id [reply_id2, 0] decoded =
        .done (amqp_get_rpc_reply state3, st2)) := by
  constructor
  · refine ⟨if reply.reply_type = .AMQP_RESPONSE_NORMAL then reply.reply.decoded else 0,
      { state2 with most_recent_api_result := reply }, ?_, rfl, rfl, ?_, ?_, ?_, ?_⟩
    · rw [amqp_simple_rpc_decoded_eq, h]
      rfl
    · intro hn
      rw [if_pos hn]
    · intro hn
      rw [if_neg (by rw [hn]; decide)]
    · intro hn
      rw [if_neg (by rw [hn]; decide)]
    · intro hn
      rw [if_neg hn]
  · intro st reply_id2 p state3 hd
    rw [amqp_simple_rpc_decoded_eq] at hd
    cases hr : amqp_simple_rpc X st channel request_id [reply_id2, 0] decoded with
    | abort => rw [hr] at hd; simp [Run.map] at hd
    | diverge => rw [hr] at hd; simp [Run.map] at hd
    | done r =>
      rw [hr] at hd
      simp only [Run.map, Run.done.injEq, Prod.mk.injEq] at hd
      refine ⟨r.2, ?_⟩
      rw [← hd.2]
      rfl

theorem rpc_decoded_caches_reply_witness :
    ∃ state3,
      amqp_simple_rpc_decoded example_externals
        (example_state [example_recv_other, example_recv_reply]) 1 77 11 0 =
          .done (0, state3) ∧
      amqp_get_rpc_reply state3 = ⟨.AMQP_RESPONSE_NORMAL, ⟨11, 0⟩, 0⟩ := by
  obtain ⟨state2, _, hrun, _⟩ :=
    amqp_simple_rpc_routes example_externals
      (example_state [example_recv_other, example_recv_reply])
      1 77 [11, 0] 0 [⟨1, 2, .method ⟨55, 0⟩⟩] ⟨1, 1, .method ⟨11, 0⟩⟩ []
      (by decide) example_delivery_plain (by decide) (by decide) (example_queue_empty _)
      (by decide)
  obtain ⟨p, state3, h1, h2, _, h4, _⟩ :=
    (rpc_decoded_caches_reply example_externals
      (example_state [example_recv_other, example_recv_reply]) 1 77 11 0 _ state2 hrun).1
  have hp : p = 0 := h4 (by decide)
  rw [hp] at h1
  exact ⟨state3, h1, by rw [h2]; decide⟩

/-! ## The cursor of the socket buffer -/

/-- One pass of the consume loop of `wait_frame_inner`, started with unconsumed bytes:
`amqp_handle_input` gets the bytes from `sock_inbound_offset` to
`sock_inbound_limit`; a failure leaves the offset, any other count is added to it. -/
theorem wait_frame_inner_buffered_pass {σ : Type} (X : Externals σ)
    (state : amqp_connection_state_t σ) (frame : amqp_frame_t)
    (hd : amqp_data_in_buffer state = true) :
    wait_frame_inner_buffered X (state.sock_inbound_limit - state.sock_inbound_offset)
        state frame =
      (let r := X.amqp_handle_input state.core
        { len := state.sock_inbound_limit - state.sock_inbound_offset
          data := (state.sock_inbound_buffer.drop state.sock_inbound_offset).take
            (state.sock_inbound_limit - state.sock_inbound_offset) }
      if r.1 < 0 then .done (some r.1, r.2.1, { state with core := r.2.2 })
      else if r.2.1.frame_type ≠ 0 then
        .done (some 0, r.2.1,
          { state with
            core := r.2.2
            sock_inbound_offset := state.sock_inbound_offset + r.1.toNat })
      else if r.1 = 0 then .abort
      else
        wait_frame_inner_buffered X
          (state.sock_inbound_limit - (state.sock_inbound_offset + r.1.toNat))
          { state with
            core := r.2.2
            sock_inbound_offset := state.sock_inbound_offset + r.1.toNat } r.2.1) := by
  have hlt : state.sock_inbound_offset < state.sock_inbound_limit := by
    simpa [amqp_data_in_buffer] using hd
  obtain ⟨k, hk⟩ : ∃ k, state.sock_inbound_limit - state.sock_inbound_offset = k + 1 :=
    ⟨state.sock_inbound_limit - state.sock_inbound_offset - 1, by omega⟩
  simp only
  generalize hr : X.amqp_handle_input state.core
    { len := state.sock_inbound_limit - state.sock_inbound_offset
      data := (state.sock_inbound_buffer.drop state.sock_inbound_offset).take
        (state.sock_inbound_limit - state.sock_inbound_offset) } = r
  rw [hk]
  conv_lhs => unfold wait_frame_inner_buffered
  rw [if_pos hd]
  simp only
  rw [hr]
  by_cases h1 : r.1 < 0
  · rw [if_pos h1, if_pos h1]
  · rw [if_neg h1, if_neg h1]
    by_cases h3 : r.2.1.frame_type ≠ 0
    · rw [if_pos h3, if_pos h3]
    · rw [if_neg h3, if_neg h3]
      by_cases h4 : r.1 = 0
      · rw [if_pos h4, if_pos h4]
      · rw [if_neg h4, if_neg h4]
        apply wait_frame_inner_buffered_fuel
        · show state.sock_inbound_limit - (state.sock_inbound_offset + r.1.toNat) ≤ k
          omega
        · exact Nat.le_refl _

/-- When `amqp_handle_input` reports a failure or a count within the buffer it was
given, the consume loop keeps the cursor in range. -/
theorem wait_frame_inner_buffered_cursor {σ : Type} (X : Externals σ)
    (hinput : ∀ core buffer, (X.amqp_handle_input core buffer).1 < 0 ∨
      (0 ≤ (X.amqp_handle_input core buffer).1 ∧
        (X.amqp_handle_input core buffer).1 ≤ buffer.len)) :
    ∀ (fuel : Nat) (state : amqp_connection_state_t σ) (frame : amqp_frame_t)
      (o : Option Int) (f : amqp_frame_t) (st : amqp_connection_state_t σ),
      cursor_in_range state →
      wait_frame_inner_buffered X fuel state frame = .done (o, f, st) →
      cursor_in_range st ∧ st.sock_inbound_buffer_len = state.sock_inbound_buffer_len := by
  intro fuel
  induction fuel with
  | zero =>
    intro state frame o f st hinv h
    unfold wait_frame_inner_buffered at h
    by_cases hd : amqp_data_in_buffer state = true
    · simp [hd] at h
    · rw [if_neg hd] at h
      simp only [Run.done.injEq, Prod.mk.injEq] at h
      obtain ⟨_, _, rfl⟩ := h
      exact ⟨hinv, rfl⟩
  | succ n ih =>
    intro state frame o f st hinv h
    unfold wait_frame_inner_buffered at h
    by_cases hd : amqp_data_in_buffer state = true
    · rw [if_pos hd] at h
      simp only at h
      have hin := hinput state.core
        { len := state.sock_inbound_limit - state.sock_inbound_offset
          data := (state.sock_inbound_buffer.drop state.sock_inbound_offset).take
            (state.sock_inbound_limit - state.sock_inbound_offset) }
      generalize X.amqp_handle_input state.core _ = r at h hin
      by_cases h1 : r.1 < 0
      · rw [if_pos h1] at h
        simp only [Run.done.injEq, Prod.mk.injEq] at h
        obtain ⟨_, _, rfl⟩ := h
        exact ⟨hinv, rfl⟩
      · rw [if_neg h1] at h
        have hle : r.1 ≤ ((state.sock_inbound_limit - state.sock_inbound_offset : Nat) : Int) := by
          rcases hin with h5 | h5
          · exact absurd h5 h1
          · exact h5.2
        have hinv2 : cursor_in_range
            { state with
              core := r.2.2
              sock_inbound_offset := state.sock_inbound_offset + r.1.toNat } := by
          obtain ⟨ha, hb⟩ := hinv
          refine ⟨?_, hb⟩
          show state.sock_inbound_offset + r.1.toNat ≤ state.sock_inbound_limit
          omega
        by_cases h3 : r.2.1.frame_type ≠ 0
        · rw [if_pos h3] at h
          simp only [Run.done.injEq, Prod.mk.injEq] at h
          obtain ⟨_, _, rfl⟩ := h
          exact ⟨hinv2, rfl⟩
        · rw [if_neg h3] at h
          by_cases h4 : r.1 = 0
          · rw [if_pos h4] at h
            simp at h
          · rw [if_neg h4] at h
            exact ih
              { state with
                core := r.2.2
                sock_inbound_offset := state.sock_inbound_offset + r.1.toNat }
              _ _ _ _ hinv2 h
    · rw [if_neg hd] at h
      simp only [Run.done.injEq, Prod.mk.injEq] at h
      obtain ⟨_, _, rfl⟩ := h
      exact ⟨hinv, rfl⟩

/-- The consume loop does not run for ever, whatever `amqp_handle_input` does: its
bound on the passes is never reached. -/
theorem wait_frame_inner_buffered_ends {σ : Type} (X : Externals σ) :
    ∀ (fuel : Nat) (state : amqp_connection_state_t σ) (frame : amqp_frame_t),
      state.sock_inbound_limit - state.sock_inbound_offset ≤ fuel →
      wait_frame_inner_buffered X fuel state frame ≠ .diverge := by
  intro fuel
  induction fuel with
  | zero =>
    intro state frame hf
    have hno : ¬ amqp_data_in_buffer state = true := by
      simp only [amqp_data_in_buffer, decide_eq_true_eq]
      omega
    unfold wait_frame_inner_buffered
    rw [if_neg hno]
    simp
  | succ n ih =>
    intro state frame hf
    unfold wait_frame_inner_buffered
    by_cases hd : amqp_data_in_buffer state = true
    · have hlt : state.sock_inbound_offset < state.sock_inbound_limit := by
        simpa [amqp_data_in_buffer] using hd
      rw [if_pos hd]
      simp only
      generalize X.amqp_handle_input state.core _ = r
      by_cases h1 : r.1 < 0
      · rw [if_pos h1]
        simp
      · rw [if_neg h1]
        by_cases h3 : r.2.1.frame_type ≠ 0
        · rw [if_pos h3]
          simp
        · rw [if_neg h3]
          by_cases h4 : r.1 = 0
          · rw [if_pos h4]
            simp
          · rw [if_neg h4]
            apply ih
            show state.sock_inbound_limit - (state.sock_inbound_offset + r.1.toNat) ≤ n
            omega
    · rw [if_neg hd]
      simp

/-- When every call of `amqp_handle_input` on a buffer that is not empty either
fails, completes a frame or consumes at least one byte, the consume loop returns. -/
theorem wait_frame_inner_buffered_returns {σ : Type} (X : Externals σ)
    (hprogress : ∀ core (buffer : received_data), 0 < buffer.len →
      ¬ (X.amqp_handle_input core buffer).1 < 0 →
      (X.amqp_handle_input core buffer).2.1.frame_type = 0 →
      0 < (X.amqp_handle_input core buffer).1) :
    ∀ (fuel : Nat) (state : amqp_connection_state_t σ) (frame : amqp_frame_t),
      state.sock_inbound_limit - state.sock_inbound_offset ≤ fuel →
      ∃ a, wait_frame_inner_buffered X fuel state frame = .done a := by
  intro fuel
  induction fuel with
  | zero =>
    intro state frame hf
    have hno : ¬ amqp_data_in_buffer state = true := by
      simp only [amqp_data_in_buffer, decide_eq_true_eq]
      omega
    unfold wait_frame_inner_buffered
    rw [if_neg hno]
    exact ⟨_, rfl⟩
  | succ n ih =>
    intro state frame hf
    unfold wait_frame_inner_buffered
    by_cases hd : amqp_data_in_buffer state = true
    · have hlt : state.sock_inbound_offset < state.sock_inbound_limit := by
        simpa [amqp_data_in_buffer] using hd
      rw [if_pos hd]
      simp only
      have hp := hprogress state.core
        { len := state.sock_inbound_limit - state.sock_inbound_offset
          data := (state.sock_inbound_buffer.drop state.sock_inbound_offset).take
            (state.sock_inbound_limit - state.sock_inbound_offset) }
        (by show 0 < state.sock_inbound_limit - state.sock_inbound_offset; omega)
      generalize X.amqp_handle_input state.core _ = r at hp
      by_cases h1 : r.1 < 0
      · rw [if_pos h1]
        exact ⟨_, rfl⟩
      · rw [if_neg h1]
        by_cases h3 : r.2.1.frame_type ≠ 0
        · rw [if_pos h3]
          exact ⟨_, rfl⟩
        · rw [if_neg h3]
          have hpos := hp h1 (by simpa using h3)
          rw [if_neg (by omega)]
          apply ih
          show state.sock_inbound_limit - (state.sock_inbound_offset + r.1.toNat) ≤ n
          omega
    · rw [if_neg hd]
      exact ⟨_, rfl⟩

/-- When `amqp_handle_input` reports a failure or a count within the buffer it was
given and `recv` returns at most the capacity of the socket buffer, the loop of
`wait_frame_inner` keeps the cursor in range: in the connection it returns and in
the connection at each call of `recv`. -/
theorem wait_frame_inner_traced_cursor {σ : Type} (X : Externals σ)
    (hinput : ∀ core buffer, (X.amqp_handle_input core buffer).1 < 0 ∨
      (0 ≤ (X.amqp_handle_input core buffer).1 ∧
        (X.amqp_handle_input core buffer).1 ≤ buffer.len))
    (transport : List recv_event) (state : amqp_connection_state_t σ) (frame : amqp_frame_t)
    (hrecv : ∀ ev ∈ transport, ev.res ≤ state.sock_inbound_buffer_len)
    (hinv : cursor_in_range state) :
    (∀ r, (wait_frame_inner_traced X transport state frame).1 = .done r →
      cursor_in_range r.state) ∧
    (∀ s ∈ (wait_frame_inner_traced X transport state frame).2, cursor_in_range s) := by
  induction transport generalizing state frame with
  | nil =>
    unfold wait_frame_inner_traced
    cases hb : wait_frame_inner_buffered X
      (state.sock_inbound_limit - state.sock_inbound_offset) state frame with
    | abort => simp
    | diverge => simp
    | done a =>
      obtain ⟨res, fr, st⟩ := a
      have hc := (wait_frame_inner_buffered_cursor X hinput _ _ _ _ _ _ hinv hb).1
      cases res with
      | some v =>
        simp only [Run.done.injEq, List.not_mem_nil, false_implies, implies_true, and_true]
        intro r hr
        rw [← hr]
        exact hc
      | none =>
        refine ⟨fun r hr => by simp at hr, ?_⟩
        intro s hs
        simp only [List.mem_singleton] at hs
        rw [hs]
        exact hc
  | cons ev rest ih =>
    unfold wait_frame_inner_traced
    cases hb : wait_frame_inner_buffered X
      (state.sock_inbound_limit - state.sock_inbound_offset) state frame with
    | abort => simp
    | diverge => simp
    | done a =>
      obtain ⟨res, fr, st⟩ := a
      obtain ⟨hc, hlen⟩ := wait_frame_inner_buffered_cursor X hinput _ _ _ _ _ _ hinv hb
      cases res with
      | some v =>
        simp only [Run.done.injEq, List.not_mem_nil, false_implies, implies_true, and_true]
        intro r hr
        rw [← hr]
        exact hc
      | none =>
        simp only
        by_cases h1 : ev.res ≤ 0
        · rw [if_pos h1]
          by_cases h2 : ev.res = 0
          · rw [if_pos h2]
            simp only [Run.done.injEq, List.mem_singleton, forall_eq]
            refine ⟨?_, hc⟩
            intro r hr
            rw [← hr]
            exact hc
          · rw [if_neg h2]
            simp only [Run.done.injEq, List.mem_singleton, forall_eq]
            refine ⟨?_, hc⟩
            intro r hr
            rw [← hr]
            exact hc
        · rw [if_neg h1]
          have hev := hrecv ev (List.mem_cons_self _ _)
          have hnew : cursor_in_range
              { st with
                transport := rest
                sock_inbound_buffer := ev.data ++ st.sock_inbound_buffer.drop ev.data.length
                sock_inbound_limit := ev.res.toNat
                sock_inbound_offset := 0 } := by
            refine ⟨Nat.zero_le _, ?_⟩
            show ev.res.toNat ≤ st.sock_inbound_buffer_len
            rw [hlen]
            omega
          have hrest : ∀ e ∈ rest, e.res ≤
              ({ st with
                transport := rest
                sock_inbound_buffer := ev.data ++ st.sock_inbound_buffer.drop ev.data.length
                sock_inbound_limit := ev.res.toNat
                sock_inbound_offset := 0 } : amqp_connection_state_t σ).sock_inbound_buffer_len := by
            intro e he
            show e.res ≤ st.sock_inbound_buffer_len
            rw [hlen]
            exact hrecv e (List.mem_cons_of_mem _ he)
          obtain ⟨g1, g2⟩ := ih _ fr hrest hnew
          refine ⟨g1, ?_⟩
          intro s hs
          rcases List.mem_cons.mp hs with h | h
          · rw [h]
            exact hc
          · exact g2 s h

/-- C24. Socket-buffer cursor invariant. Assume that `amqp_handle_input` returns a
negative value or a count between 0 and the length of the buffer it was given
(`hinput`), that `recv` returns at most the capacity of the socket buffer (`hrecv`),
and that the cursor is in range when `wait_frame_inner` is called (`hinv`). Then
`sock_inbound_offset <= sock_inbound_limit <= sock_inbound_buffer.len` holds in the
connection `wait_frame_inner` returns, in the connection at each of its calls of
`recv`, and in the connection the consume loop leaves. Each pass of the consume loop
gives `amqp_handle_input` exactly the bytes from `sock_inbound_offset` to
`sock_inbound_limit`, leaves the offset when the call fails and adds the reported
count to it otherwise. The consume loop never runs for ever, and when a call that
completes no frame consumes at least one byte it returns (the `assert` holds). -/
theorem socket_cursor_invariant {σ : Type} (X : Externals σ)
    (state : amqp_connection_state_t σ) (frame : amqp_frame_t)
    (hinput : ∀ core buffer, (X.amqp_handle_input core buffer).1 < 0 ∨
      (0 ≤ (X.amqp_handle_input core buffer).1 ∧
        (X.amqp_handle_input core buffer).1 ≤ buffer.len))
    (hrecv : ∀ ev ∈ state.transport, ev.res ≤ state.sock_inbound_buffer_len)
    (hinv : cursor_in_range state) :
    (∀ r, wait_frame_inner X state frame = .done r →
      r.state.sock_inbound_offset ≤ r.state.sock_inbound_limit ∧
      r.state.sock_inbound_limit ≤ r.state.sock_inbound_buffer_len) ∧
    (∀ s ∈ wait_frame_inner_recv_states X state frame,
      s.sock_inbound_offset ≤ s.sock_inbound_limit ∧
      s.sock_inbound_limit ≤ s.sock_inbound_buffer_len) ∧
    (∀ o f st,
      wait_frame_inner_buffered X (state.sock_inbound_limit - state.sock_inbound_offset)
        state frame = .done (o, f, st) →
      st.sock_inbound_offset ≤ st.sock_inbound_limit ∧
      st.sock_inbound_limit ≤ st.sock_inbound_buffer_len) ∧
    (amqp_data_in_buffer state = true →
      wait_frame_inner_buffered X (state.sock_inbound_limit - state.sock_inbound_offset)
          state frame =
        (let r := X.amqp_handle_input state.core
          { len := state.sock_inbound_limit - state.sock_inbound_offset
            data := (state.sock_inbound_buffer.drop state.sock_inbound_offset).take
              (state.sock_inbound_limit - state.sock_inbound_offset) }
        if r.1 < 0 then .done (some r.1, r.2.1, { state with core := r.2.2 })
        else if r.2.1.frame_type ≠ 0 then
          .done (some 0, r.2.1,
            { state with
              core := r.2.2
              sock_inbound_offset := state.sock_inbound_offset + r.1.toNat })
        else if r.1 = 0 then .abort
        else
          wait_frame_inner_buffered X
            (state.sock_inbound_limit - (state.sock_inbound_offset + r.1.toNat))
            { state with
              core := r.2.2
              sock_inbound_offset := state.sock_inbound_offset + r.1.toNat } r.2.1)) ∧
    (amqp_data_in_buffer state = false →
      wait_frame_inner_buffered X (state.sock_inbound_limit - state.sock_inbound_offset)
        state frame = .done (none, frame, state)) ∧
    wait_frame_inner_buffered X (state.sock_inbound_limit - state.sock_inbound_offset)
      state frame ≠ .diverge ∧
    ((∀ core (buffer : received_data), 0 < buffer.len →
        ¬ (X.amqp_handle_input core buffer).1 < 0 →
        (X.amqp_handle_input core buffer).2.1.frame_type = 0 →
        0 < (X.amqp_handle_input core buffer).1) →
      ∃ a, wait_frame_inner_buffered X
        (state.sock_inbound_limit - state.sock_inbound_offset) state frame = .done a) := by
  have ht := wait_frame_inner_traced_cursor X hinput state.transport state frame hrecv hinv
  refine ⟨?_, ?_, ?_, ?_, ?_, ?_, ?_⟩
  · intro r h
    apply ht.1
    rw [wait_frame_inner_traced_result]
    exact h
  · exact ht.2
  · intro o f st h
    exact (wait_frame_inner_buffered_cursor X hinput _ _ _ _ _ _ hinv h).1
  · exact wait_frame_inner_buffered_pass X state frame
  · exact wait_frame_inner_buffered_empty X _ state frame
  · exact wait_frame_inner_buffered_ends X _ state frame (Nat.le_refl _)
  · intro hprogress
    exact wait_frame_inner_buffered_returns X hprogress _ state frame (Nat.le_refl _)

/-- The example state machine reports a count within the buffer it was given. -/
theorem example_handle_input_count (core : List Nat) (buffer : received_data) :
    (example_externals.amqp_handle_input core buffer).1 < 0 ∨
      (0 ≤ (example_externals.amqp_handle_input core buffer).1 ∧
        (example_externals.amqp_handle_input core buffer).1 ≤ buffer.len) := by
  right
  simp only [example_externals, example_handle_input]
  split <;> simp

theorem socket_cursor_invariant_witness :
    wait_frame_inner example_externals (example_state_at [example_recv_other] [] 0 0)
        amqp_frame_t.indeterminate =
      .done ⟨0, ⟨1, 2, .method ⟨55, 0⟩⟩,
        example_state_at [] ([1, 2, 0, 0, 0, 55] ++ ([] : List Nat).drop 6) 6 6⟩ ∧
    (6 : Nat) ≤ 6 ∧ (6 : Nat) ≤ 64 :=
  ⟨example_wait_other [] [] 0 amqp_frame_t.indeterminate,
    (socket_cursor_invariant example_externals (example_state_at [example_recv_other] [] 0 0)
      amqp_frame_t.indeterminate example_handle_input_count
      (by simp [example_state_at, example_state, example_recv_other])
      (by decide)).1 _ (example_wait_other [] [] 0 amqp_frame_t.indeterminate)⟩

/-! ## Head and tail of the queue -/

/-- The last link of a chain has a null `next`. -/
theorem queue_chain_last_next (links : Nat → amqp_link_t) (p : Nat) (ptrs : List Nat)
    (h : queue_chain links p ptrs) (hne : ptrs ≠ []) :
    (links (ptrs.getLastD 0)).next = 0 := by
  induction ptrs generalizing p with
  | nil => exact absurd rfl hne
  | cons a as ih =>
    obtain ⟨_, _, ht⟩ := h
    cases as with
    | nil => exact ht
    | cons b bs =>
      have hl : (a :: b :: bs).getLastD 0 = (b :: bs).getLastD 0 := by
        simp [List.getLastD_cons]
      rw [hl]
      exact ih _ ht (List.cons_ne_nil _ _)

/-- The last link of a chain is reached from its first link by following `next`, one
step less often than the chain has links. -/
theorem queue_chain_reaches (links : Nat → amqp_link_t) (p : Nat) (ptrs : List Nat)
    (h : queue_chain links p ptrs) (hne : ptrs ≠ []) :
    (fun q => (links q).next)^[ptrs.length - 1] p = ptrs.getLastD 0 := by
  induction ptrs generalizing p with
  | nil => exact absurd rfl hne
  | cons a as ih =>
    obtain ⟨hp, _, ht⟩ := h
    cases as with
    | nil =>
      simp [hp]
    | cons b bs =>
      have hl : (a :: b :: bs).getLastD 0 = (b :: bs).getLastD 0 := by
        simp [List.getLastD_cons]
      have hn : (a :: b :: bs).length - 1 = ((b :: bs).length - 1) + 1 := by simp
      rw [hl, hn, Function.iterate_succ_apply, hp]
      exact ih _ ht (List.cons_ne_nil _ _)

/-- The head pointer is null exactly when the queue holds no link. -/
theorem queue_holds_first_eq_zero {σ : Type} (state : amqp_connection_state_t σ)
    (ptrs : List Nat) (h : queue_holds state ptrs) :
    state.first_queued_frame = 0 ↔ ptrs = [] := by
  cases ptrs with
  | nil => exact ⟨fun _ => rfl, fun _ => h.chain⟩
  | cons a as =>
    have := queue_holds_cons_first state a as h
    constructor
    · intro h0
      exact absurd (this.1 ▸ h0) this.2
    · intro h0
      exact absurd h0 (List.cons_ne_nil _ _)

/-- C23. Queue head/tail invariant. In the connection left by any sequence of calls
of `amqp_simple_rpc` and `amqp_simple_wait_frame` that return, started with an empty
queue (both pointers null; the pool does not hand out the null address):
`first_queued_frame` is null exactly when `last_queued_frame` is; when it is not
null, `last_queued_frame` is reached from `first_queued_frame` by following `next`
and its own `next` is null; the links from head to tail are a well-formed queue, and
`amqp_frames_enqueued` is true exactly when that queue holds at least one link. A
wait on a queue of one link leaves both pointers null. -/
theorem queue_head_tail_invariant {σ : Type} (X : Externals σ) (calls : List api_call)
    (state state2 : amqp_connection_state_t σ) (dequeued queued : List amqp_frame_t)
    (hfirst : state.first_queued_frame = 0) (hlast : state.last_queued_frame = 0)
    (hpool : 0 < state.decoding_pool.next)
    (hrun : run_calls X calls state = some (state2, dequeued, queued)) :
    (state2.first_queued_frame = 0 ↔ state2.last_queued_frame = 0) ∧
    (state2.last_queued_frame ≠ 0 →
      (∃ n, (fun q => (state2.links q).next)^[n] state2.first_queued_frame =
        state2.last_queued_frame) ∧
      (state2.links state2.last_queued_frame).next = 0) ∧
    (∃ ptrs, queue_holds state2 ptrs ∧
      (amqp_frames_enqueued state2 = true ↔ 0 < ptrs.length) ∧
      dequeued ++ queue_frames state2 ptrs = queued) ∧
    (∀ ptrs, queue_holds state2 ptrs → (amqp_frames_enqueued state2 = true ↔ ptrs ≠ [])) ∧
    (∀ (st : amqp_connection_state_t σ) (p : Nat) (frame : amqp_frame_t),
      queue_holds st [p] →
      ∃ r, amqp_simple_wait_frame X st frame = .done r ∧
        r.state.first_queued_frame = 0 ∧ r.state.last_queued_frame = 0) := by
  have hq0 : queue_holds state [] := ⟨hfirst, hlast, List.nodup_nil, by simp, hpool⟩
  obtain ⟨ptrs, hq, hfr⟩ := run_calls_fifo X calls state [] state2 dequeued queued hq0 hrun
  have hf := queue_holds_first_eq_zero state2 ptrs hq
  have hl := queue_holds_last_eq_zero state2 ptrs hq
  have hen : ∀ ptrs2, queue_holds state2 ptrs2 →
      (amqp_frames_enqueued state2 = true ↔ ptrs2 ≠ []) := by
    intro ptrs2 hq2
    have := queue_holds_first_eq_zero state2 ptrs2 hq2
    unfold amqp_frames_enqueued
    simp only [bne_iff_ne, ne_eq]
    exact not_congr this
  refine ⟨hf.trans hl.symm, ?_, ⟨ptrs, hq, ?_, ?_⟩, hen, ?_⟩
  · intro hne
    have hp : ptrs ≠ [] := fun h => hne (hl.mpr h)
    constructor
    · refine ⟨ptrs.length - 1, ?_⟩
      rw [hq.last]
      exact queue_chain_reaches state2.links _ ptrs hq.chain hp
    · rw [hq.last]
      exact queue_chain_last_next state2.links _ ptrs hq.chain hp
  · rw [hen ptrs hq, List.length_pos]
  · simpa [queue_frames] using hfr
  · intro st p frame hq1
    obtain ⟨st2, hw, hq2, _⟩ := amqp_simple_wait_frame_dequeues X st frame p [] hq1
    exact ⟨_, hw, hq2.chain, hq2.last⟩

theorem queue_head_tail_invariant_witness :
    ∃ state2 dequeued queued,
      run_calls example_externals [.simple_rpc 1 77 [11, 0] 0]
          (example_state [example_recv_other, example_recv_reply]) =
        some (state2, dequeued, queued) ∧
      (state2.first_queued_frame = 0 ↔ state2.last_queued_frame = 0) ∧
      amqp_frames_enqueued state2 = true := by
  obtain ⟨state2, new, hrun, hlen, hq, _⟩ :=
    amqp_simple_rpc_routes example_externals
      (example_state [example_recv_other, example_recv_reply])
      1 77 [11, 0] 0 [⟨1, 2, .method ⟨55, 0⟩⟩] ⟨1, 1, .method ⟨11, 0⟩⟩ []
      (by decide) example_delivery_plain (by decide) (by decide) (example_queue_empty _)
      (by decide)
  have hcalls : run_calls example_externals [.simple_rpc 1 77 [11, 0] 0]
      (example_state [example_recv_other, example_recv_reply]) =
      some (state2, [],
        amqp_simple_rpc_queued example_externals
          (example_state [example_recv_other, example_recv_reply]) 1 77 [11, 0] 0 ++ []) := by
    simp only [run_calls, hrun]
  have h := queue_head_tail_invariant example_externals [.simple_rpc 1 77 [11, 0] 0]
    (example_state [example_recv_other, example_recv_reply]) state2 [] _ rfl rfl
    (by decide) hcalls
  refine ⟨state2, _, _, hcalls, h.1, ?_⟩
  apply (h.2.2.2.1 _ hq).mpr
  intro hnil
  have : new = [] := by simpa using hnil
  rw [this] at hlen
  simp at hlen

/-! ## Shifts and masks on bytes -/

set_option maxRecDepth 100000 in
theorem byte_shift_right_2 : ∀ c < 256, c >>> 2 = c / 4 := by decide

set_option maxRecDepth 100000 in
theorem byte_mask_30 : ∀ c < 256, ((c <<< 4) &&& 0x30) % 256 = c % 4 * 16 := by decide

set_option maxRecDepth 100000 in
theorem byte_mask_3C : ∀ c < 256, ((c <<< 2) &&& 0x3C) % 256 = c % 16 * 4 := by decide

set_option maxRecDepth 100000 in
theorem byte_mask_3F : ∀ c < 256, c &&& 0x3F = c % 64 := by decide

set_option maxRecDepth 100000 in
theorem byte_or_high_4 : ∀ a < 4, ∀ c < 256, ((a * 16) ||| (c >>> 4)) % 256 = a * 16 + c / 16 := by
  decide

set_option maxRecDepth 100000 in
theorem byte_or_high_6 : ∀ a < 16, ∀ c < 256, ((a * 4) ||| (c >>> 6)) % 256 = a * 4 + c / 64 := by
  decide

/-- The characters of `b64string` are those of the alphabet of RFC 4648. -/
theorem b64string_alphabet : ∀ i < 64, b64string.getD i 0 = rfc4648_alphabet i := by decide

/-! ## Memory -/

theorem mem_store_nil (m : Mem) (dst : Nat) : mem_store m dst [] = m := by
  funext a
  simp [mem_store]

theorem mem_store_append (m : Mem) (dst : Nat) (xs ys : List Nat) :
    mem_store (mem_store m dst xs) (dst + xs.length) ys = mem_store m dst (xs ++ ys) := by
  funext a
  simp only [mem_store, List.length_append]
  by_cases h1 : dst + xs.length ≤ a ∧ a < dst + xs.length + ys.length
  · rw [if_pos h1, if_pos (by omega)]
    have : a - dst = xs.length + (a - (dst + xs.length)) := by omega
    rw [this, List.getD_append_right _ _ _ _ (by omega)]
    congr 1
    omega
  · rw [if_neg h1]
    by_cases h2 : dst ≤ a ∧ a < dst + xs.length
    · rw [if_pos h2, if_pos (by omega), List.getD_append _ _ _ _ (by omega)]
    · rw [if_neg h2, if_neg (by omega)]

theorem mem_load_zero (m : Mem) (src : Nat) : mem_load m src 0 = [] := by
  simp [mem_load]

theorem mem_load_succ (m : Mem) (src n : Nat) :
    mem_load m src (n + 1) = m src :: mem_load m (src + 1) n := by
  simp only [mem_load, List.range_succ_eq_map, List.map_cons, List.map_map, Nat.add_zero]
  congr 1
  apply List.map_congr_left
  intro i _
  simp only [Function.comp_apply]
  congr 1
  omega

theorem mem_load_congr (m m2 : Mem) (src n : Nat) (h : ∀ i < n, m2 (src + i) = m (src + i)) :
    mem_load m2 src n = mem_load m src n := by
  simp only [mem_load]
  apply List.map_congr_left
  intro i hi
  exact h i (List.mem_range.mp hi)

theorem mem_load_getD (m : Mem) (src n i : Nat) (hi : i < n) :
    (mem_load m src n).getD i 0 = m (src + i) := by
  simp [mem_load, List.getD_eq_getElem?_getD, hi]

/-! ## The loop of `base64_encode` -/

/-- The four 6-bit values of a group of three bytes, as the shifts and masks of the
loop compute them. -/
theorem rfc4648_group (c0 c1 c2 : Nat) (h0 : c0 < 256) (h1 : c1 < 256) (h2 : c2 < 256) :
    (c0 * 65536 + c1 * 256 + c2) / 262144 % 64 = c0 / 4 ∧
    (c0 * 65536 + c1 * 256 + c2) / 4096 % 64 = c0 % 4 * 16 + c1 / 16 ∧
    (c0 * 65536 + c1 * 256 + c2) / 64 % 64 = c1 % 16 * 4 + c2 / 64 ∧
    (c0 * 65536 + c1 * 256 + c2) % 64 = c2 % 64 := by
  omega

theorem mem_store_one_other (m : Mem) (dst x a : Nat) (h : a ≠ dst) :
    mem_store m dst [x] a = m a :=
  mem_store_outside m dst [x] a (by simp; omega)

/-- One pass of the loop of `base64_encode` on three bytes that the pass does not
overwrite before it reads them: it writes the four characters of the group. -/
theorem base64_encode_loop_pass (m : Mem) (fromp top len : Nat) (h : 3 ≤ len)
    (h0 : m fromp < 256) (h1 : m (fromp + 1) < 256) (h2 : m (fromp + 2) < 256)
    (hd : top + 3 ≤ fromp + 1 ∨ fromp + 3 ≤ top) :
    base64_encode_loop m fromp top len =
      base64_encode_loop
        (mem_store m top
          (rfc4648_encode [m fromp, m (fromp + 1), m (fromp + 2)]))
        (fromp + 3) (top + 4) (len - 3) := by
  have e1 : fromp + 1 ≠ top := by omega
  have e2 : fromp + 1 + 1 ≠ top := by omega
  have e3 : fromp + 1 + 1 ≠ top + 1 := by omega
  have g := rfc4648_group (m fromp) (m (fromp + 1)) (m (fromp + 2)) h0 h1 h2
  have hq : rfc4648_encode [m fromp, m (fromp + 1), m (fromp + 2)] =
      [rfc4648_alphabet (m fromp / 4),
        rfc4648_alphabet (m fromp % 4 * 16 + m (fromp + 1) / 16),
        rfc4648_alphabet (m (fromp + 1) % 16 * 4 + m (fromp + 2) / 64),
        rfc4648_alphabet (m (fromp + 2) % 64)] := by
    simp only [rfc4648_encode, g.1, g.2.1, g.2.2.1, g.2.2.2]
  rw [base64_encode_loop, dif_pos h]
  simp only [mem_store_one_other _ _ _ _ e1, mem_store_one_other _ _ _ _ e2,
    mem_store_one_other _ _ _ _ e3, Nat.mod_eq_of_lt h0, Nat.mod_eq_of_lt h1]
  have h2' : m (fromp + 1 + 1) < 256 := h2
  rw [Nat.mod_eq_of_lt h2']
  rw [byte_shift_right_2 _ h0, byte_mask_30 _ h0,
    byte_or_high_4 _ (Nat.mod_lt _ (by decide)) _ h1, byte_mask_3C _ h1,
    byte_or_high_6 _ (Nat.mod_lt _ (by decide)) _ h2', byte_mask_3F _ h2']
  rw [b64string_alphabet _ (by omega), b64string_alphabet _ (by omega),
    b64string_alphabet _ (by omega), b64string_alphabet _ (by omega)]
  have hs : ∀ (a b c d : Nat),
      mem_store (mem_store (mem_store (mem_store m top [a]) (top + 1) [b]) (top + 1 + 1) [c])
        (top + 1 + 1 + 1) [d] = mem_store m top [a, b, c, d] := by
    intro a b c d
    have s1 := mem_store_append m top [a] [b]
    have s2 := mem_store_append m top [a, b] [c]
    have s3 := mem_store_append m top [a, b, c] [d]
    simp only [List.length_cons, List.length_nil, List.cons_append, List.nil_append,
      Nat.zero_add] at s1 s2 s3
    rw [s1, s2, s3]
  rw [hs, hq]

/-- The loop of `base64_encode` on `3 * k + r` bytes, `r < 3`, that lie apart from the
place of the output: it writes the encoding of the first `3 * k` bytes and leaves
`r` bytes to the tail. -/
theorem base64_encode_loop_spec :
    ∀ (k r : Nat) (m : Mem) (fromp top : Nat), r < 3 →
      (∀ i < 3 * k, m (fromp + i) < 256) →
      (top + 4 * k ≤ fromp ∨ fromp + 3 * k ≤ top) →
      base64_encode_loop m fromp top (3 * k + r) =
        (mem_store m top (rfc4648_encode (mem_load m fromp (3 * k))),
          fromp + 3 * k, top + 4 * k, r) := by
  intro k
  induction k with
  | zero =>
    intro r m fromp top hr _ _
    rw [base64_encode_loop, dif_neg (by omega)]
    simp [mem_load_zero, rfc4648_encode, mem_store_nil]
  | succ k ih =>
    intro r m fromp top hr hb hd
    have h0 : m fromp < 256 := hb 0 (by omega)
    have h1 : m (fromp + 1) < 256 := hb 1 (by omega)
    have h2 : m (fromp + 2) < 256 := hb 2 (by omega)
    rw [base64_encode_loop_pass m fromp top _ (by omega) h0 h1 h2 (by omega)]
    have hlen : 3 * (k + 1) + r - 3 = 3 * k + r := by omega
    have hout : ∀ i < 3 * k,
        mem_store m top (rfc4648_encode [m fromp, m (fromp + 1), m (fromp + 2)])
          (fromp + 3 + i) = m (fromp + 3 + i) := by
      intro i hi
      apply mem_store_outside
      simp only [rfc4648_encode, List.length_cons, List.length_nil]
      omega
    rw [hlen, ih r _ (fromp + 3) (top + 4) hr
      (by
        intro i hi
        rw [hout i hi]
        have := hb (3 + i) (by omega)
        rwa [← Nat.add_assoc] at this)
      (by omega)]
    rw [mem_load_congr m _ (fromp + 3) (3 * k) hout]
    have hl : mem_load m fromp (3 * (k + 1)) =
        m fromp :: m (fromp + 1) :: m (fromp + 2) :: mem_load m (fromp + 3) (3 * k) := by
      have : 3 * (k + 1) = 3 * k + 1 + 1 + 1 := by omega
      rw [this, mem_load_succ, mem_load_succ, mem_load_succ]
    have happ := mem_store_append m top
      (rfc4648_encode [m fromp, m (fromp + 1), m (fromp + 2)])
      (rfc4648_encode (mem_load m (fromp + 3) (3 * k)))
    have hql : (rfc4648_encode [m fromp, m (fromp + 1), m (fromp + 2)]).length = 4 := by
      simp [rfc4648_encode]
    rw [hql] at happ
    rw [happ, hl]
    have henc : rfc4648_encode
        (m fromp :: m (fromp + 1) :: m (fromp + 2) :: mem_load m (fromp + 3) (3 * k)) =
        rfc4648_encode [m fromp, m (fromp + 1), m (fromp + 2)] ++
          rfc4648_encode (mem_load m (fromp + 3) (3 * k)) := by
      simp [rfc4648_encode]
    rw [henc]
    congr 2
    · omega
    · congr 1
      omega

/-! ## The encoding of RFC 4648 -/

theorem mem_load_add (m : Mem) (src a b : Nat) :
    mem_load m src (a + b) = mem_load m src a ++ mem_load m (src + a) b := by
  induction a generalizing src with
  | zero => simp [mem_load_zero]
  | succ n ih =>
    have : n + 1 + b = (n + b) + 1 := by omega
    rw [this, mem_load_succ, mem_load_succ, ih]
    simp only [List.cons_append]
    congr 3
    omega

/-- The encoding of a list that starts with whole groups is the encoding of those
groups followed by the encoding of the rest. -/
theorem rfc4648_encode_append :
    ∀ (k : Nat) (pre suf : List Nat), pre.length = 3 * k →
      rfc4648_encode (pre ++ suf) = rfc4648_encode pre ++ rfc4648_encode suf := by
  intro k
  induction k with
  | zero =>
    intro pre suf h
    have : pre = [] := List.length_eq_zero.mp (by omega)
    subst this
    simp [rfc4648_encode]
  | succ k ih =>
    intro pre suf h
    match pre, h with
    | b0 :: b1 :: b2 :: rest, h =>
      have hr : rest.length = 3 * k := by
        simp only [List.length_cons] at h
        omega
      simp only [List.cons_append, rfc4648_encode]
      rw [← ih rest suf hr]
      rfl

/-- The encoding has four characters for each group of three bytes, whole or not. -/
theorem rfc4648_encode_length :
    ∀ (n : Nat) (bs : List Nat), bs.length = n →
      (rfc4648_encode bs).length = 4 * ((n + 2) / 3) := by
  intro n
  induction n using Nat.strong_induction_on with
  | _ n ih =>
    intro bs h
    match bs, h with
    | [], h =>
      simp only [List.length_nil] at h
      subst h
      simp [rfc4648_encode]
    | [_], h =>
      simp only [List.length_cons, List.length_nil] at h
      subst h
      simp [rfc4648_encode]
    | [_, _], h =>
      simp only [List.length_cons, List.length_nil] at h
      subst h
      simp [rfc4648_encode]
    | b0 :: b1 :: b2 :: rest, h =>
      simp only [List.length_cons] at h
      have := ih rest.length (by omega) rest rfl
      simp only [rfc4648_encode, List.length_cons, this]
      omega

set_option maxRecDepth 100000 in
theorem byte_or_zero_4 : ∀ a < 4, ((a * 16) ||| ((0 : Nat) >>> 4)) % 256 = a * 16 := by decide

theorem rfc4648_final_1 (c0 : Nat) (h0 : c0 < 256) :
    c0 * 16 / 64 % 64 = c0 / 4 ∧ c0 * 16 % 64 = c0 % 4 * 16 := by
  omega

theorem rfc4648_final_2 (c0 c1 : Nat) (h0 : c0 < 256) (h1 : c1 < 256) :
    (c0 * 256 + c1) * 4 / 4096 % 64 = c0 / 4 ∧
    (c0 * 256 + c1) * 4 / 64 % 64 = c0 % 4 * 16 + c1 / 16 ∧
    (c0 * 256 + c1) * 4 % 64 = c1 % 16 * 4 := by
  omega

/-- The whole of `base64_encode` on `len` bytes that lie apart from the place of the
output: it returns the length of the encoding of RFC 4648 and leaves memory as it
was but for the encoding and a NUL behind it, stored at `to`. -/
theorem base64_encode_spec (m : Mem) (to_ from_ len : Nat)
    (hb : ∀ i < len, m (from_ + i) < 256)
    (hd : to_ + 4 * ((len + 2) / 3) + 1 ≤ from_ ∨ from_ + len ≤ to_) :
    base64_encode m to_ from_ len =
      (((4 * ((len + 2) / 3) : Nat) : Int),
        mem_store m to_ (rfc4648_encode (mem_load m from_ len) ++ [0])) := by
  obtain ⟨k, r, hr, hlen⟩ : ∃ k r, r < 3 ∧ len = 3 * k + r :=
    ⟨len / 3, len % 3, Nat.mod_lt _ (by decide), by omega⟩
  subst hlen
  have hloop := base64_encode_loop_spec k r m from_ to_ hr (fun i hi => hb i (by omega))
    (by omega)
  have hplen : (rfc4648_encode (mem_load m from_ (3 * k))).length = 4 * k := by
    rw [rfc4648_encode_length (3 * k) _ (mem_load_length _ _ _)]
    omega
  have henc : rfc4648_encode (mem_load m from_ (3 * k + r)) =
      rfc4648_encode (mem_load m from_ (3 * k)) ++
        rfc4648_encode (mem_load m (from_ + 3 * k) r) := by
    rw [mem_load_add, rfc4648_encode_append k _ _ (mem_load_length _ _ _)]
  have hout : ∀ a, (a < to_ ∨ to_ + 4 * k ≤ a) →
      mem_store m to_ (rfc4648_encode (mem_load m from_ (3 * k))) a = m a := by
    intro a ha
    apply mem_store_outside
    rw [hplen]
    omega
  have hs : ∀ (m1 : Mem) (xs ys : List Nat), xs.length = 4 * k →
      mem_store (mem_store m1 to_ xs) (to_ + 4 * k) ys = mem_store m1 to_ (xs ++ ys) := by
    intro m1 xs ys hx
    rw [← hx]
    exact mem_store_append m1 to_ xs ys
  have hs4 : ∀ (m1 : Mem) (top a b c d e : Nat),
      mem_store (mem_store (mem_store (mem_store (mem_store m1 top [a]) (top + 1) [b])
        (top + 1 + 1) [c]) (top + 1 + 1 + 1) [d]) (top + 1 + 1 + 1 + 1) [e] =
        mem_store m1 top [a, b, c, d, e] := by
    intro m1 top a b c d e
    have s1 := mem_store_append m1 top [a] [b]
    have s2 := mem_store_append m1 top [a, b] [c]
    have s3 := mem_store_append m1 top [a, b, c] [d]
    have s4 := mem_store_append m1 top [a, b, c, d] [e]
    simp only [List.length_cons, List.length_nil, List.cons_append, List.nil_append,
      Nat.zero_add] at s1 s2 s3 s4
    rw [s1, s2, s3, s4]
  unfold base64_encode
  simp only [hloop]
  rw [henc]
  have hr3 : r = 0 ∨ r = 1 ∨ r = 2 := by omega
  rcases hr3 with rfl | rfl | rfl
  · simp only [ne_eq, not_true_eq_false, if_false, mem_load_zero, rfc4648_encode,
      List.append_nil]
    rw [hs _ _ _ hplen]
    congr 1
    push_cast
    omega
  · have h0 : m (from_ + 3 * k) < 256 := hb (3 * k) (by omega)
    have hm0 : mem_store m to_ (rfc4648_encode (mem_load m from_ (3 * k))) (from_ + 3 * k) =
        m (from_ + 3 * k) := hout _ (by omega)
    have g := rfc4648_final_1 (m (from_ + 3 * k)) h0
    have hl1 : mem_load m (from_ + 3 * k) 1 = [m (from_ + 3 * k)] := by
      rw [mem_load_succ, mem_load_zero]
    simp only [ne_eq, Nat.succ_ne_zero, not_false_eq_true, if_true, Nat.sub_self,
      not_true_eq_false, if_false, hm0, Nat.mod_eq_of_lt h0, one_ne_zero]
    rw [byte_shift_right_2 _ h0, byte_mask_30 _ h0,
      byte_or_zero_4 _ (Nat.mod_lt _ (by decide)),
      b64string_alphabet _ (by omega), b64string_alphabet _ (by omega)]
    rw [hs4, hs _ _ _ hplen, hl1]
    simp only [rfc4648_encode, g.1, g.2, List.append_assoc, List.cons_append,
      List.nil_append]
    congr 1
    push_cast
    omega
  · have h0 : m (from_ + 3 * k) < 256 := hb (3 * k) (by omega)
    have h1 : m (from_ + 3 * k + 1) < 256 := hb (3 * k + 1) (by omega)
    have hm0 : mem_store m to_ (rfc4648_encode (mem_load m from_ (3 * k))) (from_ + 3 * k) =
        m (from_ + 3 * k) := hout _ (by omega)
    have hm1 : mem_store m to_ (rfc4648_encode (mem_load m from_ (3 * k)))
        (from_ + 3 * k + 1) = m (from_ + 3 * k + 1) := hout _ (by omega)
    have g := rfc4648_final_2 (m (from_ + 3 * k)) (m (from_ + 3 * k + 1)) h0 h1
    have hl2 : mem_load m (from_ + 3 * k) 2 = [m (from_ + 3 * k), m (from_ + 3 * k + 1)] := by
      rw [mem_load_succ, mem_load_succ, mem_load_zero]
    have e21 : (2 : Nat) - 1 ≠ 0 := by decide
    simp only [ne_eq, OfNat.ofNat_ne_zero, not_false_eq_true, if_true, hm0, hm1,
      Nat.mod_eq_of_lt h0, Nat.mod_eq_of_lt h1, e21]
    rw [byte_shift_right_2 _ h0, byte_mask_30 _ h0,
      byte_or_high_4 _ (Nat.mod_lt _ (by decide)) _ h1, byte_mask_3C _ h1,
      b64string_alphabet _ (by omega), b64string_alphabet _ (by omega),
      b64string_alphabet _ (by omega)]
    rw [hs4, hs _ _ _ hplen, hl2]
    simp only [rfc4648_encode, g.1, g.2.1, g.2.2, List.append_assoc, List.cons_append,
      List.nil_append]
    congr 1
    push_cast
    omega

/-! ## Alphabet, padding and decoding -/

theorem rfc4648_value_alphabet : ∀ v < 64, rfc4648_value (rfc4648_alphabet v) = some v := by
  decide

theorem rfc4648_alphabet_ne_pad (v : Nat) : rfc4648_alphabet v ≠ 61 := by
  unfold rfc4648_alphabet
  split
  · omega
  · split
    · omega
    · split
      · omega
      · split <;> omega

theorem rfc4648_value_mod (x : Nat) :
    rfc4648_value (rfc4648_alphabet (x % 64)) = some (x % 64) :=
  rfc4648_value_alphabet _ (Nat.mod_lt _ (by decide))

/-- The encoding consists of characters of the alphabet followed by the padding: no
`=` for a length that is a multiple of 3, two for a remainder of 1, one for a
remainder of 2. -/
theorem rfc4648_encode_shape :
    ∀ (n : Nat) (bs : List Nat), bs.length = n →
      ∃ body, rfc4648_encode bs =
          body ++ List.replicate (if n % 3 = 0 then 0 else if n % 3 = 1 then 2 else 1) 61 ∧
        ∀ c ∈ body, ∃ v, v < 64 ∧ c = rfc4648_alphabet v := by
  intro n
  induction n using Nat.strong_induction_on with
  | _ n ih =>
    intro bs h
    match bs, h with
    | [], h =>
      simp only [List.length_nil] at h
      subst h
      exact ⟨[], by simp [rfc4648_encode], by simp⟩
    | [b0], h =>
      simp only [List.length_cons, List.length_nil] at h
      subst h
      refine ⟨[rfc4648_alphabet (b0 * 16 / 64 % 64), rfc4648_alphabet (b0 * 16 % 64)],
        by simp [rfc4648_encode, List.replicate], ?_⟩
      intro c hc
      simp only [List.mem_cons, List.mem_singleton, List.not_mem_nil, or_false] at hc
      rcases hc with hc | hc
      · exact ⟨_, Nat.mod_lt _ (by decide), hc⟩
      · exact ⟨_, Nat.mod_lt _ (by decide), hc⟩
    | [b0, b1], h =>
      simp only [List.length_cons, List.length_nil] at h
      subst h
      refine ⟨[rfc4648_alphabet ((b0 * 256 + b1) * 4 / 4096 % 64),
          rfc4648_alphabet ((b0 * 256 + b1) * 4 / 64 % 64),
          rfc4648_alphabet ((b0 * 256 + b1) * 4 % 64)],
        by simp [rfc4648_encode, List.replicate], ?_⟩
      intro c hc
      simp only [List.mem_cons, List.mem_singleton, List.not_mem_nil, or_false] at hc
      rcases hc with hc | hc | hc
      · exact ⟨_, Nat.mod_lt _ (by decide), hc⟩
      · exact ⟨_, Nat.mod_lt _ (by decide), hc⟩
      · exact ⟨_, Nat.mod_lt _ (by decide), hc⟩
    | b0 :: b1 :: b2 :: rest, h =>
      simp only [List.length_cons] at h
      obtain ⟨body, hb, hc⟩ := ih rest.length (by omega) rest rfl
      have hmod : n % 3 = rest.length % 3 := by omega
      refine ⟨rfc4648_alphabet ((b0 * 65536 + b1 * 256 + b2) / 262144 % 64) ::
          rfc4648_alphabet ((b0 * 65536 + b1 * 256 + b2) / 4096 % 64) ::
          rfc4648_alphabet ((b0 * 65536 + b1 * 256 + b2) / 64 % 64) ::
          rfc4648_alphabet ((b0 * 65536 + b1 * 256 + b2) % 64) :: body, ?_, ?_⟩
      · simp only [rfc4648_encode, hb, hmod, List.cons_append]
      · intro c hmem
        simp only [List.mem_cons] at hmem
        rcases hmem with h1 | h1 | h1 | h1 | h1
        · exact ⟨_, Nat.mod_lt _ (by decide), h1⟩
        · exact ⟨_, Nat.mod_lt _ (by decide), h1⟩
        · exact ⟨_, Nat.mod_lt _ (by decide), h1⟩
        · exact ⟨_, Nat.mod_lt _ (by decide), h1⟩
        · exact hc c h1

/-- Decoding the encoding of a list of bytes gives the list back. -/
theorem rfc4648_decode_encode :
    ∀ (n : Nat) (bs : List Nat), bs.length = n → (∀ b ∈ bs, b < 256) →
      rfc4648_decode (rfc4648_encode bs) = some bs := by
  intro n
  induction n using Nat.strong_induction_on with
  | _ n ih =>
    intro bs h hbytes
    match bs, h, hbytes with
    | [], _, _ => simp [rfc4648_encode, rfc4648_decode]
    | [b0], _, hbytes =>
      have h0 : b0 < 256 := hbytes b0 (by simp)
      simp only [rfc4648_encode, rfc4648_decode, and_self, if_true, rfc4648_value_mod]
      simp only [Option.some.injEq, List.cons.injEq, and_true]
      omega
    | [b0, b1], _, hbytes =>
      have h0 : b0 < 256 := hbytes b0 (by simp)
      have h1 : b1 < 256 := hbytes b1 (by simp)
      simp only [rfc4648_encode, rfc4648_decode, and_self, if_true,
        if_neg (rfc4648_alphabet_ne_pad _), rfc4648_value_mod]
      simp only [Option.some.injEq, List.cons.injEq, and_true]
      omega
    | b0 :: b1 :: b2 :: rest, h, hbytes =>
      have h0 : b0 < 256 := hbytes b0 (by simp)
      have h1 : b1 < 256 := hbytes b1 (by simp)
      have h2 : b2 < 256 := hbytes b2 (by simp)
      simp only [List.length_cons] at h
      have hrest := ih rest.length (by omega) rest rfl
        (fun b hb => hbytes b (by simp [hb]))
      simp only [rfc4648_encode, rfc4648_decode, rfc4648_alphabet_ne_pad, false_and,
        if_false, rfc4648_value_mod, hrest]
      simp only [Option.some.injEq, List.cons.injEq, and_true]
      omega

theorem mem_load_store_front (m : Mem) (dst : Nat) (xs ys : List Nat) :
    mem_load (mem_store m dst (xs ++ ys)) dst xs.length = xs := by
  rw [← mem_store_append]
  have h := mem_load_congr (mem_store m dst xs)
    (mem_store (mem_store m dst xs) (dst + xs.length) ys) dst xs.length
    (fun i hi => mem_store_outside _ _ _ _ (by omega))
  rw [h, mem_load_store]

/-- C25. `base64_encode` is standard base64. For `len` bytes at `from` (`len` an
`unsigned int`) and an output at `to` that does not overlap them, with
`n = 4 * ceil(len / 3)`, written `4 * ((len + 2) / 3)`: the function returns `n`;
the `n` bytes it leaves at `to` are the RFC 4648 encoding of the input and the byte
behind them is NUL; no other byte of memory is changed; the encoding consists of
characters of the alphabet `A`-`Z`, `a`-`z`, `0`-`9`, `+`, `/` followed by the
padding, which is no `=` when `len mod 3 = 0`, two when it is 1 and one when it is
2; and the RFC 4648 decoding of the output is the input. -/
theorem base64_encode_standard (m : Mem) (to_ from_ len : Nat)
    (hlen : len < 4294967296)
    (hb : ∀ i < len, m (from_ + i) < 256)
    (hd : to_ + 4 * ((len + 2) / 3) + 1 ≤ from_ ∨ from_ + len ≤ to_) :
    (base64_encode m to_ from_ len).1 = ((4 * ((len + 2) / 3) : Nat) : Int) ∧
    (len % 3 = 0 → 4 * ((len + 2) / 3) = 4 * (len / 3)) ∧
    (len % 3 ≠ 0 → 4 * ((len + 2) / 3) = 4 * (len / 3 + 1)) ∧
    (base64_encode m to_ from_ len).1 < 9223372036854775808 ∧
    mem_load (base64_encode m to_ from_ len).2 to_ (4 * ((len + 2) / 3)) =
      rfc4648_encode (mem_load m from_ len) ∧
    (base64_encode m to_ from_ len).2 (to_ + 4 * ((len + 2) / 3)) = 0 ∧
    (∀ a, a < to_ ∨ to_ + 4 * ((len + 2) / 3) < a →
      (base64_encode m to_ from_ len).2 a = m a) ∧
    (∃ body,
      mem_load (base64_encode m to_ from_ len).2 to_ (4 * ((len + 2) / 3)) =
        body ++ List.replicate (if len % 3 = 0 then 0 else if len % 3 = 1 then 2 else 1) 61 ∧
      ∀ c ∈ body, c ≠ 61 ∧ rfc4648_value c ≠ none ∧ c ∈ b64string.take 64) ∧
    rfc4648_decode (mem_load (base64_encode m to_ from_ len).2 to_ (4 * ((len + 2) / 3))) =
      some (mem_load m from_ len) := by
  have hspec := base64_encode_spec m to_ from_ len hb hd
  have hel : (rfc4648_encode (mem_load m from_ len)).length = 4 * ((len + 2) / 3) :=
    rfc4648_encode_length len _ (mem_load_length _ _ _)
  have hload : mem_load (base64_encode m to_ from_ len).2 to_ (4 * ((len + 2) / 3)) =
      rfc4648_encode (mem_load m from_ len) := by
    rw [hspec, ← hel]
    exact mem_load_store_front m to_ _ [0]
  have hbytes : ∀ b ∈ mem_load m from_ len, b < 256 := by
    intro b hmem
    simp only [mem_load, List.mem_map, List.mem_range] at hmem
    obtain ⟨i, hi, rfl⟩ := hmem
    exact hb i hi
  refine ⟨?_, by omega, by omega, ?_, hload, ?_, ?_, ?_, ?_⟩
  · rw [hspec]
  · rw [hspec]
    show ((4 * ((len + 2) / 3) : Nat) : Int) < 9223372036854775808
    omega
  · rw [hspec]
    show mem_store m to_ (rfc4648_encode (mem_load m from_ len) ++ [0])
      (to_ + 4 * ((len + 2) / 3)) = 0
    rw [← hel]
    have := mem_store_inside m to_ (rfc4648_encode (mem_load m from_ len) ++ [0])
      (rfc4648_encode (mem_load m from_ len)).length (by simp)
    rw [this]
    simp
  · intro a ha
    rw [hspec]
    apply mem_store_outside
    rw [List.length_append, hel]
    simp only [List.length_cons, List.length_nil]
    omega
  · obtain ⟨body, hbody, hc⟩ := rfc4648_encode_shape len _ (mem_load_length m from_ len)
    refine ⟨body, by rw [hload, hbody], ?_⟩
    intro c hmem
    obtain ⟨v, hv, rfl⟩ := hc c hmem
    refine ⟨rfc4648_alphabet_ne_pad v, by rw [rfc4648_value_alphabet v hv]; simp, ?_⟩
    rw [← b64string_alphabet v hv]
    have hlt : v < (b64string.take 64).length := by
      have : (b64string.take 64).length = 64 := by decide
      omega
    have hget : b64string.getD v 0 = (b64string.take 64)[v] := by
      rw [List.getD_eq_getElem?_getD, List.getElem_take]
      have hv2 : v < b64string.length := by
        have : b64string.length = 65 := by decide
        omega
      simp [hv2]
    rw [hget]
    exact List.getElem_mem _
  · rw [hload]
    exact rfc4648_decode_encode len _ (mem_load_length _ _ _) hbytes

theorem base64_encode_standard_witness :
    (base64_encode (mem_store (fun _ => 0) 100 [77, 97, 110, 121]) 200 100 4).1 = 8 ∧
    mem_load (base64_encode (mem_store (fun _ => 0) 100 [77, 97, 110, 121]) 200 100 4).2
      200 8 = [84, 87, 70, 117, 101, 81, 61, 61] ∧
    (base64_encode (mem_store (fun _ => 0) 100 [77, 97, 110, 121]) 200 100 4).2 208 = 0 := by
  have h := base64_encode_standard (mem_store (fun _ => 0) 100 [77, 97, 110, 121]) 200 100 4
    (by decide) (by decide) (by decide)
  have hin : mem_load (mem_store (fun _ => 0) 100 [77, 97, 110, 121]) 100 4 =
      [77, 97, 110, 121] := mem_load_store (fun _ => 0) 100 [77, 97, 110, 121]
  refine ⟨h.1, ?_, h.2.2.2.2.2.1⟩
  rw [h.2.2.2.2.1, hin]
  decide


/-! ## The frame that ends an RPC -/

theorem amqp_simple_rpc_eq_local {σ : Type} (X : Externals σ)
    (state : amqp_connection_state_t σ) (channel request_id : Nat)
    (expected_reply_ids : List Nat) (decoded : Nat) :
    amqp_simple_rpc X state channel request_id expected_reply_ids decoded =
      amqp_simple_rpc_local X state channel request_id expected_reply_ids decoded
        amqp_frame_t.indeterminate := rfl

end Amqp
